import Mathlib

/-!
# MUFITS container codec and cell reindexer

A shallow embedding of `mufitsio.c` (tagged-record scanner, schema decoder,
container opener, selective data decoder, data encoder) and of the cell
reindexing part of `mufits2matlab.c`, followed by the properties proved of them.

Conventions of the embedding
* a byte is a natural number; a stream or buffer slice is a `List Nat`;
* `int32_t`, `int64_t` and `int` values are integers (`Int`); where the C
  arithmetic is done in a narrower type the result is wrapped explicitly;
* multi-byte integers are little-endian (the byte order of the reference tool);
* `long` and `size_t` are 64 bits wide (LP64);
* `assert` is active: a failed assertion aborts the call (`Fault.assert_failed`);
* an access outside an allocated array is reported as `Fault.out_of_bounds`
  (or `none` in the reindexer) instead of being given a meaning;
* device faults (`ferror`) and allocation failure are outside the model.
-/

namespace Mufits

/-! ## Machine integers -/

/-- Wrap an integer to the range of a signed 32-bit `int`. -/
def wrap32 (x : Int) : Int := (x + 2147483648) % 4294967296 - 2147483648

/-! ## Canonical cell reindexer (`mufits2matlab.c`) -/

/-- The comparator `int32_pair_cmp`: the difference of the two keys, computed in `int`. -/
def int32_pair_cmp (v1 v2 : Int × Int) : Int := wrap32 (v1.1 - v2.1)

/-- First loop of `remap_ids`: `sorter[2*idx] = ids[idx]`, `sorter[2*idx+1] = idx`. -/
def fill_sorter : List Int → Nat → List (Int × Int)
  | [], _ => []
  | k :: rest, idx => (k, (idx : Int)) :: fill_sorter rest (idx + 1)

/-- Contract of the library call `qsort(sorter, num_cells, 8, int32_pair_cmp)`:
the array afterwards is a rearrangement of the array before, and the comparator
is non-positive on every pair taken in array order. The order in which equal
keys end up is left open, as in the C standard. -/
def qsort_post (before after : List (Int × Int)) : Prop :=
  after.Perm before ∧ after.Pairwise (fun a b => int32_pair_cmp a b ≤ 0)

/-- One admissible `qsort`: insertion sort with the comparator. -/
def qsort (sorter : List (Int × Int)) : List (Int × Int) :=
  List.insertionSort (fun a b => int32_pair_cmp a b ≤ 0) sorter

/-- Second loop of `remap_ids`: `map[sorter[2*idx]] = idx`, for `idx` counting
up from the given start. `none` when a key indexes outside `map`. -/
def fill_map : List (Int × Int) → Nat → List Int → Option (List Int)
  | [], _, map => some map
  | e :: rest, idx, map =>
    if 0 ≤ e.1 ∧ e.1.toNat < map.length then
      fill_map rest (idx + 1) (map.set e.1.toNat (idx : Int))
    else none

/-- Third loop of `remap_ids`: `ids[idx] = map[ids[idx]]`. `none` when a key
indexes outside `map`. -/
def lookup_ids (map : List Int) : List Int → Option (List Int)
  | [] => some []
  | k :: rest =>
    if 0 ≤ k ∧ k.toNat < map.length then
      match lookup_ids map rest with
      | some r => some (map.getD k.toNat 0 :: r)
      | none => none
    else none

/-- The body of `remap_ids` from the point where `qsort` has returned and left
`sorter`; `num_cells` is `ids.length`. With `num_cells = 0` the size of `map`
is read from `sorter[-2]`, before the start of the array. The table has
`sorter[2*(num_cells-1)] + 1` entries, the sum being computed in `int`, and is
zero-initialised (`calloc`). -/
def remap_ids_sorted (sorter : List (Int × Int)) (ids : List Int) : Option (List Int) :=
  if ids.length = 0 then none
  else
    match sorter.get? (ids.length - 1) with
    | none => none
    | some last =>
      match fill_map sorter 0 (List.replicate (wrap32 (last.1 + 1)).toNat 0) with
      | none => none
      | some map => lookup_ids map ids

/-- The function `remap_ids`, with `qsort` for the library sort. The result is the
content of `ids` on return; `none` stands for an out-of-bounds access. -/
def remap_ids (ids : List Int) : Option (List Int) :=
  remap_ids_sorted (qsort (fill_sorter ids 0)) ids

/-- The loop of `sort_field`: `field[ids[idx]] = tmp[idx]` for the remaining
entries of `tmp` and `ids`. -/
def sort_field_loop {α : Type} : List α → List Int → List α → Option (List α)
  | [], _, field => some field
  | _ :: _, [], _ => none
  | t :: tmp, i :: ids, field =>
    if 0 ≤ i ∧ i.toNat < field.length then sort_field_loop tmp ids (field.set i.toNat t)
    else none

/-- The function `sort_field`; `num_cells` is `field.length` and `tmp` is the
copy of `field` taken on entry. The elements are only moved, so the element
type is left generic. -/
def sort_field {α : Type} (field : List α) (ids : List Int) : Option (List α) :=
  sort_field_loop field ids field

/-- The in-memory part of `convert_sum_file` after the decode (lines 236-247), from
the point where `qsort` has left `sorter`: the ids have been decremented
(`cell_id[idx]--`), then `remap_ids`, `sort_field` on both fields, and the
pressures multiplied by `1e5`. Field values are rationals: the `double`
product `x * 1e5` is exact whenever `x * 100000` is an integer below `2^53`,
which covers the values the properties below use. -/
def convert_fields_sorted (sorter : List (Int × Int)) (cell_id : List Int)
    (pressure temperature : List ℚ) : Option (List ℚ × List ℚ) :=
  match remap_ids_sorted sorter (cell_id.map (fun c => wrap32 (c - 1))) with
  | none => none
  | some ids =>
    match sort_field pressure ids, sort_field temperature ids with
    | some p, some t => some (p.map (fun x => x * 100000), t)
    | _, _ => none

/-- The same with `qsort` for the library sort. -/
def convert_fields (cell_id : List Int) (pressure temperature : List ℚ) :
    Option (List ℚ × List ℚ) :=
  convert_fields_sorted (qsort (fill_sorter (cell_id.map (fun c => wrap32 (c - 1))) 0))
    cell_id pressure temperature

/-! ## Status codes and outcomes (`mufitsio.h`) -/

/-- The return codes `mf_status_t`. -/
inductive mf_status
  | MF_OK
  | MF_ERROR_FAILED_IO_OPERATION
  | MF_ERROR_INVALID_FILE
  | MF_ERROR_INVALID_READ_REQUEST
  | MF_ERROR_MISSING_PROPERTY
  | MF_ERROR_UNSUPPORTED_FEATURE_REQUIRED
  deriving DecidableEq, Repr

/-- How a call can end other than with `MF_OK`: it returns an error code, an
`assert` fails and the process aborts, or it accesses an array outside its
bounds. -/
inductive Fault
  | status (e : mf_status)
  | assert_failed
  | out_of_bounds
  deriving DecidableEq, Repr

deriving instance DecidableEq for Except

/-- The enumeration `mf_file_format_t`. -/
inductive mf_file_format
  | MF_BINARY
  | MF_ASCII
  deriving DecidableEq, Repr

/-- The enumeration `mf_data_type_t`. -/
inductive mf_data_type
  | MF_INT1
  | MF_INT2
  | MF_INT4
  | MF_REAL4
  | MF_REAL8
  | MF_CHAR4
  | MF_CHAR8
  deriving DecidableEq, Repr

/-- The enumeration `mf_output_mode_t`. -/
inductive mf_output_mode
  | MF_SINGLE
  | MF_DOUBLE
  deriving DecidableEq, Repr

/-- The enumeration `mf_phase_state_t`. -/
inductive mf_phase_state
  | MF_STATE0
  | MF_STATE1
  deriving DecidableEq, Repr

/-- The structure `mf_property_t`; `name` and `dimension` are the eight bytes
before the terminating zero. -/
structure mf_property where
  name : List Nat
  dimension : List Nat
  data_type : mf_data_type
  output_mode : mf_output_mode
  phase_state : mf_phase_state
  deriving DecidableEq, Repr

/-- The structure `mf_arrays_t`; the array `properties` carries its length, which
is the field `num_properties`. -/
structure mf_arrays where
  num_objects : Int
  properties : List mf_property
  deriving DecidableEq, Repr

/-- The field `num_properties` of `mf_arrays_t`. -/
def mf_arrays.num_properties (a : mf_arrays) : Int := a.properties.length

/-- The structure `mf_data_t`. `bytes` is the memory the pointer refers to, by
byte offset; for a `MF_DOUBLE` property the pointer refers to two buffers,
`bytes` and `bytes1`. -/
structure mf_data where
  bytes : Nat → Nat
  bytes1 : Nat → Nat
  stride : Nat
  count : Int

instance : Inhabited mf_data := ⟨⟨fun _ => 0, fun _ => 0, 0, 0⟩⟩

/-- The structure `mf_sum_block_query_t`; `num_items` is the length of `names`. -/
structure mf_sum_block_query where
  names : List (List Nat)
  deriving DecidableEq, Repr

/-- The field `num_items` of `mf_sum_block_query_t`. -/
def mf_sum_block_query.num_items (q : mf_sum_block_query) : Int := q.names.length

/-! ## Byte streams (`FILE *`) -/

/-- A stream opened for reading: the content of the file, the position indicator
and the end-of-file indicator. -/
structure FILE where
  bytes : List Nat
  pos : Nat
  eof : Bool
  deriving DecidableEq, Repr

/-- The largest `long`. -/
def LONG_MAX : Int := 9223372036854775807

/-- The call `fread(buf, n, 1, stream)`: the stream afterwards and the bytes
stored in `buf`. With `n = 0` nothing happens. When fewer than `n` bytes are
left, the bytes that are left are stored, the position moves to the end and
the end-of-file indicator is set. -/
def fread (s : FILE) (n : Nat) : FILE × List Nat :=
  if n = 0 then (s, [])
  else
    let chunk := (s.bytes.drop s.pos).take n
    if chunk.length = n then ({ s with pos := s.pos + n }, chunk)
    else ({ s with pos := s.pos + chunk.length, eof := true }, chunk)

/-- The call `fseek(stream, off, SEEK_CUR)`. A target position that is negative or
beyond `LONG_MAX` makes the call fail and leaves the stream as it is;
otherwise the position moves (also beyond the end of the file) and the
end-of-file indicator is cleared. -/
def fseek_cur (s : FILE) (off : Int) : FILE :=
  if (s.pos : Int) + off < 0 ∨ LONG_MAX < (s.pos : Int) + off then s
  else { s with pos := ((s.pos : Int) + off).toNat, eof := false }

/-- The call `fseek(stream, off, SEEK_SET)`. -/
def fseek_set (s : FILE) (off : Int) : FILE :=
  if off < 0 then s else { s with pos := off.toNat, eof := false }

/-- The call `ftell(stream)`. -/
def ftell (s : FILE) : Int := s.pos

/-- The value of a byte read into an `int8_t`. -/
def to_int8 (b : Nat) : Int :=
  if b % 256 < 128 then ((b % 256 : Nat) : Int) else ((b % 256 : Nat) : Int) - 256

/-- Conversion of an integer to `size_t`. -/
def to_size_t (x : Int) : Nat := (x % 18446744073709551616).toNat

/-- Conversion of a `size_t` to `long`. -/
def to_long (n : Nat) : Int :=
  if n % 18446744073709551616 < 9223372036854775808 then
    ((n % 18446744073709551616 : Nat) : Int)
  else ((n % 18446744073709551616 : Nat) : Int) - 18446744073709551616

/-! ## Selective data decoder (`read_data`) -/

/-- The function `elem_size`. -/
def elem_size : mf_data_type → Nat
  | .MF_INT1 => 1
  | .MF_INT2 => 2
  | .MF_INT4 => 4
  | .MF_REAL4 => 4
  | .MF_CHAR4 => 4
  | .MF_REAL8 => 8
  | .MF_CHAR8 => 8

/-- The test `!memcmp(a, b, 8)`. -/
def memcmp8 (a b : List Nat) : Bool := decide (a.take 8 = b.take 8)

/-- The mnemonic `"PHST    "`. -/
def PHST : List Nat := [80, 72, 83, 84, 32, 32, 32, 32]

/-- One call `fread(dst + pos, n, 1, stream)` of `read_data` into a destination
buffer: the request it serves, the property and object it belongs to, which of
the two buffers (`half` 0 or 1; always 0 for `MF_SINGLE`), the byte offset and
the bytes stored. -/
structure dst_write where
  req_idx : Nat
  prop_idx : Nat
  obj_idx : Nat
  half : Nat
  pos : Nat
  bytes : List Nat
  deriving DecidableEq, Repr

/-- The inner loop of the name resolution (lines 604-612): the index of the first
property, counting from `prop_idx`, whose name matches. -/
def find_property (name : List Nat) : List mf_property → Nat → Option Nat
  | [], _ => none
  | p :: ps, prop_idx =>
    if memcmp8 name p.name then some prop_idx else find_property name ps (prop_idx + 1)

/-- The outer loop of the name resolution (lines 602-619), for the requests from
`req_idx` on: fills `req_indices` and accumulates `max_count`. The caller
supplies one descriptor in `data` per requested name. -/
def resolve_requests (props : List mf_property) (data : List mf_data) :
    List (List Nat) → Nat → List Int → Int → Except Fault (List Int × Int)
  | [], _, req_indices, max_count => .ok (req_indices, max_count)
  | name :: names, req_idx, req_indices, max_count =>
    match find_property name props 0 with
    | none => .error (.status .MF_ERROR_MISSING_PROPERTY)
    | some prop_idx =>
      resolve_requests props data names (req_idx + 1)
        (req_indices.set prop_idx (req_idx : Int))
        (if max_count > (data.getD req_idx default).count then max_count
         else (data.getD req_idx default).count)

/-- The loop of lines 623-629: the index of the last property named `"PHST    "`,
or the initial value. -/
def find_phst : List mf_property → Nat → Int → Int
  | [], _, phst_idx => phst_idx
  | p :: ps, prop_idx, phst_idx =>
    find_phst ps (prop_idx + 1) (if memcmp8 p.name PHST then (prop_idx : Int) else phst_idx)

/-- Lines 638-642: read one byte into `phst`, step back by one, clamp to at least 1. -/
def peek_phst (s : FILE) (phst : Int) : FILE × Int :=
  let r := fread s 1
  let v := match r.2 with
    | b :: _ => to_int8 b
    | [] => phst
  (fseek_cur r.1 (-1), if v ≤ 0 then 1 else v)

/-- The size `bytes_to_skip` of lines 647-653, a `size_t`. -/
def bytes_to_skip (prop : mf_property) (phst : Int) : Nat :=
  let b := elem_size prop.data_type
  let b := if prop.output_mode = .MF_DOUBLE then (b * 2) % 18446744073709551616 else b
  if prop.phase_state = .MF_STATE1 then (b * to_size_t phst) % 18446744073709551616 else b

/-- The size `bytes_to_read` of lines 659-662, a `size_t`. -/
def bytes_to_read (prop : mf_property) (phst : Int) : Nat :=
  let b := elem_size prop.data_type
  if prop.phase_state = .MF_STATE1 then (b * to_size_t phst) % 18446744073709551616 else b

/-- The body of the property loop (lines 636-671) for one property of one object:
the stream and `phst` afterwards and the destination writes made. -/
def read_property (data : List mf_data) (phst_idx : Int) (obj_idx prop_idx : Nat)
    (prop : mf_property) (req_idx : Int) (s : FILE) (phst : Int) :
    FILE × Int × List dst_write :=
  let sp := if (prop_idx : Int) = phst_idx then peek_phst s phst else (s, phst)
  if req_idx < 0 ∨ (obj_idx : Int) ≥ (data.getD req_idx.toNat default).count then
    (fseek_cur sp.1 (to_long (bytes_to_skip prop sp.2)), sp.2, [])
  else
    let pos := (data.getD req_idx.toNat default).stride * obj_idx
    let n := bytes_to_read prop sp.2
    if prop.output_mode = .MF_DOUBLE then
      let r0 := fread sp.1 n
      let r1 := fread r0.1 n
      (r1.1, sp.2, [⟨req_idx.toNat, prop_idx, obj_idx, 0, pos, r0.2⟩,
                    ⟨req_idx.toNat, prop_idx, obj_idx, 1, pos, r1.2⟩])
    else
      let r := fread sp.1 n
      (r.1, sp.2, [⟨req_idx.toNat, prop_idx, obj_idx, 0, pos, r.2⟩])

/-- The property loop (line 635) over the properties from `prop_idx` on. -/
def read_props (data : List mf_data) (req_indices : List Int) (phst_idx : Int) (obj_idx : Nat) :
    List mf_property → Nat → FILE → Int → FILE × Int × List dst_write
  | [], _, s, phst => (s, phst, [])
  | p :: ps, prop_idx, s, phst =>
    let r := read_property data phst_idx obj_idx prop_idx p (req_indices.getD prop_idx (-1)) s phst
    let r2 := read_props data req_indices phst_idx obj_idx ps (prop_idx + 1) r.1 r.2.1
    (r2.1, r2.2.1, r.2.2 ++ r2.2.2)

/-- The object loop (line 633): `n` further objects starting with `obj_idx`; `phst`
is reset to -1 for each. -/
def read_objects (desc : mf_arrays) (data : List mf_data) (req_indices : List Int)
    (phst_idx : Int) : Nat → Nat → FILE → FILE × List dst_write
  | 0, _, s => (s, [])
  | n + 1, obj_idx, s =>
    let r := read_props data req_indices phst_idx obj_idx desc.properties 0 s (-1)
    let r2 := read_objects desc data req_indices phst_idx n (obj_idx + 1) r.1
    (r2.1, r.2.2 ++ r2.2)

/-- What a successful `read_data` leaves: the stream, the number of objects the
object loop went through, and the destination writes in the order made. -/
structure rd_result where
  stream : FILE
  objects : Nat
  log : List dst_write
  deriving DecidableEq, Repr

/-- The bound `max_count` of the object loop (lines 601-620). -/
def clamp_max_count (desc : mf_arrays) (max_count : Int) : Int :=
  if max_count < desc.num_objects then max_count else desc.num_objects

/-- The function `read_data`. -/
def read_data (stream : FILE) (desc : mf_arrays) (query : mf_sum_block_query)
    (data : List mf_data) (offset : Int) : Except Fault rd_result :=
  if desc.num_properties < query.num_items then
    .error (.status .MF_ERROR_INVALID_READ_REQUEST)
  else if query.num_items = 0 then .ok ⟨stream, 0, []⟩
  else
    match resolve_requests desc.properties data query.names 0
        (List.replicate desc.properties.length (-1)) 0 with
    | .error e => .error e
    | .ok (req_indices, max_count) =>
      let r := read_objects desc data req_indices (find_phst desc.properties 0 (-1))
        (clamp_max_count desc max_count).toNat 0 (fseek_set stream offset)
      .ok ⟨r.1, (clamp_max_count desc max_count).toNat, r.2⟩

/-- Memory after storing `bs` at byte offset `pos`. -/
def store (mem : Nat → Nat) (pos : Nat) (bs : List Nat) : Nat → Nat :=
  fun a => if pos ≤ a ∧ a < pos + bs.length then bs.getD (a - pos) 0 else mem a

/-- The content of the destination buffer of request `req` (buffer `half`) after
the writes of `log`, starting from the content `mem`. -/
def mem_after (mem : Nat → Nat) (req half : Nat) : List dst_write → Nat → Nat
  | [] => mem
  | w :: ws =>
    mem_after (if w.req_idx = req ∧ w.half = half then store mem w.pos w.bytes else mem)
      req half ws

/-- The end-of-file indicator of a stream is set only when the position is at or
beyond the end of the file: a read sets it on reaching the end, a seek clears
it. -/
def FILE.consistent (s : FILE) : Prop := s.eof = true → s.bytes.length ≤ s.pos

instance (s : FILE) : Decidable s.consistent := by
  unfold FILE.consistent; infer_instance

/-! ## Layout of a DATA section

The functions below do not come from a C function: they describe, for a
schema and the bytes of a stream, where the values of the objects lie, with
the widths and phase counts computed by the decoder's own `bytes_to_skip`
and `peek_phst`. They are what the properties of `read_data` are stated
against. -/

/-- The phase count in force for property `prop_idx` when the cursor is at `pos` and
the phase count so far is `phst`. -/
def phst_at (bytes : List Nat) (phst_idx : Int) (prop_idx pos : Nat) (phst : Int) : Int :=
  if (prop_idx : Int) = phst_idx then (peek_phst ⟨bytes, pos, false⟩ phst).2 else phst

/-- The position after the values of the properties from `prop_idx` on, of one
object, when all of them lie inside the stream. -/
def props_in_stream (bytes : List Nat) (phst_idx : Int) :
    List mf_property → Nat → Nat → Int → Option Nat
  | [], _, pos, _ => some pos
  | p :: ps, prop_idx, pos, phst =>
    if pos + bytes_to_skip p (phst_at bytes phst_idx prop_idx pos phst) ≤ bytes.length then
      props_in_stream bytes phst_idx ps (prop_idx + 1)
        (pos + bytes_to_skip p (phst_at bytes phst_idx prop_idx pos phst))
        (phst_at bytes phst_idx prop_idx pos phst)
    else none

/-- The position after the records of `n` objects starting at `pos`, when all of
them lie inside the stream. -/
def objects_in_stream (bytes : List Nat) (props : List mf_property) (phst_idx : Int) :
    Nat → Nat → Option Nat
  | 0, pos => some pos
  | n + 1, pos =>
    match props_in_stream bytes phst_idx props 0 pos (-1) with
    | none => none
    | some e => objects_in_stream bytes props phst_idx n e

/-- The DATA section of the block, starting at `offset`, lies inside the stream with
all `num_objects` records, and the stream is not longer than `LONG_MAX`. -/
def data_complete (bytes : List Nat) (desc : mf_arrays) (offset : Nat) : Prop :=
  (bytes.length : Int) ≤ LONG_MAX ∧
    (objects_in_stream bytes desc.properties (find_phst desc.properties 0 (-1))
      desc.num_objects.toNat offset).isSome = true

instance (bytes : List Nat) (desc : mf_arrays) (offset : Nat) :
    Decidable (data_complete bytes desc offset) := by
  unfold data_complete; infer_instance

/-- The destination writes for one property of one object whose value lies at `pos`,
with phase count `phst` in force. -/
def prop_events (data : List mf_data) (obj_idx prop_idx : Nat) (prop : mf_property)
    (req_idx : Int) (bytes : List Nat) (pos : Nat) (phst : Int) : List dst_write :=
  if req_idx < 0 ∨ (obj_idx : Int) ≥ (data.getD req_idx.toNat default).count then []
  else if prop.output_mode = .MF_DOUBLE then
    [⟨req_idx.toNat, prop_idx, obj_idx, 0, (data.getD req_idx.toNat default).stride * obj_idx,
        (bytes.drop pos).take (bytes_to_read prop phst)⟩,
     ⟨req_idx.toNat, prop_idx, obj_idx, 1, (data.getD req_idx.toNat default).stride * obj_idx,
        (bytes.drop (pos + bytes_to_read prop phst)).take (bytes_to_read prop phst)⟩]
  else
    [⟨req_idx.toNat, prop_idx, obj_idx, 0, (data.getD req_idx.toNat default).stride * obj_idx,
        (bytes.drop pos).take (bytes_to_read prop phst)⟩]

/-- The destination writes for the properties from `prop_idx` on, of one object. -/
def props_events (data : List mf_data) (req_indices : List Int) (bytes : List Nat)
    (phst_idx : Int) (obj_idx : Nat) : List mf_property → Nat → Nat → Int → List dst_write
  | [], _, _, _ => []
  | p :: ps, prop_idx, pos, phst =>
    prop_events data obj_idx prop_idx p (req_indices.getD prop_idx (-1)) bytes pos
        (phst_at bytes phst_idx prop_idx pos phst) ++
      props_events data req_indices bytes phst_idx obj_idx ps (prop_idx + 1)
        (pos + bytes_to_skip p (phst_at bytes phst_idx prop_idx pos phst))
        (phst_at bytes phst_idx prop_idx pos phst)

/-- The destination writes for `n` objects starting with `obj_idx` at `pos`. -/
def objects_events (data : List mf_data) (req_indices : List Int) (bytes : List Nat)
    (props : List mf_property) (phst_idx : Int) : Nat → Nat → Nat → List dst_write
  | 0, _, _ => []
  | n + 1, obj_idx, pos =>
    props_events data req_indices bytes phst_idx obj_idx props 0 pos (-1) ++
      objects_events data req_indices bytes props phst_idx n (obj_idx + 1)
        ((props_in_stream bytes phst_idx props 0 pos (-1)).getD pos)

/-- The largest declared capacity among the destination descriptors, and at least 0:
the value `max_count` has after the resolution loop. -/
def max_capacity (data : List mf_data) : Int :=
  data.foldl (fun m d => if m > d.count then m else d.count) 0

/-- What a destination write stores and where: object, buffer, byte offset, bytes. -/
def dst_write.value (w : dst_write) : Nat × Nat × Nat × List Nat :=
  (w.obj_idx, w.half, w.pos, w.bytes)

/-- What every write of the body of the property loop looks like, wherever the
stream ends. -/
def write_ok (data : List mf_data) (obj_idx prop_idx : Nat) (p : mf_property) (req_idx : Int)
    (w : dst_write) : Prop :=
  0 ≤ req_idx ∧ w.req_idx = req_idx.toNat ∧
    (obj_idx : Int) < (data.getD req_idx.toNat default).count ∧
    w.obj_idx = obj_idx ∧ w.prop_idx = prop_idx ∧
    w.pos = (data.getD req_idx.toNat default).stride * obj_idx ∧ w.half ≤ 1 ∧
    (w.half = 1 → p.output_mode = .MF_DOUBLE) ∧
    ∃ ph : Int, (ph = -1 ∨ (1 ≤ ph ∧ ph ≤ 127)) ∧ w.bytes.length ≤ bytes_to_read p ph

/-! ## Mnemonics -/

/-- The mnemonic `"BINARY  "`. -/
def MN_BINARY : List Nat := [66, 73, 78, 65, 82, 89, 32, 32]

/-- The mnemonic `"ASCII   "`. -/
def MN_ASCII : List Nat := [65, 83, 67, 73, 73, 32, 32, 32]

/-- The mnemonic `"TIME    "`. -/
def MN_TIME : List Nat := [84, 73, 77, 69, 32, 32, 32, 32]

/-- The mnemonic `"DATE    "`. -/
def MN_DATE : List Nat := [68, 65, 84, 69, 32, 32, 32, 32]

/-- The mnemonic `"CELLDATA"`. -/
def MN_CELLDATA : List Nat := [67, 69, 76, 76, 68, 65, 84, 65]

/-- The mnemonic `"CONNDATA"`. -/
def MN_CONNDATA : List Nat := [67, 79, 78, 78, 68, 65, 84, 65]

/-- The mnemonic `"SRCDATA "`. -/
def MN_SRCDATA : List Nat := [83, 82, 67, 68, 65, 84, 65, 32]

/-- The mnemonic `"FPCEDATA"`. -/
def MN_FPCEDATA : List Nat := [70, 80, 67, 69, 68, 65, 84, 65]

/-- The mnemonic `"FPCODATA"`. -/
def MN_FPCODATA : List Nat := [70, 80, 67, 79, 68, 65, 84, 65]

/-- The mnemonic `"ENDFILE "`. -/
def MN_ENDFILE : List Nat := [69, 78, 68, 70, 73, 76, 69, 32]

/-- The mnemonic `"ARRAYS  "`. -/
def MN_ARRAYS : List Nat := [65, 82, 82, 65, 89, 83, 32, 32]

/-- The mnemonic `"DATA    "`. -/
def MN_DATA : List Nat := [68, 65, 84, 65, 32, 32, 32, 32]

/-- The mnemonic `"ENDDATA "`. -/
def MN_ENDDATA : List Nat := [69, 78, 68, 68, 65, 84, 65, 32]

/-- The mnemonic `"ENDITEM "`. -/
def MN_ENDITEM : List Nat := [69, 78, 68, 73, 84, 69, 77, 32]

/-- The mnemonic `"INT1    "`. -/
def MN_INT1 : List Nat := [73, 78, 84, 49, 32, 32, 32, 32]

/-- The mnemonic `"INT2    "`. -/
def MN_INT2 : List Nat := [73, 78, 84, 50, 32, 32, 32, 32]

/-- The mnemonic `"INT4    "`. -/
def MN_INT4 : List Nat := [73, 78, 84, 52, 32, 32, 32, 32]

/-- The mnemonic `"REAL4   "`. -/
def MN_REAL4 : List Nat := [82, 69, 65, 76, 52, 32, 32, 32]

/-- The mnemonic `"REAL8   "`. -/
def MN_REAL8 : List Nat := [82, 69, 65, 76, 56, 32, 32, 32]

/-- The mnemonic `"CHAR4   "`. -/
def MN_CHAR4 : List Nat := [67, 72, 65, 82, 52, 32, 32, 32]

/-- The mnemonic `"CHAR8   "`. -/
def MN_CHAR8 : List Nat := [67, 72, 65, 82, 56, 32, 32, 32]

/-- The mnemonic `"SINGLE  "`. -/
def MN_SINGLE : List Nat := [83, 73, 78, 71, 76, 69, 32, 32]

/-- The mnemonic `"DOUBLE  "`. -/
def MN_DOUBLE : List Nat := [68, 79, 85, 66, 76, 69, 32, 32]

/-- The mnemonic `"STATE0  "`. -/
def MN_STATE0 : List Nat := [83, 84, 65, 84, 69, 48, 32, 32]

/-- The mnemonic `"STATE1  "`. -/
def MN_STATE1 : List Nat := [83, 84, 65, 84, 69, 49, 32, 32]

/-! ## Little-endian integers -/

/-- The unsigned value of a little-endian byte sequence. -/
def le_nat : List Nat → Nat
  | [] => 0
  | b :: bs => b % 256 + 256 * le_nat bs

/-- The `k` low-order bytes of `x`, least significant first. -/
def bytes_of_nat : Nat → Nat → List Nat
  | 0, _ => []
  | k + 1, x => x % 256 :: bytes_of_nat k (x / 256)

/-- The `int64_t` stored in eight bytes (`memcpy(&v, buf, 8)`). -/
def int64_of_bytes (bs : List Nat) : Int := to_long (le_nat bs)

/-- The `int32_t` stored in four bytes (`memcpy(&v, buf, 4)`). -/
def int32_of_bytes (bs : List Nat) : Int := wrap32 (le_nat bs)

/-- The eight bytes of an `int64_t` (`fwrite(&v, 8, 1, stream)`). -/
def bytes_of_int64 (x : Int) : List Nat := bytes_of_nat 8 (x % 18446744073709551616).toNat

/-- The four bytes of an `int32_t` (`fwrite(&v, 4, 1, stream)`). -/
def bytes_of_int32 (x : Int) : List Nat := bytes_of_nat 4 (x % 4294967296).toNat

/-! ## Tagged record scanner -/

/-- The structure `header_t`; `name` is the eight bytes before the terminating zero. -/
structure header_t where
  name : List Nat
  size : Int
  deriving DecidableEq, Repr

/-- The function `read_header`. `check_state` looks at the end-of-file indicator of
the stream after the read. -/
def read_header (s : FILE) : Except Fault (FILE × header_t) :=
  if (fread s 16).1.eof then .error (.status .MF_ERROR_INVALID_FILE)
  else .ok ((fread s 16).1, ⟨(fread s 16).2.take 8, int64_of_bytes ((fread s 16).2.drop 8)⟩)

/-- The function `read_file_format`. -/
def read_file_format (s : FILE) : Except Fault (FILE × mf_file_format) :=
  match read_header s with
  | .error e => .error e
  | .ok (s1, header) =>
    if header.size ≠ 0 then .error (.status .MF_ERROR_INVALID_FILE)
    else if header.name = MN_BINARY then .ok (s1, .MF_BINARY)
    else if header.name = MN_ASCII then .ok (s1, .MF_ASCII)
    else .error (.status .MF_ERROR_INVALID_FILE)

/-- The structure `mf_time_t`; `value` is kept as the eight bytes of the `double`. -/
structure mf_time where
  value : List Nat
  dimension : List Nat
  deriving DecidableEq, Repr

/-- The structure `mf_date_t`. -/
structure mf_date where
  day : Int
  month : List Nat
  year : Int
  deriving DecidableEq, Repr

/-- The function `read_time`. -/
def read_time (s : FILE) : Except Fault (FILE × mf_time) :=
  if (fread s 16).1.eof then .error (.status .MF_ERROR_INVALID_FILE)
  else .ok ((fread s 16).1, ⟨(fread s 16).2.take 8, ((fread s 16).2.drop 8).take 8⟩)

/-- The function `read_date`. -/
def read_date (s : FILE) : Except Fault (FILE × mf_date) :=
  if (fread s 16).1.eof then .error (.status .MF_ERROR_INVALID_FILE)
  else .ok ((fread s 16).1,
    ⟨int32_of_bytes ((fread s 16).2.take 4), ((fread s 16).2.drop 4).take 8,
     int32_of_bytes (((fread s 16).2.drop 12).take 4)⟩)

/-! ## Property schema decoder (`read_arrays`) -/

/-- The `n` bytes of `buf` from offset `off`, when they lie inside `buf`. -/
def slice (buf : List Nat) (off n : Nat) : Option (List Nat) :=
  if off + n ≤ buf.length then some ((buf.drop off).take n) else none

/-- What one tag word does in the tag loop (lines 474-502). -/
inductive tag_result
  | set (prop : mf_property)
  | enditem
  | unknown
  deriving DecidableEq, Repr

/-- The chain of `strcmp` tests on one tag word. -/
def read_tag (tag : List Nat) (prop : mf_property) : tag_result :=
  if tag = MN_INT1 then .set { prop with data_type := .MF_INT1 }
  else if tag = MN_INT2 then .set { prop with data_type := .MF_INT2 }
  else if tag = MN_INT4 then .set { prop with data_type := .MF_INT4 }
  else if tag = MN_REAL4 then .set { prop with data_type := .MF_REAL4 }
  else if tag = MN_REAL8 then .set { prop with data_type := .MF_REAL8 }
  else if tag = MN_CHAR4 then .set { prop with data_type := .MF_CHAR4 }
  else if tag = MN_CHAR8 then .set { prop with data_type := .MF_CHAR8 }
  else if tag = MN_SINGLE then .set { prop with output_mode := .MF_SINGLE }
  else if tag = MN_DOUBLE then .set { prop with output_mode := .MF_DOUBLE }
  else if tag = MN_STATE0 then .set { prop with phase_state := .MF_STATE0 }
  else if tag = MN_STATE1 then .set { prop with phase_state := .MF_STATE1 }
  else if tag = MN_ENDITEM then .enditem
  else .unknown

/-- The tag loop `for (; tag_idx < 3; ++tag_idx)` with `n` iterations left; the
descriptor starts at `off` in `buf`. Returns the property and the value of
`tag_idx` on exit. -/
def read_tags (buf : List Nat) (off : Nat) : Nat → Nat → mf_property →
    Except Fault (mf_property × Nat)
  | 0, tag_idx, prop => .ok (prop, tag_idx)
  | n + 1, tag_idx, prop =>
    match slice buf (off + 16 + tag_idx * 8) 8 with
    | none => .error .out_of_bounds
    | some tag =>
      match read_tag tag prop with
      | .set prop2 => read_tags buf off n (tag_idx + 1) prop2
      | .enditem => .ok (prop, tag_idx)
      | .unknown => .error (.status .MF_ERROR_INVALID_FILE)

/-- The property loop of `read_arrays` (lines 455-506) for `n` further properties,
`prop_buf` being at offset `off` of `buf`. -/
def read_properties (buf : List Nat) : Nat → Nat → Except Fault (List mf_property)
  | 0, _ => .ok []
  | n + 1, off =>
    match slice buf off 8, slice buf (off + 8) 8 with
    | some name, some dimension =>
      match read_tags buf off 3 0 ⟨name, dimension, .MF_REAL8, .MF_SINGLE, .MF_STATE0⟩ with
      | .error e => .error e
      | .ok (prop, tag_idx) =>
        match read_properties buf n (off + (16 + (tag_idx + 1) * 8)) with
        | .error e => .error e
        | .ok props => .ok (prop :: props)
    | _, _ => .error .out_of_bounds

/-- The end of `read_arrays` (lines 508-523), after the property table: the DATA
header, the values stored through `offset` and `size`, and the seek past the
DATA section and its 16-byte trailer. -/
def read_arrays_data (s : FILE) (num_objects : Int) (props : List mf_property) :
    Except Fault (FILE × mf_arrays × Option (Int × Int)) :=
  match read_header s with
  | .error e => .error e
  | .ok (s3, header) =>
    if header.name ≠ MN_DATA then .error .assert_failed
    else if header.size < 0 then .error .assert_failed
    else .ok (fseek_cur s3 (header.size + 16), ⟨num_objects, props⟩,
      some (ftell s3, header.size))

/-- The middle of `read_arrays` (lines 439-506), on the payload `buf` that has been
read: the two counts, the early return for a block with no property, and the
property table. -/
def read_arrays_table (s : FILE) (buf : List Nat) :
    Except Fault (FILE × mf_arrays × Option (Int × Int)) :=
  match slice buf 0 4, slice buf 4 4 with
  | some b0, some b1 =>
    if int32_of_bytes b0 < 0 ∨ int32_of_bytes b1 < 0 then .error .assert_failed
    else if int32_of_bytes b0 = 0 then .ok (s, ⟨int32_of_bytes b1, []⟩, none)
    else
      match read_properties buf (int32_of_bytes b0).toNat 8 with
      | .error e => .error e
      | .ok props => read_arrays_data s (int32_of_bytes b1) props
  | _, _ => .error .out_of_bounds

/-- The function `read_arrays`: the stream afterwards, the block description, and
the values stored through `offset` and `size` (none when the function returns
before storing them). The buffer for the payload comes from
`malloc(header.size)`, and `assert(buf)` aborts when there is none: `heap` is
the largest request the allocator satisfies, and a negative length is a
`size_t` beyond any allocation. The other allocations of the reader and the
writer are of a 32-bit count of small entries and are taken to succeed. -/
def read_arrays (heap : Nat) (s : FILE) :
    Except Fault (FILE × mf_arrays × Option (Int × Int)) :=
  match read_header s with
  | .error e => .error e
  | .ok (s1, header) =>
    if header.name ≠ MN_ARRAYS then .error .assert_failed
    else if header.size < 0 then .error .assert_failed
    else if (heap : Int) < header.size then .error .assert_failed
    else if (fread s1 header.size.toNat).1.eof then .error (.status .MF_ERROR_INVALID_FILE)
    else read_arrays_table (fread s1 header.size.toNat).1 (fread s1 header.size.toNat).2

/-! ## Container opener, snapshot variant (`mf_open_sum_file`) -/

/-- The five kinds of arrays block of a snapshot container. -/
inductive block_kind
  | celldata
  | conndata
  | srcdata
  | fpcedata
  | fpcodata
  deriving DecidableEq, Repr

/-- The structure `mf_sum_description_t`; a null pointer is `none`. -/
structure mf_sum_description where
  time : Option mf_time
  date : Option mf_date
  celldata : Option mf_arrays
  conndata : Option mf_arrays
  srcdata : Option mf_arrays
  fpcedata : Option mf_arrays
  fpcodata : Option mf_arrays
  deriving DecidableEq, Repr

/-- The structure `mf_sum_file_t`. The offsets and sizes are not initialised by
the opener; `none` stands for a field that was never assigned. -/
structure mf_sum_file where
  format : mf_file_format
  stream : FILE
  celldata_loc : Option (Int × Int)
  conndata_loc : Option (Int × Int)
  srcdata_loc : Option (Int × Int)
  fpcedata_loc : Option (Int × Int)
  fpcodata_loc : Option (Int × Int)
  description : mf_sum_description
  deriving DecidableEq, Repr

/-- The block of a description, by kind. -/
def mf_sum_description.block (d : mf_sum_description) : block_kind → Option mf_arrays
  | .celldata => d.celldata
  | .conndata => d.conndata
  | .srcdata => d.srcdata
  | .fpcedata => d.fpcedata
  | .fpcodata => d.fpcodata

/-- The pair (`<kind>_offset`, `<kind>_size`) of a file handle, by kind. -/
def mf_sum_file.loc (f : mf_sum_file) : block_kind → Option (Int × Int)
  | .celldata => f.celldata_loc
  | .conndata => f.conndata_loc
  | .srcdata => f.srcdata_loc
  | .fpcedata => f.fpcedata_loc
  | .fpcodata => f.fpcodata_loc

/-- The mnemonic of a block kind. -/
def block_kind.mnemonic : block_kind → List Nat
  | .celldata => MN_CELLDATA
  | .conndata => MN_CONNDATA
  | .srcdata => MN_SRCDATA
  | .fpcedata => MN_FPCEDATA
  | .fpcodata => MN_FPCODATA

/-- The tests of lines 123-137 on the mnemonic of a record. -/
def block_of_mnemonic (name : List Nat) : Option block_kind :=
  if name = MN_CELLDATA then some .celldata
  else if name = MN_CONNDATA then some .conndata
  else if name = MN_SRCDATA then some .srcdata
  else if name = MN_FPCEDATA then some .fpcedata
  else if name = MN_FPCODATA then some .fpcodata
  else none

/-- The assignments of one of the branches of lines 123-137 after a successful
`read_arrays`: the description gets the block, and the offset and size are
stored when `read_arrays` stored them. -/
def mf_sum_file.store_block (f : mf_sum_file) (k : block_kind) (s : FILE) (a : mf_arrays)
    (loc : Option (Int × Int)) : mf_sum_file :=
  match k with
  | .celldata =>
    { f with
      stream := s
      celldata_loc := loc.orElse (fun _ => f.celldata_loc)
      description := { f.description with celldata := some a } }
  | .conndata =>
    { f with
      stream := s
      conndata_loc := loc.orElse (fun _ => f.conndata_loc)
      description := { f.description with conndata := some a } }
  | .srcdata =>
    { f with
      stream := s
      srcdata_loc := loc.orElse (fun _ => f.srcdata_loc)
      description := { f.description with srcdata := some a } }
  | .fpcedata =>
    { f with
      stream := s
      fpcedata_loc := loc.orElse (fun _ => f.fpcedata_loc)
      description := { f.description with fpcedata := some a } }
  | .fpcodata =>
    { f with
      stream := s
      fpcodata_loc := loc.orElse (fun _ => f.fpcodata_loc)
      description := { f.description with fpcodata := some a } }

/-- The body of the record loop after the header has been read (lines 117-145): the
file afterwards, and whether the loop is left (`break` on `"ENDFILE "`). -/
def open_record (heap : Nat) (f : mf_sum_file) (s1 : FILE) (header : header_t) :
    Except Fault (mf_sum_file × Bool) :=
  if header.name = MN_TIME then
    match read_time s1 with
    | .error e => .error e
    | .ok (s2, t) =>
      .ok ({ f with
        stream := s2
        description := { f.description with time := some t } }, false)
  else if header.name = MN_DATE then
    match read_date s1 with
    | .error e => .error e
    | .ok (s2, d) =>
      .ok ({ f with
        stream := s2
        description := { f.description with date := some d } }, false)
  else
    match block_of_mnemonic header.name with
    | some k =>
      match read_arrays heap s1 with
      | .error e => .error e
      | .ok (s2, a, loc) => .ok (f.store_block k s2 a loc, false)
    | none =>
      if header.name = MN_ENDFILE then .ok ({ f with stream := s1 }, true)
      else .ok ({ f with stream := fseek_cur s1 header.size }, false)

/-- The record loop `while (true)` of `mf_open_sum_file` (lines 101-146), run for at
most `fuel` iterations; `none` when the loop has not ended by then. -/
def open_loop (heap : Nat) : Nat → mf_sum_file → Option (Except Fault mf_sum_file)
  | 0, _ => none
  | fuel + 1, f =>
    if f.stream.eof then some (.error (.status .MF_ERROR_INVALID_FILE))
    else
      match read_header f.stream with
      | .error e => some (.error e)
      | .ok (s1, header) =>
        match open_record heap f s1 header with
        | .error e => some (.error e)
        | .ok (f2, true) => some (.ok f2)
        | .ok (f2, false) => open_loop heap fuel f2

/-- The function `mf_open_sum_file` on a file with content `bytes`, the record loop
being run for at most `fuel` iterations; `heap` is the largest request the
allocator satisfies. -/
def mf_open_sum_file (heap fuel : Nat) (bytes : List Nat) :
    Option (Except Fault mf_sum_file) :=
  match read_file_format ⟨bytes, 0, false⟩ with
  | .error e => some (.error e)
  | .ok (s1, format) =>
    if format ≠ .MF_BINARY then some (.error (.status .MF_ERROR_UNSUPPORTED_FEATURE_REQUIRED))
    else open_loop heap fuel ⟨format, s1, none, none, none, none, none,
      ⟨none, none, none, none, none, none, none⟩⟩

/-! ## Data encoder (`write_block`, `mf_write_sum_file`) -/

/-- The function `data_type_string`. -/
def data_type_string : mf_data_type → List Nat
  | .MF_INT1 => [73, 78, 84, 49]
  | .MF_INT2 => [73, 78, 84, 50]
  | .MF_INT4 => [73, 78, 84, 52]
  | .MF_REAL4 => [82, 69, 65, 76, 52]
  | .MF_REAL8 => [82, 69, 65, 76, 56]
  | .MF_CHAR4 => [67, 72, 65, 82, 52]
  | .MF_CHAR8 => [67, 72, 65, 82, 56]

/-- The function `output_mode_string`. -/
def output_mode_string (mode : mf_output_mode) : List Nat :=
  if mode = .MF_SINGLE then [83, 73, 78, 71, 76, 69] else [68, 79, 85, 66, 76, 69]

/-- The function `phase_state_string`. -/
def phase_state_string (state : mf_phase_state) : List Nat :=
  if state = .MF_STATE0 then [83, 84, 65, 84, 69, 48] else [83, 84, 65, 84, 69, 49]

/-- The eight bytes of `mnem` after `memset(mnem, ' ', 8); strcpy(mnem, str);
mnem[strlen(str)] = ' '`, for a string shorter than eight characters. -/
def pad_mnemonic (str : List Nat) : List Nat := str ++ List.replicate (8 - str.length) 32

/-- The bytes written for one property in the loop of lines 739-765. -/
def write_property (p : mf_property) : List Nat :=
  p.name.take 8 ++ p.dimension.take 8 ++ pad_mnemonic (data_type_string p.data_type) ++
    pad_mnemonic (output_mode_string p.output_mode) ++
    pad_mnemonic (phase_state_string p.phase_state) ++ MN_ENDITEM

/-- The value `data_size` after the loop of lines 716-723. The products are
computed in `int` and added to the `int64_t` sum. -/
def declared_data_size (arr : mf_arrays) : Int :=
  arr.properties.foldl
    (fun acc p =>
      if p.output_mode = .MF_SINGLE then
        acc + wrap32 (arr.num_objects * (elem_size p.data_type : Int))
      else acc + wrap32 (wrap32 (arr.num_objects * (elem_size p.data_type : Int)) * 2))
    0

/-- The `n` bytes of memory at byte offset `pos`. -/
def read_mem (mem : Nat → Nat) (pos n : Nat) : List Nat :=
  (List.range n).map (fun k => mem (pos + k))

/-- The bytes written for one property of one object (lines 772-781). -/
def write_value (p : mf_property) (d : mf_data) (obj_idx : Nat) : List Nat :=
  if p.output_mode = .MF_SINGLE then
    read_mem d.bytes (obj_idx * d.stride) (elem_size p.data_type)
  else
    read_mem d.bytes (obj_idx * d.stride) (elem_size p.data_type) ++
      read_mem d.bytes1 (obj_idx * d.stride) (elem_size p.data_type)

/-- The property loop of line 771, for the properties from `prop_idx` on. -/
def write_object (data : List mf_data) (obj_idx : Nat) : List mf_property → Nat → List Nat
  | [], _ => []
  | p :: ps, prop_idx =>
    write_value p (data.getD prop_idx default) obj_idx ++ write_object data obj_idx ps (prop_idx + 1)

/-- The object loop of line 770: `n` further objects starting with `obj_idx`. -/
def write_objects (arr : mf_arrays) (data : List mf_data) : Nat → Nat → List Nat
  | 0, _ => []
  | n + 1, obj_idx =>
    write_object data obj_idx arr.properties 0 ++ write_objects arr data n (obj_idx + 1)

/-- The bytes `write_block` appends to the stream. -/
def write_block (name : List Nat) (arr : mf_arrays) (data : List mf_data) : List Nat :=
  name.take 8 ++
    bytes_of_int64 (8 + 8 + (4 + 4 + arr.num_properties * 48) + (8 + 8) +
      declared_data_size arr + (8 + 8)) ++
    MN_ARRAYS ++ bytes_of_int64 (4 + 4 + arr.num_properties * 48) ++
    bytes_of_int32 arr.num_properties ++ bytes_of_int32 arr.num_objects ++
    (arr.properties.map write_property).flatten ++
    MN_DATA ++ bytes_of_int64 (declared_data_size arr) ++
    write_objects arr data arr.num_objects.toNat 0 ++
    MN_ENDDATA ++ bytes_of_int64 0

/-- The structure `mf_sum_attachment_t`. -/
structure mf_sum_attachment where
  celldata : List mf_data
  conndata : List mf_data
  srcdata : List mf_data
  fpcedata : List mf_data
  fpcodata : List mf_data

/-- The descriptors of an attachment, by kind. -/
def mf_sum_attachment.block (d : mf_sum_attachment) : block_kind → List mf_data
  | .celldata => d.celldata
  | .conndata => d.conndata
  | .srcdata => d.srcdata
  | .fpcedata => d.fpcedata
  | .fpcodata => d.fpcodata

/-- One of the conditional calls of `write_block` in `mf_write_sum_file`. -/
def write_optional_block (k : block_kind) (desc : mf_sum_description)
    (data : mf_sum_attachment) : List Nat :=
  match desc.block k with
  | some arr => write_block k.mnemonic arr (data.block k)
  | none => []

/-- The bytes `mf_write_sum_file` appends to the stream; it returns `MF_OK`. The
blocks go out in the order CELLDATA, CONNDATA, FPCEDATA, FPCODATA, SRCDATA. -/
def mf_write_sum_file (desc : mf_sum_description) (data : mf_sum_attachment) : List Nat :=
  MN_BINARY ++ bytes_of_int64 0 ++
    write_optional_block .celldata desc data ++
    write_optional_block .conndata desc data ++
    write_optional_block .fpcedata desc data ++
    write_optional_block .fpcodata desc data ++
    write_optional_block .srcdata desc data ++
    MN_ENDFILE ++ bytes_of_int64 0

/-! ## The writes a decode of the encoder's output is expected to make -/

/-- The destination writes for object `obj_idx` when property `j` is request `j` and
every value is the element of the source buffer: one write per property, at
offset stride × object index of the destination, with the bytes of the
source element. -/
def expected_object (src dst : List mf_data) (obj_idx : Nat) :
    List mf_property → Nat → List dst_write
  | [], _ => []
  | p :: ps, j =>
    ⟨j, j, obj_idx, 0, (dst.getD j default).stride * obj_idx,
      read_mem (src.getD j default).bytes (obj_idx * (src.getD j default).stride)
        (elem_size p.data_type)⟩ :: expected_object src dst obj_idx ps (j + 1)

/-- The writes of `expected_object` for `n` objects from `obj_idx` on. -/
def expected_objects (src dst : List mf_data) (props : List mf_property) :
    Nat → Nat → List dst_write
  | 0, _ => []
  | n + 1, obj_idx =>
    expected_object src dst obj_idx props 0 ++ expected_objects src dst props n (obj_idx + 1)

/-! ## Well-formed snapshot streams

A description of the byte streams the opener is meant for, record by record,
and of what each record contributes to the opened file. Not taken from a C
function: the properties of `mf_open_sum_file` are stated against it. -/

/-- The tag vocabulary, without the terminator `"ENDITEM "`. -/
def tag_words : List (List Nat) :=
  [MN_INT1, MN_INT2, MN_INT4, MN_REAL4, MN_REAL8, MN_CHAR4, MN_CHAR8, MN_SINGLE, MN_DOUBLE,
   MN_STATE0, MN_STATE1]

/-- The property after the tag words `tags` have been applied in order. -/
def tags_property : List (List Nat) → mf_property → mf_property
  | [], p => p
  | t :: ts, p =>
    match read_tag t p with
    | .set p2 => tags_property ts p2
    | _ => p

/-- A property descriptor of an ARRAYS payload: name, unit label, and the tag words
before the terminator. -/
structure descriptor where
  name : List Nat
  dimension : List Nat
  tags : List (List Nat)
  deriving DecidableEq, Repr

/-- A descriptor is well formed: eight-byte name and unit, at most three tag words,
all from the vocabulary. -/
def descriptor.wf (d : descriptor) : Prop :=
  d.name.length = 8 ∧ d.dimension.length = 8 ∧ d.tags.length ≤ 3 ∧ ∀ t ∈ d.tags, t ∈ tag_words

instance (d : descriptor) : Decidable d.wf := by
  unfold descriptor.wf; infer_instance

/-- The bytes of a descriptor: name, unit, tag words, `"ENDITEM "`. -/
def descriptor.bytes (d : descriptor) : List Nat :=
  d.name ++ (d.dimension ++ (d.tags.flatten ++ MN_ENDITEM))

/-- The property a descriptor stands for: the defaults REAL8, Single, Fixed, changed
by its tag words. -/
def descriptor.property (d : descriptor) : mf_property :=
  tags_property d.tags ⟨d.name, d.dimension, .MF_REAL8, .MF_SINGLE, .MF_STATE0⟩

/-- A top-level record of a snapshot stream other than the terminator. `sz` is the
length field of the record header (the opener does not look at it for these
records). A block with at least one property carries its DATA section and the
16-byte trailer; a block with no property ends after the ARRAYS payload.
`pad` is what the ARRAYS payload holds beyond the property table. -/
inductive record
  | time (sz value dimension : List Nat)
  | date (sz day month year : List Nat)
  | block (k : block_kind) (sz : List Nat) (num_objects : Int) (descs : List descriptor)
      (pad data trailer : List Nat)
  | empty_block (k : block_kind) (sz : List Nat) (num_objects : Int) (pad : List Nat)
  | other (name payload : List Nat)
  deriving DecidableEq, Repr

/-- The ARRAYS payload of a block: the two counts, the property table, the padding. -/
def arrays_payload (num_objects : Int) (descs : List descriptor) (pad : List Nat) : List Nat :=
  bytes_of_int32 descs.length ++ (bytes_of_int32 num_objects ++
    ((descs.map descriptor.bytes).flatten ++ pad))

/-- The bytes of a record. -/
def record.bytes : record → List Nat
  | .time sz value dimension => MN_TIME ++ (sz ++ (value ++ dimension))
  | .date sz day month year => MN_DATE ++ (sz ++ (day ++ (month ++ year)))
  | .block k sz num_objects descs pad data trailer =>
    k.mnemonic ++ (sz ++ (MN_ARRAYS ++
      (bytes_of_int64 (arrays_payload num_objects descs pad).length ++
      (arrays_payload num_objects descs pad ++ (MN_DATA ++ (bytes_of_int64 data.length ++
      (data ++ trailer)))))))
  | .empty_block k sz num_objects pad =>
    k.mnemonic ++ (sz ++ (MN_ARRAYS ++
      (bytes_of_int64 (arrays_payload num_objects [] pad).length ++
      arrays_payload num_objects [] pad)))
  | .other name payload => name ++ (bytes_of_int64 payload.length ++ payload)

/-- A record is well formed. For a record with another mnemonic: the mnemonic is
none of those the opener knows, and the payload length is the declared one. -/
def record.wf : record → Prop
  | .time sz value dimension => sz.length = 8 ∧ value.length = 8 ∧ dimension.length = 8
  | .date sz day month year =>
    sz.length = 8 ∧ day.length = 4 ∧ month.length = 8 ∧ year.length = 4
  | .block _ sz num_objects descs _ _ trailer =>
    sz.length = 8 ∧ 0 ≤ num_objects ∧ num_objects < 2147483648 ∧
      0 < descs.length ∧ descs.length < 2147483648 ∧ (∀ d ∈ descs, d.wf) ∧ trailer.length = 16
  | .empty_block _ sz num_objects _ =>
    sz.length = 8 ∧ 0 ≤ num_objects ∧ num_objects < 2147483648
  | .other name _ =>
    name.length = 8 ∧ name ≠ MN_TIME ∧ name ≠ MN_DATE ∧ block_of_mnemonic name = none ∧
      name ≠ MN_ENDFILE

instance (r : record) : Decidable r.wf := by
  cases r <;> unfold record.wf <;> infer_instance

/-- The stream `n` bytes further on, with the end-of-file indicator clear. -/
def FILE.advance (s : FILE) (n : Nat) : FILE := ⟨s.bytes, s.pos + n, false⟩

/-- What a record contributes to the file being opened, the record starting at the
current position of the stream. A block with properties records the position
and length of its DATA section. -/
def record.apply (f : mf_sum_file) : record → mf_sum_file
  | .time sz value dimension =>
    { f with
      stream := f.stream.advance (record.time sz value dimension).bytes.length
      description := { f.description with time := some ⟨value, dimension⟩ } }
  | .date sz day month year =>
    { f with
      stream := f.stream.advance (record.date sz day month year).bytes.length
      description := { f.description with
        date := some ⟨int32_of_bytes day, month, int32_of_bytes year⟩ } }
  | .block k sz num_objects descs pad data trailer =>
    f.store_block k
      (f.stream.advance (record.block k sz num_objects descs pad data trailer).bytes.length)
      ⟨num_objects, descs.map descriptor.property⟩
      (some (((f.stream.pos + (48 + (arrays_payload num_objects descs pad).length) : Nat) : Int),
        (data.length : Int)))
  | .empty_block k sz num_objects pad =>
    f.store_block k (f.stream.advance (record.empty_block k sz num_objects pad).bytes.length)
      ⟨num_objects, []⟩ none
  | .other name payload =>
    { f with stream := f.stream.advance (record.other name payload).bytes.length }

/-- The file after a sequence of records. -/
def apply_records (f : mf_sum_file) (records : List record) : mf_sum_file :=
  records.foldl record.apply f

/-- The bytes of a snapshot stream: format tag, records, terminator (with any length
field `sz`), and whatever follows. -/
def snapshot_bytes (records : List record) (sz rest : List Nat) : List Nat :=
  MN_BINARY ++ (bytes_of_int64 0 ++ ((records.map record.bytes).flatten ++
    (MN_ENDFILE ++ (sz ++ rest))))

/-- The file handle before the first record: nothing assigned, no block. -/
def initial_sum_file (bytes : List Nat) : mf_sum_file :=
  ⟨.MF_BINARY, ⟨bytes, 16, false⟩, none, none, none, none, none,
    ⟨none, none, none, none, none, none, none⟩⟩

/-- The record is a record with another mnemonic. -/
def record.is_other : record → Bool
  | .other _ _ => true
  | _ => false

/-- The time a record carries, for a TIME record. -/
def record.time_of : record → Option mf_time
  | .time _ value dimension => some ⟨value, dimension⟩
  | _ => none

/-- The date a record carries, for a DATE record. -/
def record.date_of : record → Option mf_date
  | .date _ day month year => some ⟨int32_of_bytes day, month, int32_of_bytes year⟩
  | _ => none

/-- The arrays block a record carries, for a block record of kind `k`. -/
def record.block_of (k : block_kind) : record → Option mf_arrays
  | .block k2 _ num_objects descs _ _ _ =>
    if k2 = k then some ⟨num_objects, descs.map descriptor.property⟩ else none
  | .empty_block k2 _ num_objects _ => if k2 = k then some ⟨num_objects, []⟩ else none
  | _ => none

/-- A sample record sequence: a TIME record, a record with another mnemonic and a
three-byte payload, and a CELLDATA block of two objects with one INT1 property. -/
def sample_records : List record :=
  [.time [0, 0, 0, 0, 0, 0, 0, 0] [0, 0, 0, 0, 0, 0, 240, 63] [68, 65, 89, 83, 32, 32, 32, 32],
   .other [78, 79, 84, 69, 32, 32, 32, 32] [1, 2, 3],
   .block .celldata [0, 0, 0, 0, 0, 0, 0, 0] 2
     [⟨[80, 72, 83, 84, 32, 32, 32, 32], [32, 32, 32, 32, 32, 32, 32, 32], [MN_INT1]⟩] []
     [1, 2] [69, 78, 68, 68, 65, 84, 65, 32, 0, 0, 0, 0, 0, 0, 0, 0]]

/-- The data type a tag word stands for, for a type tag. -/
def tag_data_type (t : List Nat) : Option mf_data_type :=
  if t = MN_INT1 then some .MF_INT1
  else if t = MN_INT2 then some .MF_INT2
  else if t = MN_INT4 then some .MF_INT4
  else if t = MN_REAL4 then some .MF_REAL4
  else if t = MN_REAL8 then some .MF_REAL8
  else if t = MN_CHAR4 then some .MF_CHAR4
  else if t = MN_CHAR8 then some .MF_CHAR8
  else none

/-- The arity a tag word stands for, for an arity tag. -/
def tag_output_mode (t : List Nat) : Option mf_output_mode :=
  if t = MN_SINGLE then some .MF_SINGLE
  else if t = MN_DOUBLE then some .MF_DOUBLE
  else none

/-- The phase mode a tag word stands for, for a phase-mode tag. -/
def tag_phase_state (t : List Nat) : Option mf_phase_state :=
  if t = MN_STATE0 then some .MF_STATE0
  else if t = MN_STATE1 then some .MF_STATE1
  else none

/-- A sample property table: a property with no tag, one with the three tags, and
one with a type tag given twice. -/
def sample_descriptors : List descriptor :=
  [⟨[80, 82, 69, 83, 32, 32, 32, 32], [66, 65, 82, 32, 32, 32, 32, 32], []⟩,
   ⟨[83, 65, 84, 32, 32, 32, 32, 32], [32, 32, 32, 32, 32, 32, 32, 32],
     [MN_REAL4, MN_DOUBLE, MN_STATE1]⟩,
   ⟨[80, 72, 83, 84, 32, 32, 32, 32], [32, 32, 32, 32, 32, 32, 32, 32], [MN_INT4, MN_INT1]⟩]

/-- The descriptor `write_block` writes for a property: name, unit, and the three tag
words for its data type, arity and phase mode. -/
def descriptor_of (p : mf_property) : descriptor :=
  ⟨p.name.take 8, p.dimension.take 8,
    [pad_mnemonic (data_type_string p.data_type), pad_mnemonic (output_mode_string p.output_mode),
     pad_mnemonic (phase_state_string p.phase_state)]⟩

/-- The number of bytes `write_block` writes for one value of a property: the
data-type width, twice for a Double property. -/
def value_width (p : mf_property) : Nat :=
  if p.output_mode = .MF_SINGLE then elem_size p.data_type
  else elem_size p.data_type + elem_size p.data_type

/-- The number of bytes `write_block` writes for one object. -/
def object_width (props : List mf_property) : Nat := (props.map value_width).sum

/-- The DATA length of the specification: the sum over the properties of data-type
width × arity × (2 for a Variable property) × object count. -/
def spec_data_size (arr : mf_arrays) : Int :=
  (arr.properties.map (fun p => (elem_size p.data_type : Int) *
    (if p.output_mode = .MF_SINGLE then 1 else 2) *
    (if p.phase_state = .MF_STATE1 then 2 else 1) * arr.num_objects)).sum

/-- What `write_block` writes after the block header: the ARRAYS record, the DATA
record and the trailer. -/
def write_block_body (arr : mf_arrays) (data : List mf_data) : List Nat :=
  MN_ARRAYS ++ (bytes_of_int64 (4 + 4 + arr.num_properties * 48) ++
    ((bytes_of_int32 arr.num_properties ++ (bytes_of_int32 arr.num_objects ++
      ((arr.properties.map write_property).flatten ++ []))) ++
    (MN_DATA ++ (bytes_of_int64 (declared_data_size arr) ++
    (write_objects arr data arr.num_objects.toNat 0 ++
    (MN_ENDDATA ++ bytes_of_int64 0))))))

/-- The incomplete last record of a snapshot stream that ends before its terminator:
where the stream ends, and the bytes `part` it still holds of the piece that
is cut. `len` is the length a header declares for a piece that is cut. -/
inductive truncated
  | header (part : List Nat)
  | time (sz part : List Nat)
  | date (sz part : List Nat)
  | arrays_header (k : block_kind) (sz part : List Nat)
  | table (k : block_kind) (sz : List Nat) (len : Nat) (part : List Nat)
  | data_header (k : block_kind) (sz : List Nat) (num_objects : Int) (descs : List descriptor)
      (pad part : List Nat)
  | data (k : block_kind) (sz : List Nat) (num_objects : Int) (descs : List descriptor)
      (pad : List Nat) (len : Nat) (part : List Nat)
  | other (name : List Nat) (len : Nat) (part : List Nat)
  deriving DecidableEq, Repr

/-- The bytes of an incomplete record. -/
def truncated.bytes : truncated → List Nat
  | .header part => part
  | .time sz part => MN_TIME ++ (sz ++ part)
  | .date sz part => MN_DATE ++ (sz ++ part)
  | .arrays_header k sz part => k.mnemonic ++ (sz ++ part)
  | .table k sz len part =>
    k.mnemonic ++ (sz ++ (MN_ARRAYS ++ (bytes_of_int64 len ++ part)))
  | .data_header k sz num_objects descs pad part =>
    k.mnemonic ++ (sz ++ (MN_ARRAYS ++
      (bytes_of_int64 (arrays_payload num_objects descs pad).length ++
      (arrays_payload num_objects descs pad ++ part))))
  | .data k sz num_objects descs pad len part =>
    k.mnemonic ++ (sz ++ (MN_ARRAYS ++
      (bytes_of_int64 (arrays_payload num_objects descs pad).length ++
      (arrays_payload num_objects descs pad ++ (MN_DATA ++ (bytes_of_int64 len ++ part))))))
  | .other name len part => name ++ (bytes_of_int64 len ++ part)

/-- An incomplete record is well formed up to the point where the stream ends, and
the piece that is cut is shorter than declared: a header or a TIME or DATE
payload has fewer than 16 bytes, an ARRAYS payload or the payload of a record
with another mnemonic fewer than `len`, a DATA section with its 16-byte
trailer fewer than `len + 16`. -/
def truncated.wf : truncated → Prop
  | .header part => part.length < 16
  | .time sz part => sz.length = 8 ∧ part.length < 16
  | .date sz part => sz.length = 8 ∧ part.length < 16
  | .arrays_header _ sz part => sz.length = 8 ∧ part.length < 16
  | .table _ sz len part => sz.length = 8 ∧ part.length < len
  | .data_header _ sz num_objects descs _ part =>
    sz.length = 8 ∧ 0 ≤ num_objects ∧ num_objects < 2147483648 ∧
      0 < descs.length ∧ descs.length < 2147483648 ∧ (∀ d ∈ descs, d.wf) ∧ part.length < 16
  | .data _ sz num_objects descs _ len part =>
    sz.length = 8 ∧ 0 ≤ num_objects ∧ num_objects < 2147483648 ∧
      0 < descs.length ∧ descs.length < 2147483648 ∧ (∀ d ∈ descs, d.wf) ∧
      part.length < len + 16
  | .other name len part =>
    name.length = 8 ∧ name ≠ MN_TIME ∧ name ≠ MN_DATE ∧ block_of_mnemonic name = none ∧
      name ≠ MN_ENDFILE ∧ part.length < len

instance (t : truncated) : Decidable t.wf := by
  cases t <;> unfold truncated.wf <;> infer_instance

/-- The mnemonic `"GRIDDATA"`. -/
def MN_GRIDDATA : List Nat := [71, 82, 73, 68, 68, 65, 84, 65]

/-- The mnemonic `"GRIDSIZE"`. -/
def MN_GRIDSIZE : List Nat := [71, 82, 73, 68, 83, 73, 90, 69]

/-- The mnemonic `"POINTS  "`. -/
def MN_POINTS : List Nat := [80, 79, 73, 78, 84, 83, 32, 32]

/-- The mnemonic `"CELLS   "`. -/
def MN_CELLS : List Nat := [67, 69, 76, 76, 83, 32, 32, 32]

/-- The structure `mf_mvs_description_t`. -/
structure mf_mvs_description where
  num_vertices : Int
  num_cells : Int
  deriving DecidableEq, Repr

/-- The structure `mf_mvs_file_t`. -/
structure mf_mvs_file where
  format : mf_file_format
  stream : FILE
  vertices_offset : Nat
  cells_offset : Nat
  description : mf_mvs_description
  deriving DecidableEq, Repr

/-- The call `fread(&x, sizeof(int32_t), 1, stream)` on an `int32_t` that holds `old`,
its result being ignored: the bytes that could be read replace the first bytes
of the object. -/
def fread_int32 (s : FILE) (old : Int) : FILE × Int :=
  ((fread s 4).1,
    int32_of_bytes ((fread s 4).2 ++ (bytes_of_int32 old).drop (fread s 4).2.length))

/-- The end of `mf_open_mvs_file` (lines 262-284): the POINTS header, the position
after it, the seek over the payload, the CELLS header and the position after
it. -/
def open_mvs_points (s : FILE) (desc : mf_mvs_description) : Except Fault mf_mvs_file :=
  match read_header s with
  | .error e => .error e
  | .ok (s1, header) =>
    if header.name ≠ MN_POINTS then .error (.status .MF_ERROR_INVALID_FILE)
    else
      match read_header (fseek_cur s1 header.size) with
      | .error e => .error e
      | .ok (s3, header2) =>
        if header2.name ≠ MN_CELLS then .error (.status .MF_ERROR_INVALID_FILE)
        else .ok ⟨.MF_BINARY, s3, to_size_t (ftell s1), to_size_t (ftell s3), desc⟩

/-- The two unchecked reads of lines 254-255 into the zeroed description, and the
two assertions of lines 257-258. -/
def open_mvs_counts (s : FILE) : Except Fault mf_mvs_file :=
  if (fread_int32 s 0).2 < 0 then .error .assert_failed
  else if (fread_int32 (fread_int32 s 0).1 0).2 < 0 then .error .assert_failed
  else open_mvs_points (fread_int32 (fread_int32 s 0).1 0).1
    ⟨(fread_int32 s 0).2, (fread_int32 (fread_int32 s 0).1 0).2⟩

/-- The headers GRIDDATA and GRIDSIZE (lines 238-252). -/
def open_mvs_grid (s : FILE) : Except Fault mf_mvs_file :=
  match read_header s with
  | .error e => .error e
  | .ok (s1, header) =>
    if header.name ≠ MN_GRIDDATA then .error (.status .MF_ERROR_INVALID_FILE)
    else
      match read_header s1 with
      | .error e => .error e
      | .ok (s2, header2) =>
        if header2.name ≠ MN_GRIDSIZE then .error (.status .MF_ERROR_INVALID_FILE)
        else open_mvs_counts s2

/-- The function `mf_open_mvs_file` on a file with content `bytes`. -/
def mf_open_mvs_file (bytes : List Nat) : Except Fault mf_mvs_file :=
  match read_file_format ⟨bytes, 0, false⟩ with
  | .error e => .error e
  | .ok (s1, format) =>
    if format ≠ .MF_BINARY then .error (.status .MF_ERROR_UNSUPPORTED_FEATURE_REQUIRED)
    else open_mvs_grid s1

/-- The bytes of a mesh stream up to the CELLS header: format tag, the four record
headers with mnemonics `n1` to `n4` and length fields `z1`, `z2`, `z4`, the two
counts after the second header, and the payload of the third record. -/
def mesh_bytes (n1 z1 n2 z2 nv nc n3 payload n4 z4 rest : List Nat) : List Nat :=
  MN_BINARY ++ (bytes_of_int64 0 ++ (n1 ++ (z1 ++ (n2 ++ (z2 ++ (nv ++ (nc ++ (n3 ++
    (bytes_of_int64 payload.length ++ (payload ++ (n4 ++ (z4 ++ rest))))))))))))

/-! ## Converter output (`convert_sum_file`, lines 249-261) -/

/-- The call `fwrite(ptr, sizeof(double), n, fid)` on an array of `arr.length`
doubles: the values written, `none` when the call reads beyond the array. -/
def fwrite_doubles (arr : List ℚ) (n : Int) : Option (List ℚ) :=
  if n.toNat ≤ arr.length then some (arr.take n.toNat) else none

/-- The values `convert_sum_file` writes to the output file after a successful
decode: `num_cells` is the parameter of the function (the cell count of the
mesh), the three arrays have `file_num_cells` elements each. -/
def convert_output (num_cells : Int) (cell_id : List Int) (pressure temperature : List ℚ) :
    Option (List ℚ) :=
  match convert_fields cell_id pressure temperature with
  | none => none
  | some (p, t) =>
    match fwrite_doubles p num_cells, fwrite_doubles t num_cells with
    | some a, some b => some (a ++ b)
    | _, _ => none

/-! ## Sample inputs -/

/-- A sample ARRAYS record and what follows it: the property table of
`sample_descriptors` for two objects, a DATA record of five bytes, and the
trailer. -/
def sample_arrays_stream : FILE :=
  ⟨[9, 9, 9] ++ (MN_ARRAYS ++ (bytes_of_int64 (arrays_payload 2 sample_descriptors []).length ++
    (arrays_payload 2 sample_descriptors [] ++ (MN_DATA ++ (bytes_of_int64 5 ++
    ([1, 2, 3, 4, 5] ++ (MN_ENDDATA ++ bytes_of_int64 0))))))), 3, false⟩

/-- A sample ARRAYS record with no property, for two objects, followed by a DATA
record of five bytes and the trailer. -/
def sample_empty_arrays_stream : FILE :=
  ⟨MN_ARRAYS ++ (bytes_of_int64 8 ++ (bytes_of_int32 0 ++ (bytes_of_int32 2 ++
    (MN_DATA ++ (bytes_of_int64 5 ++ ([1, 2, 3, 4, 5] ++ (MN_ENDDATA ++ bytes_of_int64 0))))))),
    0, false⟩

/-- A sample word that is no tag: `"REAL16  "`. -/
def sample_unknown_tag : List Nat := [82, 69, 65, 76, 49, 54, 32, 32]

/-- A sample mnemonic that is neither `"ARRAYS  "` nor `"DATA    "`: `"ARRAY   "`. -/
def sample_wrong_mnemonic : List Nat := [65, 82, 82, 65, 89, 32, 32, 32]

/-- A sample stream, the cursor on a header named `"DATA    "` with length −2. -/
def sample_header_stream : FILE :=
  ⟨[7, 7, 68, 65, 84, 65, 32, 32, 32, 32, 254, 255, 255, 255, 255, 255, 255, 255, 9], 2, false⟩

/-- A sample ARRAYS payload whose only descriptor has the tag word `"INT4    "` and
then a word that is no tag. -/
def sample_bad_payload : List Nat :=
  bytes_of_int32 (1 : Nat) ++ (bytes_of_int32 2 ++ (([] : List descriptor).map
    descriptor.bytes).flatten ++ ([80, 82, 69, 83, 32, 32, 32, 32] ++
    ([66, 65, 82, 32, 32, 32, 32, 32] ++ ([MN_INT4].flatten ++
    (sample_unknown_tag ++ MN_ENDITEM)))))

/-- A sample ARRAYS record with the payload `sample_bad_payload`. -/
def sample_bad_arrays_stream : FILE :=
  ⟨MN_ARRAYS ++ (bytes_of_int64 sample_bad_payload.length ++ (sample_bad_payload ++ [])),
    0, false⟩

/-- A sample stream whose first record is named `"ARRAY   "`. -/
def sample_misnamed_stream : FILE :=
  ⟨sample_wrong_mnemonic ++ (bytes_of_int64 0 ++ [1, 2, 3]), 0, false⟩

/-- A sample ARRAYS record with the property table of `sample_descriptors`, followed
by a record named `"ARRAY   "`. -/
def sample_misnamed_data_stream : FILE :=
  ⟨MN_ARRAYS ++ (bytes_of_int64 (arrays_payload 2 sample_descriptors []).length ++
    (arrays_payload 2 sample_descriptors [] ++ (sample_wrong_mnemonic ++
    (bytes_of_int64 0 ++ [1, 2, 3])))), 0, false⟩

/-- A sample mesh stream: the four records in order, 3 vertices and 5 cells, a POINTS
payload of three bytes. -/
def sample_mesh : List Nat :=
  mesh_bytes MN_GRIDDATA (bytes_of_int64 0) MN_GRIDSIZE (bytes_of_int64 8) (bytes_of_int32 3)
    (bytes_of_int32 5) MN_POINTS [1, 2, 3] MN_CELLS (bytes_of_int64 0) [9]

/-- A sample mesh stream with the four records in order and a vertex count of −1. -/
def sample_negative_mesh : List Nat :=
  mesh_bytes MN_GRIDDATA (bytes_of_int64 0) MN_GRIDSIZE (bytes_of_int64 8) (bytes_of_int32 (-1))
    (bytes_of_int32 5) MN_POINTS [1, 2, 3] MN_CELLS (bytes_of_int64 0) [9]

/-- A sample snapshot stream: the format tag and a record named `"NOTE    "` with the
length −16. -/
def sample_looping_bytes : List Nat :=
  MN_BINARY ++ (bytes_of_int64 0 ++ ([78, 79, 84, 69, 32, 32, 32, 32] ++ bytes_of_int64 (-16)))

/-- A sample schema with a Variable property and no property named `"PHST    "`:
`A` (INT1, Fixed) and `V` (REAL8, Variable). -/
def sample_variable_schema : mf_arrays :=
  ⟨1, [⟨[65, 32, 32, 32, 32, 32, 32, 32], [], .MF_INT1, .MF_SINGLE, .MF_STATE0⟩,
       ⟨[86, 32, 32, 32, 32, 32, 32, 32], [], .MF_REAL8, .MF_SINGLE, .MF_STATE1⟩]⟩

/-- A sample stream of 32 bytes, numbered from 0. -/
def sample_data_stream : FILE := ⟨List.range 32, 0, false⟩

/-- A sample schema of one INT4 property `A`, for one object. -/
def sample_int4_schema : mf_arrays :=
  ⟨1, [⟨[65, 32, 32, 32, 32, 32, 32, 32], [], .MF_INT4, .MF_SINGLE, .MF_STATE0⟩]⟩

/-- A sample ARRAYS record whose payload is the eight bytes of the two counts, with a
property count of 1, followed by a DATA record. -/
def sample_short_arrays_stream : FILE :=
  ⟨MN_ARRAYS ++ (bytes_of_int64 8 ++ (bytes_of_int32 1 ++ (bytes_of_int32 2 ++
    (MN_DATA ++ (bytes_of_int64 0 ++ (MN_ENDDATA ++ bytes_of_int64 0)))))), 0, false⟩

/-- A sample schema: the properties of `sample_descriptors`, for three objects. -/
def sample_schema : mf_arrays := ⟨3, sample_descriptors.map descriptor.property⟩

/-- A sample schema of one REAL8, Single, Fixed property `PRES` for `2^28` objects:
the product object count × 8 is `2^31`. -/
def sample_overflow_schema : mf_arrays :=
  ⟨268435456, [⟨[80, 82, 69, 83, 32, 32, 32, 32], [66, 65, 82, 32, 32, 32, 32, 32],
    .MF_REAL8, .MF_SINGLE, .MF_STATE0⟩]⟩

/-- A sample description: a CELLDATA block with the schema `sample_overflow_schema`
and nothing else. -/
def sample_overflow_description : mf_sum_description :=
  ⟨none, none, some sample_overflow_schema, none, none, none, none⟩

/-- A sample schema with a phase count and a Variable property, for one object:
`PHST` (INT1, Fixed) and `V` (REAL8, Variable). -/
def sample_phase_schema : mf_arrays :=
  ⟨1, [⟨PHST, [32, 32, 32, 32, 32, 32, 32, 32], .MF_INT1, .MF_SINGLE, .MF_STATE0⟩,
       ⟨[86, 32, 32, 32, 32, 32, 32, 32], [32, 32, 32, 32, 32, 32, 32, 32],
         .MF_REAL8, .MF_SINGLE, .MF_STATE1⟩]⟩

/-- Sample source buffers for `sample_phase_schema`: the phase count 2, and the bytes
10, 11, ... for `V`. -/
def sample_phase_source : List mf_data :=
  [⟨fun _ => 2, fun _ => 0, 1, 1⟩, ⟨fun a => a + 10, fun _ => 0, 8, 1⟩]

/-- A sample all-Fixed schema for two objects: `A` (INT2, Single) and `B` (REAL4,
Double). -/
def sample_fixed_schema : mf_arrays :=
  ⟨2, [⟨[65, 32, 32, 32, 32, 32, 32, 32], [32, 32, 32, 32, 32, 32, 32, 32],
         .MF_INT2, .MF_SINGLE, .MF_STATE0⟩,
       ⟨[66, 32, 32, 32, 32, 32, 32, 32], [32, 32, 32, 32, 32, 32, 32, 32],
         .MF_REAL4, .MF_DOUBLE, .MF_STATE0⟩]⟩

/-- Sample source buffers for `sample_fixed_schema`. -/
def sample_fixed_source : List mf_data :=
  [⟨fun a => a + 1, fun _ => 0, 2, 2⟩, ⟨fun a => a + 20, fun a => a + 40, 4, 2⟩]

/-- A sample schema for two objects whose properties are Fixed and Single: `A` (INT2)
and `B` (REAL4). -/
def sample_single_schema : mf_arrays :=
  ⟨2, [⟨[65, 32, 32, 32, 32, 32, 32, 32], [32, 32, 32, 32, 32, 32, 32, 32],
         .MF_INT2, .MF_SINGLE, .MF_STATE0⟩,
       ⟨[66, 32, 32, 32, 32, 32, 32, 32], [32, 32, 32, 32, 32, 32, 32, 32],
         .MF_REAL4, .MF_SINGLE, .MF_STATE0⟩]⟩

/-- Sample source buffers for the CELLDATA block of `sample_single_schema`. -/
def sample_single_source : mf_sum_attachment :=
  ⟨[⟨fun a => a + 1, fun _ => 0, 2, 2⟩, ⟨fun a => a + 20, fun _ => 0, 4, 2⟩], [], [], [], []⟩

/-- Destination buffers for a decode of `sample_single_schema`. -/
def sample_single_target : List mf_data :=
  [⟨fun _ => 0, fun _ => 0, 2, 2⟩, ⟨fun _ => 0, fun _ => 0, 4, 2⟩]

/-- The allocator of the sample runs: `malloc` satisfies a request of up to `2^47`
bytes, the size of the user address space on x86-64, and no larger one. -/
def sample_heap : Nat := 140737488355328

/-- A sample ARRAYS record for two objects with one descriptor whose three tag words
are `"INT4    "`, `"DOUBLE  "`, `"STATE1  "` and whose fourth word is
`"REAL16  "`, followed by an empty DATA record and the trailer. -/
def sample_fourth_word_stream : FILE :=
  ⟨MN_ARRAYS ++ (bytes_of_int64 56 ++ (bytes_of_int32 1 ++ (bytes_of_int32 2 ++
    ([80, 82, 69, 83, 32, 32, 32, 32] ++ ([66, 65, 82, 32, 32, 32, 32, 32] ++
    (MN_INT4 ++ (MN_DOUBLE ++ (MN_STATE1 ++ (sample_unknown_tag ++
    (MN_DATA ++ (bytes_of_int64 0 ++ (MN_ENDDATA ++ bytes_of_int64 0)))))))))))), 0, false⟩

/-- A sample block of two objects with a Variable property and no property named
`"PHST    "`: `A` (INT1, Fixed) and `V` (REAL8, Variable). -/
def sample_unset_schema : mf_arrays :=
  ⟨2, [⟨[65, 32, 32, 32, 32, 32, 32, 32], [], .MF_INT1, .MF_SINGLE, .MF_STATE0⟩,
       ⟨[86, 32, 32, 32, 32, 32, 32, 32], [], .MF_REAL8, .MF_SINGLE, .MF_STATE1⟩]⟩

/-- A sample stream of 40 bytes, numbered from 0. -/
def sample_long_stream : FILE := ⟨List.range 40, 0, false⟩

/-! # Properties -/

/-! ## Reindexer lemmas -/

theorem wrap32_of_range {x : Int} (h1 : -2147483648 ≤ x) (h2 : x < 2147483648) :
    wrap32 x = x := by
  unfold wrap32; omega

theorem fill_sorter_keys (ids : List Int) : ∀ n, (fill_sorter ids n).map Prod.fst = ids := by
  induction ids with
  | nil => intro n; rfl
  | cons k rest ih => intro n; simp [fill_sorter, ih]

theorem fill_sorter_length (ids : List Int) (n : Nat) : (fill_sorter ids n).length = ids.length := by
  have h := congrArg List.length (fill_sorter_keys ids n)
  simpa using h

theorem countP_le_zero_of_lt (e : Int) (l : List Int) (h : ∀ x ∈ l, e < x) :
    l.countP (fun x => decide (x ≤ e)) = 0 := by
  rw [List.countP_eq_zero]
  intro x hx
  have := h x hx
  simp only [decide_eq_true_eq]
  omega

/-- Effect of the second loop on a key list in ascending order (equal keys allowed):
the entry of a key that occurs is the index of its last occurrence. -/
theorem fill_map_spec : ∀ (l : List (Int × Int)) (idx : Nat) (map : List Int),
    (∀ e ∈ l, 0 ≤ e.1 ∧ e.1.toNat < map.length) →
    (l.map Prod.fst).Pairwise (fun a b => a ≤ b) →
    ∃ m, fill_map l idx map = some m ∧ m.length = map.length ∧
      ∀ j : Nat, j < map.length →
        m.getD j 0 =
          if (j : Int) ∈ l.map Prod.fst then
            (idx : Int) + ((l.map Prod.fst).countP (fun x => decide (x ≤ (j : Int))) : Int) - 1
          else map.getD j 0 := by
  intro l
  induction l with
  | nil =>
    intro idx map _ _
    exact ⟨map, rfl, rfl, fun j _ => by simp⟩
  | cons e rest ih =>
    intro idx map hb hs
    have he := hb e (List.mem_cons_self _ _)
    have hrest : ∀ x ∈ rest, 0 ≤ x.1 ∧ x.1.toNat < (map.set e.1.toNat (idx : Int)).length := by
      intro x hx
      simpa using hb x (List.mem_cons_of_mem _ hx)
    rw [List.map_cons, List.pairwise_cons] at hs
    obtain ⟨m, hm, hlen, hget⟩ := ih (idx + 1) (map.set e.1.toNat (idx : Int)) hrest hs.2
    refine ⟨m, ?_, ?_, ?_⟩
    · simp [fill_map, he, hm]
    · simpa using hlen
    · intro j hj
      have hj2 : j < (map.set e.1.toNat (idx : Int)).length := by simpa using hj
      rw [hget j hj2]
      by_cases hmem : (j : Int) ∈ rest.map Prod.fst
      · have hle : e.1 ≤ (j : Int) := hs.1 _ hmem
        simp only [hmem, if_true, List.map_cons, List.mem_cons, or_true, List.countP_cons,
          hle, decide_True]
        push_cast
        omega
      · simp only [hmem, if_false, List.map_cons, List.mem_cons, or_false]
        by_cases hje : (j : Int) = e.1
        · have hlt : ∀ x ∈ rest.map Prod.fst, e.1 < x := by
            intro x hx
            have h1 := hs.1 x hx
            have h2 : x ≠ e.1 := by
              intro hxe; apply hmem; rw [hje, ← hxe]; exact hx
            omega
          have hj3 : e.1.toNat = j := by omega
          simp only [hje, if_true, List.countP_cons, le_refl, decide_True,
            countP_le_zero_of_lt e.1 _ hlt]
          rw [List.getD_eq_getElem?_getD, hj3, List.getElem?_set_self hj]
          simp
        · have hj3 : e.1.toNat ≠ j := by omega
          simp only [hje, if_false]
          rw [List.getD_eq_getElem?_getD, List.getD_eq_getElem?_getD,
            List.getElem?_set_ne hj3]

theorem lookup_ids_eq (map : List Int) : ∀ ids : List Int,
    (∀ k ∈ ids, 0 ≤ k ∧ k.toNat < map.length) →
    lookup_ids map ids = some (ids.map (fun k => map.getD k.toNat 0)) := by
  intro ids
  induction ids with
  | nil => intro _; rfl
  | cons k rest ih =>
    intro h
    have hk := h k (List.mem_cons_self _ _)
    have hr := ih (fun x hx => h x (List.mem_cons_of_mem _ hx))
    simp [lookup_ids, hk, hr]


theorem int32_pair_cmp_le {a b : Int × Int} (ha : 0 ≤ a.1 ∧ a.1 < 2147483648)
    (hb : 0 ≤ b.1 ∧ b.1 < 2147483648) : int32_pair_cmp a b ≤ 0 ↔ a.1 ≤ b.1 := by
  unfold int32_pair_cmp
  rw [wrap32_of_range (by omega) (by omega)]
  omega

/-- The keys of the sorted array are a rearrangement of `ids`, in ascending order. -/
theorem sorter_keys {ids : List Int} {sorter : List (Int × Int)}
    (hr : ∀ k ∈ ids, 0 ≤ k ∧ k < 2147483648)
    (hq : qsort_post (fill_sorter ids 0) sorter) :
    (sorter.map Prod.fst).Perm ids ∧ (sorter.map Prod.fst).Pairwise (fun a b => a ≤ b) := by
  obtain ⟨hp, hs⟩ := hq
  have hperm : (sorter.map Prod.fst).Perm ids := by
    have := hp.map Prod.fst
    rwa [fill_sorter_keys] at this
  refine ⟨hperm, ?_⟩
  rw [List.pairwise_map]
  refine hs.imp_of_mem ?_
  intro a b ha hb hab
  have ha2 : a.1 ∈ ids := hperm.subset (List.mem_map_of_mem _ ha)
  have hb2 : b.1 ∈ ids := hperm.subset (List.mem_map_of_mem _ hb)
  exact (int32_pair_cmp_le (hr _ ha2) (hr _ hb2)).1 hab

theorem pairwise_le_last {l : List Int} (hs : l.Pairwise (fun a b => a ≤ b)) {n : Nat}
    (hn : l.length = n + 1) {last : Int} (hl : l.get? n = some last) :
    ∀ k ∈ l, k ≤ last := by
  intro k hk
  obtain ⟨i, hi, rfl⟩ := List.getElem_of_mem hk
  have hnl : n < l.length := by omega
  have hlast : l[n] = last := by
    rw [List.get?_eq_getElem?, List.getElem?_eq_getElem hnl] at hl
    exact Option.some.inj hl
  rcases Nat.lt_or_ge i n with h | h
  · have := List.pairwise_iff_getElem.1 hs i n hi hnl h
    rw [hlast] at this; exact this
  · have : i = n := by omega
    subst this; rw [hlast]

/-- What `remap_ids` computes, equal keys allowed: every key is replaced by the
number of keys not greater than it, minus one. -/
theorem remap_ids_sorted_eq {ids : List Int} {sorter : List (Int × Int)}
    (hne : ids ≠ []) (hr : ∀ k ∈ ids, 0 ≤ k ∧ k < 2147483647)
    (hq : qsort_post (fill_sorter ids 0) sorter) :
    remap_ids_sorted sorter ids =
      some (ids.map (fun k => (ids.countP (fun x => decide (x ≤ k)) : Int) - 1)) := by
  have hr2 : ∀ k ∈ ids, 0 ≤ k ∧ k < 2147483648 := fun k hk => by
    have := hr k hk; omega
  obtain ⟨hperm, hsorted⟩ := sorter_keys hr2 hq
  have hlen : sorter.length = ids.length := by
    have := hq.1.length_eq
    rwa [fill_sorter_length] at this
  have hpos : 0 < ids.length := List.length_pos.2 hne
  have hidx : ids.length - 1 < sorter.length := by omega
  obtain ⟨last, hlast⟩ : ∃ last, sorter.get? (ids.length - 1) = some last :=
    ⟨sorter[ids.length - 1], by rw [List.get?_eq_getElem?, List.getElem?_eq_getElem hidx]⟩
  have hlastk : (sorter.map Prod.fst).get? (ids.length - 1) = some last.1 := by
    rw [List.get?_eq_getElem?] at hlast ⊢
    rw [List.getElem?_map, hlast]; rfl
  have hmax := pairwise_le_last hsorted (n := ids.length - 1)
    (by rw [List.length_map]; omega) hlastk
  have hlast_mem : last.1 ∈ ids := by
    apply hperm.subset
    rw [List.get?_eq_getElem?] at hlastk
    exact List.getElem?_mem hlastk
  have hlr := hr _ hlast_mem
  have hsize : (wrap32 (last.1 + 1)).toNat = last.1.toNat + 1 := by
    rw [wrap32_of_range (by omega) (by omega)]; omega
  have hb : ∀ e ∈ sorter, 0 ≤ e.1 ∧
      e.1.toNat < (List.replicate (wrap32 (last.1 + 1)).toNat (0 : Int)).length := by
    intro e he
    have h1 : e.1 ∈ sorter.map Prod.fst := List.mem_map_of_mem _ he
    have h2 := hmax _ h1
    have h3 := hr _ (hperm.subset h1)
    rw [List.length_replicate, hsize]
    omega
  obtain ⟨m, hm, hmlen, hget⟩ := fill_map_spec sorter 0 _ hb hsorted
  have hb2 : ∀ k ∈ ids, 0 ≤ k ∧ k.toNat < m.length := by
    intro k hk
    have h2 := hmax _ (hperm.symm.subset hk)
    have h3 := hr _ hk
    rw [hmlen, List.length_replicate, hsize]
    omega
  unfold remap_ids_sorted
  rw [if_neg (by omega), hlast]
  simp only [hm]
  rw [lookup_ids_eq m ids hb2]
  congr 1
  apply List.map_congr_left
  intro k hk
  have hk2 := hb2 k hk
  have hkm : ((k.toNat : Nat) : Int) = k := Int.toNat_of_nonneg hk2.1
  rw [hget k.toNat (by rw [← hmlen]; exact hk2.2), hkm,
    if_pos (hperm.symm.subset hk), hperm.countP_eq]
  omega


theorem countP_le_eq (k : Int) : ∀ l : List Int,
    l.countP (fun x => decide (x ≤ k)) = l.countP (fun x => decide (x < k)) + l.count k := by
  intro l
  induction l with
  | nil => rfl
  | cons a t ih =>
    simp only [List.countP_cons, List.count_cons, ih, beq_iff_eq, decide_eq_true_eq]
    rcases lt_trichotomy a k with h | h | h
    · have h1 : a ≤ k := by omega
      have h2 : a ≠ k := by omega
      simp [h, h1, h2]; omega
    · subst h; simp; omega
    · have h1 : ¬ a ≤ k := by omega
      have h2 : ¬ a < k := by omega
      have h3 : a ≠ k := by omega
      simp [h1, h2, h3]

theorem countP_lt_mono {a b : Int} (hab : a ≤ b) : ∀ l : List Int,
    l.countP (fun x => decide (x < a)) ≤ l.countP (fun x => decide (x < b)) := by
  intro l
  induction l with
  | nil => simp
  | cons x t ih =>
    simp only [List.countP_cons]
    by_cases h1 : x < a
    · have h2 : x < b := by omega
      simp [h1, h2]; exact ih
    · simp only [h1, decide_False, Bool.false_eq_true, if_false, add_zero]
      split <;> omega

theorem countP_lt_strict {a b : Int} (hab : a < b) : ∀ l : List Int, a ∈ l →
    l.countP (fun x => decide (x < a)) < l.countP (fun x => decide (x < b)) := by
  intro l
  induction l with
  | nil => intro h; simp at h
  | cons x t ih =>
    intro hmem
    simp only [List.countP_cons]
    rcases List.mem_cons.1 hmem with h | h
    · subst h
      have := countP_lt_mono (le_of_lt hab) t
      simp [hab]; omega
    · have := ih h
      by_cases h1 : x < a
      · have h2 : x < b := by omega
        simp [h1, h2]; exact this
      · simp only [h1, decide_False, Bool.false_eq_true, if_false, add_zero]
        split <;> omega

/-- The rank of a key: the number of keys strictly smaller. -/
theorem rank_lt_iff {l : List Int} {a b : Int} (ha : a ∈ l) :
    a < b ↔ l.countP (fun x => decide (x < a)) < l.countP (fun x => decide (x < b)) := by
  constructor
  · intro h; exact countP_lt_strict h l ha
  · intro h
    by_contra hn
    have := countP_lt_mono (not_lt.1 hn) l
    omega

theorem rank_lt_length {l : List Int} {a : Int} (ha : a ∈ l) :
    l.countP (fun x => decide (x < a)) < l.length := by
  have h1 := countP_le_eq a l
  have h2 : 0 < l.count a := List.count_pos_iff.2 ha
  have h3 := List.countP_le_length (l := l) (fun x => decide (x ≤ a))
  omega

/-- With pairwise distinct keys `remap_ids` replaces every key by its rank. -/
theorem remap_ids_sorted_rank {ids : List Int} {sorter : List (Int × Int)}
    (hne : ids ≠ []) (hnd : ids.Nodup) (hr : ∀ k ∈ ids, 0 ≤ k ∧ k < 2147483647)
    (hq : qsort_post (fill_sorter ids 0) sorter) :
    remap_ids_sorted sorter ids =
      some (ids.map (fun k => (ids.countP (fun x => decide (x < k)) : Int))) := by
  rw [remap_ids_sorted_eq hne hr hq]
  congr 1
  apply List.map_congr_left
  intro k hk
  rw [countP_le_eq, List.count_eq_one_of_mem hnd hk]
  push_cast
  omega

theorem sort_field_loop_spec {α : Type} : ∀ (tmp : List α) (ids : List Int) (field : List α),
    tmp.length = ids.length → ids.Nodup → (∀ i ∈ ids, 0 ≤ i ∧ i.toNat < field.length) →
    ∃ r, sort_field_loop tmp ids field = some r ∧ r.length = field.length ∧
      (∀ j (hj : j < ids.length), r[(ids[j]).toNat]? = tmp[j]?) ∧
      (∀ p : Nat, (p : Int) ∉ ids → r[p]? = field[p]?) := by
  intro tmp
  induction tmp with
  | nil =>
    intro ids field hl _ _
    have : ids = [] := List.length_eq_zero.1 hl.symm
    subst this
    exact ⟨field, rfl, rfl, fun j hj => by simp at hj, fun _ _ => rfl⟩
  | cons t tmp ih =>
    intro ids field hl hnd hb
    cases ids with
    | nil => simp at hl
    | cons i ids =>
      have hi := hb i (List.mem_cons_self _ _)
      rw [List.nodup_cons] at hnd
      have hb2 : ∀ x ∈ ids, 0 ≤ x ∧ x.toNat < (field.set i.toNat t).length := by
        intro x hx; simpa using hb x (List.mem_cons_of_mem _ hx)
      obtain ⟨r, hr, hrl, hget, hframe⟩ := ih ids (field.set i.toNat t)
        (by simpa using hl) hnd.2 hb2
      refine ⟨r, by simp [sort_field_loop, hi, hr], by simpa using hrl, ?_, ?_⟩
      · intro j hj
        cases j with
        | zero =>
          have hni : ((i.toNat : Nat) : Int) ∉ ids := by
            rw [Int.toNat_of_nonneg hi.1]; exact hnd.1
          simp only [List.getElem_cons_zero, List.getElem?_cons_zero]
          rw [hframe i.toNat hni, List.getElem?_set_self hi.2]
        | succ j =>
          simp only [List.getElem_cons_succ, List.getElem?_cons_succ]
          exact hget j (by simpa using hj)
      · intro p hp
        rw [List.mem_cons, not_or] at hp
        have hpi : i.toNat ≠ p := by
          intro h; apply hp.1; rw [← h, Int.toNat_of_nonneg hi.1]
        rw [hframe p hp.2, List.getElem?_set_ne hpi]

theorem rank_list_spec (ids : List Int) (hnd : ids.Nodup) :
    (ids.map (fun k => (ids.countP (fun x => decide (x < k)) : Int))).Nodup ∧
    ∀ x ∈ ids.map (fun k => (ids.countP (fun x => decide (x < k)) : Int)),
      0 ≤ x ∧ x.toNat < ids.length := by
  constructor
  · refine List.Nodup.map_on ?_ hnd
    intro a ha b hb hab
    have hab2 : ids.countP (fun x => decide (x < a)) = ids.countP (fun x => decide (x < b)) := by
      exact_mod_cast hab
    by_contra hne
    rcases lt_or_gt_of_ne hne with h | h
    · have := (rank_lt_iff ha).1 h; omega
    · have := (rank_lt_iff hb).1 h; omega
  · intro x hx
    obtain ⟨k, hk, rfl⟩ := List.mem_map.1 hx
    have := rank_lt_length hk
    omega

/-- For `N ≥ 1` distinct keys the array left by `remap_ids` is a bijection of the
positions onto `[0, N)`. -/
theorem remap_ids_sorted_bijection {ids : List Int} {sorter : List (Int × Int)}
    (hne : ids ≠ []) (hnd : ids.Nodup) (hr : ∀ k ∈ ids, 0 ≤ k ∧ k < 2147483647)
    (hq : qsort_post (fill_sorter ids 0) sorter) :
    ∃ perm, remap_ids_sorted sorter ids = some perm ∧ perm.length = ids.length ∧
      perm.Nodup ∧ ∀ x ∈ perm, 0 ≤ x ∧ x.toNat < ids.length := by
  refine ⟨_, remap_ids_sorted_rank hne hnd hr hq, by simp, ?_, ?_⟩
  · exact (rank_list_spec ids hnd).1
  · exact (rank_list_spec ids hnd).2

/-! ## Reindexer: the claims -/

/-- Claim C3, the case the code misses: with `num_cells = 0` the size of the lookup
table is read from `sorter[2 * (num_cells - 1)]`, that is `sorter[-2]`, so an
empty key array does not get through `remap_ids`, whatever `qsort` left. -/
theorem remap_ids_zero_cells (sorter : List (Int × Int)) :
    remap_ids_sorted sorter [] = none ∧ remap_ids [] = none :=
  ⟨rfl, rfl⟩

/-- Claim C4 fails for the key `INT32_MAX`. The lookup table is given
`sorter[2 * (num_cells - 1)] + 1` entries, the sum being computed in `int`: with
the largest key `2147483647` it wraps to `-2147483648`, no table is allocated,
and the accesses `map[key]` of the one-element array `[2147483647]` lie outside
it, so `remap_ids` does not return the rank 0. The converter reaches this key
from the cell id `-2147483648`, whose decrement wraps. -/
theorem remap_ids_max_key :
    wrap32 (2147483647 + 1) = -2147483648 ∧
    fill_map [(2147483647, 0)] 0 (List.replicate (wrap32 (2147483647 + 1)).toNat 0) = none ∧
    remap_ids [2147483647] = none ∧
    convert_fields [-2147483648] [1] [10] = none := by
  decide

/-- The rank property where no key is `INT32_MAX`. For `N ≥ 1` pairwise distinct
non-negative keys (as `int32_t`, at most `INT32_MAX - 1`) and every array
`qsort` may leave, `remap_ids` returns, and the entry at each original position
`i` is the number of keys strictly smaller than `keys[i]`; equivalently
`keys[i] < keys[j]` exactly when `perm[i] < perm[j]`. -/
theorem remap_ids_rank (ids : List Int) (sorter : List (Int × Int))
    (hne : ids ≠ []) (hnd : ids.Nodup) (hr : ∀ k ∈ ids, 0 ≤ k ∧ k < 2147483647)
    (hq : qsort_post (fill_sorter ids 0) sorter) :
    ∃ perm, remap_ids_sorted sorter ids = some perm ∧ perm.length = ids.length ∧
      (∀ i (hi : i < ids.length),
        perm[i]? = some ((ids.countP (fun x => decide (x < ids[i])) : Nat) : Int)) ∧
      (∀ i j (hi : i < ids.length) (hj : j < ids.length),
        ids[i] < ids[j] ↔ perm.getD i 0 < perm.getD j 0) := by
  refine ⟨_, remap_ids_sorted_rank hne hnd hr hq, by simp, ?_, ?_⟩
  · intro i hi
    simp [List.getElem?_map, List.getElem?_eq_getElem hi]
  · intro i j hi hj
    rw [List.getD_eq_getElem?_getD, List.getD_eq_getElem?_getD]
    simp only [List.getElem?_map, List.getElem?_eq_getElem hi, List.getElem?_eq_getElem hj,
      Option.map_some', Option.getD_some]
    rw [rank_lt_iff (List.getElem_mem hi)]
    exact Nat.cast_lt.symm

theorem remap_ids_rank_witness :
    ∃ perm, remap_ids_sorted (qsort (fill_sorter [7, 0, 40, 3] 0)) [7, 0, 40, 3] = some perm ∧
      perm.length = [7, 0, 40, 3].length ∧
      (∀ i (hi : i < [7, 0, 40, 3].length),
        perm[i]? = some (([7, 0, 40, 3].countP
          (fun x => decide (x < ([7, 0, 40, 3] : List Int)[i])) : Nat) : Int)) ∧
      (∀ i j (hi : i < [7, 0, 40, 3].length) (hj : j < [7, 0, 40, 3].length),
        ([7, 0, 40, 3] : List Int)[i] < ([7, 0, 40, 3] : List Int)[j] ↔
          perm.getD i 0 < perm.getD j 0) :=
  remap_ids_rank [7, 0, 40, 3] (qsort (fill_sorter [7, 0, 40, 3] 0))
    (by decide) (by decide) (by decide) ⟨by decide, by decide⟩

/-- Claim C5 (applying the permutation). For every field array of length `N` and
every `perm` that `remap_ids` produces from `N` pairwise distinct non-negative
keys, `sort_field` returns a `result` of length `N` with
`result[perm[i]] = field[i]` for every `i`, and `result` is in ascending key
order: the value of the key with exactly `k` smaller keys is at index `k`,
and every index `k < N` holds such a value. -/
theorem sort_field_by_rank {α : Type} (keys : List Int) (sorter : List (Int × Int))
    (perm : List Int) (field : List α)
    (hnd : keys.Nodup) (hr : ∀ k ∈ keys, 0 ≤ k ∧ k < 2147483647)
    (hq : qsort_post (fill_sorter keys 0) sorter)
    (hperm : remap_ids_sorted sorter keys = some perm)
    (hlen : field.length = keys.length) :
    ∃ result, sort_field field perm = some result ∧ result.length = field.length ∧
      (∀ i (hi : i < field.length), result[(perm.getD i 0).toNat]? = some field[i]) ∧
      (∀ i (hi : i < keys.length) (k : Nat),
        keys.countP (fun x => decide (x < keys[i])) = k → result[k]? = field[i]?) ∧
      (∀ k, k < field.length →
        ∃ i, ∃ hi : i < keys.length, keys.countP (fun x => decide (x < keys[i])) = k) := by
  have hne : keys ≠ [] := by
    intro h; subst h; simp [remap_ids_sorted] at hperm
  have hrank := remap_ids_sorted_rank hne hnd hr hq
  rw [hperm] at hrank
  have hperm_eq := Option.some.inj hrank
  obtain ⟨hpn, hpr⟩ := rank_list_spec keys hnd
  rw [← hperm_eq] at hpn hpr
  have hpl : perm.length = keys.length := by rw [hperm_eq]; simp
  obtain ⟨r, hr1, hr2, hget, _⟩ := sort_field_loop_spec field perm field (by omega) hpn
    (fun x hx => by have := hpr x hx; omega)
  have hpi : ∀ i (hi : i < keys.length),
      perm.getD i 0 = ((keys.countP (fun x => decide (x < keys[i])) : Nat) : Int) := by
    intro i hi
    rw [hperm_eq, List.getD_eq_getElem?_getD]
    simp [List.getElem?_map, List.getElem?_eq_getElem hi]
  refine ⟨r, hr1, hr2, ?_, ?_, ?_⟩
  · intro i hi
    have hi2 : i < perm.length := by omega
    have h := hget i hi2
    have h2 : perm.getD i 0 = perm[i] := by
      rw [List.getD_eq_getElem?_getD, List.getElem?_eq_getElem hi2]; rfl
    rw [List.getElem?_eq_getElem hi] at h
    rw [h2]; exact h
  · intro i hi k hk
    have hi2 : i < perm.length := by omega
    have h := hget i hi2
    have h2 : perm[i] = perm.getD i 0 := by
      rw [List.getD_eq_getElem?_getD, List.getElem?_eq_getElem hi2]; rfl
    rw [h2, hpi i hi, hk] at h
    simpa using h
  · intro k hk
    -- the ranks are `N` distinct values below `N`, hence all of them
    have hsub : perm.map Int.toNat ⊆ List.range keys.length := by
      intro x hx
      obtain ⟨y, hy, rfl⟩ := List.mem_map.1 hx
      exact List.mem_range.2 (hpr y hy).2
    have hnd2 : (perm.map Int.toNat).Nodup := by
      refine List.Nodup.map_on ?_ hpn
      intro a ha b hb hab
      have := hpr a ha; have := hpr b hb; omega
    have hperm2 : (perm.map Int.toNat).Perm (List.range keys.length) := by
      refine (List.subperm_of_subset hnd2 hsub).perm_of_length_le ?_
      simp [hpl]
    have hk2 : k ∈ perm.map Int.toNat := hperm2.symm.subset (List.mem_range.2 (by omega))
    obtain ⟨y, hy, hyk⟩ := List.mem_map.1 hk2
    obtain ⟨i, hi, rfl⟩ := List.getElem_of_mem hy
    refine ⟨i, by omega, ?_⟩
    have h2 : perm[i] = perm.getD i 0 := by
      rw [List.getD_eq_getElem?_getD, List.getElem?_eq_getElem hi]; rfl
    rw [h2, hpi i (by omega)] at hyk
    simpa using hyk

theorem sort_field_by_rank_witness :
    ∃ result, sort_field [10, 20, 30, 40] [2, 0, 3, 1] = some result ∧
      result.length = [10, 20, 30, 40].length ∧
      (∀ i (hi : i < [10, 20, 30, 40].length),
        result[(([2, 0, 3, 1] : List Int).getD i 0).toNat]? = some ([10, 20, 30, 40] : List Nat)[i]) ∧
      (∀ i (hi : i < ([7, 0, 40, 3] : List Int).length) (k : Nat),
        ([7, 0, 40, 3] : List Int).countP (fun x => decide (x < ([7, 0, 40, 3] : List Int)[i])) = k →
          result[k]? = ([10, 20, 30, 40] : List Nat)[i]?) ∧
      (∀ k, k < [10, 20, 30, 40].length →
        ∃ i, ∃ hi : i < ([7, 0, 40, 3] : List Int).length,
          ([7, 0, 40, 3] : List Int).countP
            (fun x => decide (x < ([7, 0, 40, 3] : List Int)[i])) = k) :=
  sort_field_by_rank [7, 0, 40, 3] (qsort (fill_sorter [7, 0, 40, 3] 0)) [2, 0, 3, 1]
    [10, 20, 30, 40] (by decide) (by decide) ⟨by decide, by decide⟩ (by decide) (by decide)

/-- Claim C6 (end-to-end scenario). With decoded 1-based cell ids `[3,1,5,2,4]` and
pressures `[1,2,3,4,5]` bar, the pipeline of `convert_sum_file` (decrement the
ids, `remap_ids`, `sort_field`, multiply by `1e5`) yields the pressures
`[2e5, 4e5, 1e5, 5e5, 3e5]`, ordered by ascending cell id, whatever array
`qsort` leaves; the temperatures are reordered the same way. -/
theorem convert_fields_scenario (sorter : List (Int × Int)) (t0 t1 t2 t3 t4 : ℚ)
    (hq : qsort_post (fill_sorter [2, 0, 4, 1, 3] 0) sorter) :
    convert_fields_sorted sorter [3, 1, 5, 2, 4] [1, 2, 3, 4, 5] [t0, t1, t2, t3, t4] =
      some ([200000, 400000, 100000, 500000, 300000], [t1, t3, t0, t4, t2]) := by
  have hids : ([3, 1, 5, 2, 4] : List Int).map (fun c => wrap32 (c - 1)) = [2, 0, 4, 1, 3] := by
    decide
  have hperm : remap_ids_sorted sorter [2, 0, 4, 1, 3] = some [2, 0, 4, 1, 3] := by
    rw [remap_ids_sorted_rank (by decide) (by decide) (by decide) hq]
    decide
  unfold convert_fields_sorted
  rw [hids, hperm]
  have e2 : Int.toNat 2 = 2 := rfl
  have e3 : Int.toNat 3 = 3 := rfl
  have e4 : Int.toNat 4 = 4 := rfl
  simp only [sort_field, sort_field_loop]
  norm_num [e2, e3, e4, List.set]

theorem convert_fields_scenario_witness :
    convert_fields [3, 1, 5, 2, 4] [1, 2, 3, 4, 5] [300, 310, 320, 330, 340] =
      some ([200000, 400000, 100000, 500000, 300000], [310, 330, 300, 340, 320]) :=
  convert_fields_scenario (qsort (fill_sorter [2, 0, 4, 1, 3] 0)) 300 310 320 330 340
    ⟨by decide, by decide⟩

/-! ## Stream lemmas -/

theorem fread_of_le (s : FILE) (n : Nat) (h : s.pos + n ≤ s.bytes.length) :
    fread s n = ({ s with pos := s.pos + n }, (s.bytes.drop s.pos).take n) := by
  unfold fread
  by_cases hn : n = 0
  · subst hn; simp
  · have hl : ((s.bytes.drop s.pos).take n).length = n := by
      rw [List.length_take, List.length_drop]; omega
    simp [hn, hl]

theorem fread_bytes (s : FILE) (n : Nat) : (fread s n).1.bytes = s.bytes := by
  unfold fread
  split
  · rfl
  · dsimp only
    split <;> rfl

theorem fseek_cur_bytes (s : FILE) (off : Int) : (fseek_cur s off).bytes = s.bytes := by
  unfold fseek_cur
  split <;> rfl

theorem fseek_cur_pos (s : FILE) (off : Int) (h0 : 0 ≤ (s.pos : Int) + off)
    (h1 : (s.pos : Int) + off ≤ LONG_MAX) :
    (fseek_cur s off).pos = ((s.pos : Int) + off).toNat := by
  unfold fseek_cur
  rw [if_neg (by omega)]

theorem to_long_of_lt {n : Nat} (h : n < 9223372036854775808) : to_long n = (n : Int) := by
  unfold to_long
  have : n % 18446744073709551616 = n := Nat.mod_eq_of_lt (by omega)
  rw [this, if_pos h]

/-- A peek at a position inside the stream leaves the cursor where it was. -/
theorem peek_phst_inside (s : FILE) (phst : Int) (h : s.pos < s.bytes.length)
    (hmax : (s.bytes.length : Int) ≤ LONG_MAX) :
    (peek_phst s phst).1.bytes = s.bytes ∧ (peek_phst s phst).1.pos = s.pos ∧
      (peek_phst s phst).2 = (peek_phst ⟨s.bytes, s.pos, false⟩ phst).2 := by
  unfold peek_phst
  rw [fread_of_le s 1 (by omega)]
  have h2 : fread ⟨s.bytes, s.pos, false⟩ 1 =
      (⟨s.bytes, s.pos + 1, false⟩, (s.bytes.drop s.pos).take 1) := by
    rw [fread_of_le _ 1 (by simpa using h)]
  rw [h2]
  refine ⟨by rw [fseek_cur_bytes], ?_, rfl⟩
  rw [fseek_cur_pos _ _ (by dsimp only; omega) (by simp only [LONG_MAX] at hmax ⊢; omega)]
  dsimp only
  omega

theorem peek_phst_range (s : FILE) (phst : Int) (h : phst = -1 ∨ (1 ≤ phst ∧ phst ≤ 127)) :
    1 ≤ (peek_phst s phst).2 ∧ (peek_phst s phst).2 ≤ 127 := by
  unfold peek_phst
  dsimp only
  generalize (fread s 1).2 = l
  cases l with
  | nil => dsimp only; split <;> omega
  | cons b t =>
    have : -128 ≤ to_int8 b ∧ to_int8 b ≤ 127 := by
      unfold to_int8; split <;> omega
    dsimp only
    split <;> omega

theorem phst_at_range (bytes : List Nat) (phst_idx : Int) (prop_idx pos : Nat) (phst : Int)
    (h : phst = -1 ∨ (1 ≤ phst ∧ phst ≤ 127)) :
    phst_at bytes phst_idx prop_idx pos phst = -1 ∨
      (1 ≤ phst_at bytes phst_idx prop_idx pos phst ∧
        phst_at bytes phst_idx prop_idx pos phst ≤ 127) := by
  unfold phst_at
  split
  · exact Or.inr (peek_phst_range _ _ h)
  · exact h

/-! ## The decoder on a complete DATA section -/

theorem width_facts (p : mf_property) (ph : Int) (hph : ph = -1 ∨ (1 ≤ ph ∧ ph ≤ 127))
    (hw : bytes_to_skip p ph < 9223372036854775808) :
    1 ≤ bytes_to_read p ph ∧ bytes_to_read p ph < 9223372036854775808 ∧
      bytes_to_skip p ph =
        (if p.output_mode = .MF_DOUBLE then 2 * bytes_to_read p ph else bytes_to_read p ph) := by
  obtain ⟨nm, dm, dt, om, ps⟩ := p
  have hz : to_size_t ph = 18446744073709551615 ∨ (1 ≤ to_size_t ph ∧ to_size_t ph ≤ 127) := by
    unfold to_size_t; omega
  unfold bytes_to_skip bytes_to_read at *
  generalize to_size_t ph = z at *
  cases dt <;> cases om <;> cases ps <;>
    simp only [elem_size, reduceCtorEq, if_true, if_false, Nat.reduceMul, Nat.reduceMod,
      and_true, one_mul] at hw ⊢ <;> omega

theorem read_property_complete (data : List mf_data) (phst_idx : Int) (obj_idx prop_idx : Nat)
    (p : mf_property) (req_idx : Int) (s : FILE) (phst : Int)
    (hmax : (s.bytes.length : Int) ≤ LONG_MAX)
    (hph : phst = -1 ∨ (1 ≤ phst ∧ phst ≤ 127))
    (hfit : s.pos + bytes_to_skip p (phst_at s.bytes phst_idx prop_idx s.pos phst)
      ≤ s.bytes.length) :
    (read_property data phst_idx obj_idx prop_idx p req_idx s phst).1.bytes = s.bytes ∧
    (read_property data phst_idx obj_idx prop_idx p req_idx s phst).1.pos =
      s.pos + bytes_to_skip p (phst_at s.bytes phst_idx prop_idx s.pos phst) ∧
    (read_property data phst_idx obj_idx prop_idx p req_idx s phst).2.1 =
      phst_at s.bytes phst_idx prop_idx s.pos phst ∧
    (read_property data phst_idx obj_idx prop_idx p req_idx s phst).2.2 =
      prop_events data obj_idx prop_idx p req_idx s.bytes s.pos
        (phst_at s.bytes phst_idx prop_idx s.pos phst) := by
  have hph2 := phst_at_range s.bytes phst_idx prop_idx s.pos phst hph
  generalize hphdef : phst_at s.bytes phst_idx prop_idx s.pos phst = ph at *
  have hw : bytes_to_skip p ph < 9223372036854775808 := by
    simp only [LONG_MAX] at hmax; omega
  obtain ⟨hr1, hr2, hskip⟩ := width_facts p ph hph2 hw
  have hw1 : 1 ≤ bytes_to_skip p ph := by rw [hskip]; split <;> omega
  obtain ⟨sp, hsp, hb, hp, h2⟩ : ∃ sp : FILE × Int,
      (if (prop_idx : Int) = phst_idx then peek_phst s phst else (s, phst)) = sp ∧
      sp.1.bytes = s.bytes ∧ sp.1.pos = s.pos ∧ sp.2 = ph := by
    refine ⟨_, rfl, ?_⟩
    by_cases hidx : (prop_idx : Int) = phst_idx
    · obtain ⟨a, b, c⟩ := peek_phst_inside s phst (by omega) hmax
      rw [if_pos hidx]
      refine ⟨a, b, ?_⟩
      rw [c, ← hphdef]; unfold phst_at; rw [if_pos hidx]
    · rw [if_neg hidx]
      refine ⟨rfl, rfl, ?_⟩
      rw [← hphdef]; unfold phst_at; rw [if_neg hidx]
  unfold read_property prop_events
  dsimp only
  rw [hsp, h2]
  simp only [LONG_MAX] at hmax
  by_cases hskipc : req_idx < 0 ∨ (obj_idx : Int) ≥ (data.getD req_idx.toNat default).count
  · rw [if_pos hskipc, if_pos hskipc]
    dsimp only
    rw [to_long_of_lt hw]
    refine ⟨by rw [fseek_cur_bytes, hb], ?_, rfl, rfl⟩
    rw [fseek_cur_pos _ _ (by omega) (by simp only [LONG_MAX]; omega), hp]
    omega
  · rw [if_neg hskipc, if_neg hskipc]
    by_cases hd : p.output_mode = .MF_DOUBLE
    · rw [if_pos hd] at hskip
      rw [if_pos hd, if_pos hd]
      have e0 := fread_of_le sp.1 (bytes_to_read p ph) (by rw [hb, hp]; omega)
      have e1 := fread_of_le (fread sp.1 (bytes_to_read p ph)).1 (bytes_to_read p ph)
        (by rw [e0]; dsimp only; rw [hb, hp]; omega)
      refine ⟨?_, ?_, rfl, ?_⟩
      · dsimp only; rw [fread_bytes, fread_bytes, hb]
      · dsimp only; rw [e1, e0]; dsimp only; omega
      · dsimp only; rw [e1, e0]; dsimp only; rw [hb, hp]
    · rw [if_neg hd] at hskip
      rw [if_neg hd, if_neg hd]
      have e0 := fread_of_le sp.1 (bytes_to_read p ph) (by rw [hb, hp]; omega)
      refine ⟨?_, ?_, rfl, ?_⟩
      · dsimp only; rw [fread_bytes, hb]
      · dsimp only; rw [e0]; dsimp only; omega
      · dsimp only; rw [e0]; dsimp only; rw [hb, hp]

theorem read_props_complete (data : List mf_data) (req_indices : List Int) (phst_idx : Int)
    (obj_idx : Nat) : ∀ (props : List mf_property) (prop_idx : Nat) (s : FILE) (phst : Int)
    (e : Nat), (s.bytes.length : Int) ≤ LONG_MAX → (phst = -1 ∨ (1 ≤ phst ∧ phst ≤ 127)) →
    props_in_stream s.bytes phst_idx props prop_idx s.pos phst = some e →
    (read_props data req_indices phst_idx obj_idx props prop_idx s phst).1.bytes = s.bytes ∧
    (read_props data req_indices phst_idx obj_idx props prop_idx s phst).1.pos = e ∧
    (read_props data req_indices phst_idx obj_idx props prop_idx s phst).2.2 =
      props_events data req_indices s.bytes phst_idx obj_idx props prop_idx s.pos phst := by
  intro props
  induction props with
  | nil =>
    intro prop_idx s phst e _ _ h
    simp only [props_in_stream, Option.some.injEq] at h
    exact ⟨rfl, h, rfl⟩
  | cons p ps ih =>
    intro prop_idx s phst e hmax hph h
    simp only [props_in_stream] at h
    split at h
    · rename_i hfit
      obtain ⟨h1, h2, h3, h4⟩ := read_property_complete data phst_idx obj_idx prop_idx p
        (req_indices.getD prop_idx (-1)) s phst hmax hph hfit
      have hph2 := phst_at_range s.bytes phst_idx prop_idx s.pos phst hph
      obtain ⟨i1, i2, i3⟩ := ih (prop_idx + 1)
        (read_property data phst_idx obj_idx prop_idx p (req_indices.getD prop_idx (-1)) s phst).1
        (read_property data phst_idx obj_idx prop_idx p (req_indices.getD prop_idx (-1)) s phst).2.1
        e (by rw [h1]; exact hmax) (by rw [h3]; exact hph2) (by rw [h1, h2, h3]; exact h)
      simp only [read_props, props_events]
      refine ⟨by rw [i1, h1], i2, ?_⟩
      rw [i3, h4, h1, h2, h3]
    · exact absurd h (by simp)

theorem read_objects_complete (desc : mf_arrays) (data : List mf_data) (req_indices : List Int)
    (phst_idx : Int) : ∀ (n obj_idx : Nat) (s : FILE) (e : Nat),
    (s.bytes.length : Int) ≤ LONG_MAX →
    objects_in_stream s.bytes desc.properties phst_idx n s.pos = some e →
    (read_objects desc data req_indices phst_idx n obj_idx s).1.bytes = s.bytes ∧
    (read_objects desc data req_indices phst_idx n obj_idx s).1.pos = e ∧
    (read_objects desc data req_indices phst_idx n obj_idx s).2 =
      objects_events data req_indices s.bytes desc.properties phst_idx n obj_idx s.pos := by
  intro n
  induction n with
  | zero =>
    intro obj_idx s e _ h
    simp only [objects_in_stream, Option.some.injEq] at h
    exact ⟨rfl, h, rfl⟩
  | succ n ih =>
    intro obj_idx s e hmax h
    simp only [objects_in_stream] at h
    split at h
    · exact absurd h (by simp)
    · rename_i e1 he1
      obtain ⟨h1, h2, h3⟩ := read_props_complete data req_indices phst_idx obj_idx
        desc.properties 0 s (-1) e1 hmax (Or.inl rfl) he1
      obtain ⟨i1, i2, i3⟩ := ih (obj_idx + 1)
        (read_props data req_indices phst_idx obj_idx desc.properties 0 s (-1)).1 e
        (by rw [h1]; exact hmax) (by rw [h1, h2]; exact h)
      simp only [read_objects, objects_events]
      refine ⟨by rw [i1, h1], i2, ?_⟩
      rw [i3, h3, h1, h2, he1]
      rfl

theorem objects_in_stream_pred (bytes : List Nat) (props : List mf_property) (phst_idx : Int) :
    ∀ (n pos : Nat), (objects_in_stream bytes props phst_idx (n + 1) pos).isSome = true →
      (objects_in_stream bytes props phst_idx n pos).isSome = true := by
  intro n
  induction n with
  | zero => intro pos _; rfl
  | succ n ih =>
    intro pos h
    rw [objects_in_stream] at h ⊢
    split at h
    · simp at h
    · rename_i e he
      exact ih e h

theorem objects_in_stream_le (bytes : List Nat) (props : List mf_property) (phst_idx : Int)
    (pos : Nat) {k n : Nat} (hkn : k ≤ n)
    (h : (objects_in_stream bytes props phst_idx n pos).isSome = true) :
    (objects_in_stream bytes props phst_idx k pos).isSome = true := by
  induction n with
  | zero =>
    have : k = 0 := by omega
    subst this; exact h
  | succ n ih =>
    rcases Nat.lt_or_ge k (n + 1) with hlt | hge
    · exact ih (by omega) (objects_in_stream_pred bytes props phst_idx n pos h)
    · have : k = n + 1 := by omega
      subst this; exact h

/-! ## Name resolution -/

theorem find_property_some (name : List Nat) : ∀ (props : List mf_property) (k p : Nat),
    find_property name props k = some p →
    k ≤ p ∧ p - k < props.length ∧
      ∃ q, props[p - k]? = some q ∧ name.take 8 = q.name.take 8 := by
  intro props
  induction props with
  | nil => intro k p h; simp [find_property] at h
  | cons q qs ih =>
    intro k p h
    simp only [find_property] at h
    split at h
    · rename_i hm
      simp only [Option.some.injEq] at h
      subst h
      refine ⟨le_refl _, by simp, q, by simp, ?_⟩
      simpa [memcmp8] using hm
    · obtain ⟨h1, h2, q2, h3, h4⟩ := ih (k + 1) p h
      refine ⟨by omega, by simp; omega, q2, ?_, h4⟩
      have : p - k = (p - (k + 1)) + 1 := by omega
      rw [this, List.getElem?_cons_succ]
      exact h3

theorem find_property_none (name : List Nat) : ∀ (props : List mf_property) (k : Nat),
    find_property name props k = none ↔ ∀ q ∈ props, memcmp8 name q.name = false := by
  intro props
  induction props with
  | nil => intro k; simp [find_property]
  | cons q qs ih =>
    intro k
    simp only [find_property, List.mem_cons, forall_eq_or_imp]
    by_cases hm : memcmp8 name q.name = true
    · simp [hm]
    · simp only [hm, Bool.false_eq_true, if_false]
      rw [ih (k + 1)]
      simp [hm]

theorem find_property_shift (name : List Nat) : ∀ (props : List mf_property) (k : Nat),
    find_property name props k = (find_property name props 0).map (fun p => p + k) := by
  intro props
  induction props with
  | nil => intro k; rfl
  | cons q qs ih =>
    intro k
    simp only [find_property]
    split
    · simp
    · rw [ih (k + 1), ih 1]
      cases find_property name qs 0 with
      | none => rfl
      | some p => simp; omega

theorem find_property_inj {a b : List Nat} {props : List mf_property} {p : Nat}
    (ha : find_property a props 0 = some p) (hb : find_property b props 0 = some p) :
    a.take 8 = b.take 8 := by
  obtain ⟨_, _, q, hq, h1⟩ := find_property_some a props 0 p ha
  obtain ⟨_, _, q2, hq2, h2⟩ := find_property_some b props 0 p hb
  rw [hq] at hq2
  have := Option.some.inj hq2
  subst this
  rw [h1, h2]

/-- The resolution loop on names that all exist and are pairwise distinct on their
eight bytes. -/
theorem resolve_requests_spec (props : List mf_property) (data : List mf_data) :
    ∀ (names : List (List Nat)) (req0 : Nat) (ri0 : List Int) (mc0 : Int),
    (∀ name ∈ names, (find_property name props 0).isSome = true) →
    (names.map (List.take 8)).Nodup →
    req0 + names.length ≤ data.length →
    ri0.length = props.length →
    ∃ ri, resolve_requests props data names req0 ri0 mc0 =
        .ok (ri, ((data.drop req0).take names.length).foldl
          (fun m d => if m > d.count then m else d.count) mc0) ∧
      ri.length = props.length ∧
      (∀ j (hj : j < names.length) (p : Nat),
        find_property names[j] props 0 = some p → ri.getD p (-1) = ((req0 + j : Nat) : Int)) ∧
      (∀ p, (∀ name ∈ names, find_property name props 0 ≠ some p) →
        ri.getD p (-1) = ri0.getD p (-1)) := by
  intro names
  induction names with
  | nil =>
    intro req0 ri0 mc0 _ _ _ hl
    exact ⟨ri0, by simp [resolve_requests], hl, fun j hj => by simp at hj, fun _ _ => rfl⟩
  | cons name rest ih =>
    intro req0 ri0 mc0 hall hnd hlen hl
    have hname := hall name (List.mem_cons_self _ _)
    obtain ⟨p0, hp0⟩ := Option.isSome_iff_exists.1 hname
    rw [List.map_cons, List.nodup_cons] at hnd
    simp only [List.length_cons] at hlen
    obtain ⟨ri, hri, hril, hget, hframe⟩ := ih (req0 + 1) (ri0.set p0 (req0 : Int))
      (if mc0 > (data.getD req0 default).count then mc0 else (data.getD req0 default).count)
      (fun n hn => hall n (List.mem_cons_of_mem _ hn)) hnd.2 (by omega) (by simpa using hl)
    have hp0lt : p0 < props.length := by
      have := (find_property_some name props 0 p0 hp0).2.1
      omega
    refine ⟨ri, ?_, hril, ?_, ?_⟩
    · simp only [resolve_requests, hp0, hri, List.length_cons]
      have hd : data.drop req0 = data.getD req0 default :: data.drop (req0 + 1) := by
        have hlt : req0 < data.length := by omega
        rw [List.getD_eq_getElem?_getD, List.getElem?_eq_getElem hlt]
        simp
      rw [hd]
      simp [List.take_succ_cons, List.foldl_cons]
    · intro j hj p hp
      cases j with
      | zero =>
        simp only [List.getElem_cons_zero] at hp
        rw [hp0] at hp
        have hpp := Option.some.inj hp
        subst hpp
        have hnot : ∀ n ∈ rest, find_property n props 0 ≠ some p0 := by
          intro n hn hcon
          apply hnd.1
          rw [find_property_inj hp0 hcon]
          exact List.mem_map_of_mem _ hn
        rw [hframe p0 hnot, List.getD_eq_getElem?_getD,
          List.getElem?_set_self (by omega)]
        simp
      | succ j =>
        simp only [List.getElem_cons_succ] at hp
        have := hget j (by simpa using hj) p hp
        rw [this]
        congr 1
        omega
    · intro p hp
      have h1 : ∀ n ∈ rest, find_property n props 0 ≠ some p :=
        fun n hn => hp n (List.mem_cons_of_mem _ hn)
      have h2 : p0 ≠ p := by
        intro h; apply hp name (List.mem_cons_self _ _); rw [hp0, h]
      rw [hframe p h1, List.getD_eq_getElem?_getD, List.getD_eq_getElem?_getD,
        List.getElem?_set_ne h2]

/-- The resolution loop fails exactly when some requested name matches no property. -/
theorem resolve_requests_status (props : List mf_property) (data : List mf_data) :
    ∀ (names : List (List Nat)) (req0 : Nat) (ri0 : List Int) (mc0 : Int),
    ((∃ name ∈ names, find_property name props 0 = none) →
      resolve_requests props data names req0 ri0 mc0 =
        .error (.status .MF_ERROR_MISSING_PROPERTY)) ∧
    ((∀ name ∈ names, find_property name props 0 ≠ none) →
      ∃ r, resolve_requests props data names req0 ri0 mc0 = .ok r) := by
  intro names
  induction names with
  | nil =>
    intro req0 ri0 mc0
    exact ⟨fun ⟨n, hn, _⟩ => by simp at hn, fun _ => ⟨_, rfl⟩⟩
  | cons name rest ih =>
    intro req0 ri0 mc0
    cases hf : find_property name props 0 with
    | none =>
      refine ⟨fun _ => by simp [resolve_requests, hf], fun h => ?_⟩
      exact absurd hf (h name (List.mem_cons_self _ _))
    | some p0 =>
      simp only [resolve_requests, hf]
      constructor
      · rintro ⟨n, hn, hnone⟩
        rcases List.mem_cons.1 hn with h | h
        · subst h; rw [hf] at hnone; simp at hnone
        · exact (ih _ _ _).1 ⟨n, h, hnone⟩
      · intro h
        exact (ih _ _ _).2 (fun n hn => h n (List.mem_cons_of_mem _ hn))


/-! ### The variable-width scenario -/

theorem scenario_drop0 (pre v0 v1 post : List Nat) :
    (pre ++ 2 :: (v0 ++ 1 :: (v1 ++ post))).drop pre.length = 2 :: (v0 ++ 1 :: (v1 ++ post)) := by
  simp

theorem scenario_drop1 (pre v0 v1 post : List Nat) :
    (pre ++ 2 :: (v0 ++ 1 :: (v1 ++ post))).drop (pre.length + 1) = v0 ++ 1 :: (v1 ++ post) := by
  rw [← List.drop_drop, scenario_drop0]
  rfl

theorem scenario_drop17 (pre v0 v1 post : List Nat) (hv0 : v0.length = 16) :
    (pre ++ 2 :: (v0 ++ 1 :: (v1 ++ post))).drop (pre.length + 17) = 1 :: (v1 ++ post) := by
  have : pre.length + 17 = pre.length + 1 + 16 := by omega
  rw [this, ← List.drop_drop, scenario_drop1, ← hv0, List.drop_left]

theorem scenario_drop18 (pre v0 v1 post : List Nat) (hv0 : v0.length = 16) :
    (pre ++ 2 :: (v0 ++ 1 :: (v1 ++ post))).drop (pre.length + 18) = v1 ++ post := by
  have : pre.length + 18 = pre.length + 17 + 1 := by omega
  rw [this, ← List.drop_drop, scenario_drop17 _ _ _ _ hv0]
  rfl

theorem phst_at_head (B : List Nat) (p : Nat) (b : Nat) (t : List Nat)
    (hd : B.drop p = b :: t) (hb : 1 ≤ b ∧ b ≤ 127) :
    phst_at B 0 0 p (-1) = (b : Int) := by
  have hlen : p + 1 ≤ B.length := by
    have := congrArg List.length hd
    rw [List.length_drop, List.length_cons] at this
    omega
  unfold phst_at peek_phst
  rw [if_pos (by simp), fread_of_le _ 1 (by simpa using hlen)]
  dsimp only
  rw [hd]
  simp only [List.take_succ_cons, List.take_zero]
  unfold to_int8
  have : b % 256 = b := Nat.mod_eq_of_lt (by omega)
  have h128 : b < 128 := by omega
  simp only [this, h128, if_true]
  rw [if_neg (by omega)]

/-- One object of the scenario schema whose record starts at `p` with phase count `k`. -/
theorem scenario_object (B vname u0 u1 : List Nat) (d : mf_data) (obj_idx p : Nat) (k : Nat)
    (hk : phst_at B 0 0 p (-1) = (k : Int)) (hk1 : 1 ≤ k ∧ k ≤ 127)
    (hfit : p + 1 + 8 * k ≤ B.length) (hcap : (obj_idx : Int) < d.count) :
    props_in_stream B 0
      [⟨PHST, u0, .MF_INT1, .MF_SINGLE, .MF_STATE0⟩,
       ⟨vname, u1, .MF_REAL8, .MF_SINGLE, .MF_STATE1⟩] 0 p (-1) = some (p + 1 + 8 * k) ∧
    props_events [d] [-1, 0] B 0 obj_idx
      [⟨PHST, u0, .MF_INT1, .MF_SINGLE, .MF_STATE0⟩,
       ⟨vname, u1, .MF_REAL8, .MF_SINGLE, .MF_STATE1⟩] 0 p (-1) =
      [⟨0, 1, obj_idx, 0, d.stride * obj_idx, (B.drop (p + 1)).take (8 * k)⟩] := by
  have hw0 : ∀ ph, bytes_to_skip ⟨PHST, u0, .MF_INT1, .MF_SINGLE, .MF_STATE0⟩ ph = 1 := by
    intro ph; simp [bytes_to_skip, elem_size]
  have hsz : to_size_t (k : Int) = k := by unfold to_size_t; omega
  have hw1 : bytes_to_skip ⟨vname, u1, .MF_REAL8, .MF_SINGLE, .MF_STATE1⟩ (k : Int) = 8 * k := by
    simp only [bytes_to_skip, elem_size, reduceCtorEq, if_false, if_true, hsz]
    omega
  have hr1 : bytes_to_read ⟨vname, u1, .MF_REAL8, .MF_SINGLE, .MF_STATE1⟩ (k : Int) = 8 * k := by
    simp only [bytes_to_read, elem_size, reduceCtorEq, if_false, if_true, hsz]
    omega
  have hother : ∀ q ph, phst_at B 0 1 q ph = ph := by
    intro q ph; unfold phst_at; rw [if_neg (by decide)]
  constructor
  · rw [props_in_stream, hk, hw0, if_pos (by omega), props_in_stream, hother, hw1,
      if_pos (by omega), props_in_stream]
  · rw [props_events, hk, hw0, props_events, hother, hw1, props_events]
    have hc : ¬ ((0 : Int) < 0 ∨ (obj_idx : Int) ≥ d.count) := by omega
    simp only [prop_events, List.getD_cons_zero, List.getD_cons_succ, hr1, reduceCtorEq,
      if_false, Int.toNat_zero, hc]
    simp

/-! ## Which writes are made does not depend on the stream -/

theorem prop_events_req (data : List mf_data) (obj_idx prop_idx : Nat) (p : mf_property)
    (req : Int) (B : List Nat) (pos : Nat) (ph : Int) :
    ∀ w ∈ prop_events data obj_idx prop_idx p req B pos ph,
      0 ≤ req ∧ w.req_idx = req.toNat ∧ w.prop_idx = prop_idx ∧ w.obj_idx = obj_idx ∧
        (obj_idx : Int) < (data.getD req.toNat default).count := by
  intro w hw
  unfold prop_events at hw
  split at hw
  · simp at hw
  · rename_i hc
    split at hw
    · simp only [List.mem_cons, List.mem_singleton, List.not_mem_nil, or_false] at hw
      rcases hw with h | h <;> subst h <;> exact ⟨by omega, rfl, rfl, rfl, by omega⟩
    · simp only [List.mem_singleton] at hw
      subst hw
      exact ⟨by omega, rfl, rfl, rfl, by omega⟩

theorem prop_events_filter_self (data : List mf_data) (obj_idx prop_idx : Nat) (p : mf_property)
    (j : Nat) (B : List Nat) (pos : Nat) (ph : Int) :
    (prop_events data obj_idx prop_idx p (j : Int) B pos ph).filter
      (fun w => decide (w.req_idx = j)) = prop_events data obj_idx prop_idx p (j : Int) B pos ph := by
  rw [List.filter_eq_self]
  intro w hw
  have := (prop_events_req data obj_idx prop_idx p (j : Int) B pos ph w hw).2.1
  simp [this]

theorem prop_events_filter_other (data : List mf_data) (obj_idx prop_idx : Nat)
    (p : mf_property) (req : Int) (j : Nat) (B : List Nat) (pos : Nat) (ph : Int)
    (hne : req ≠ (j : Int)) :
    (prop_events data obj_idx prop_idx p req B pos ph).filter
      (fun w => decide (w.req_idx = j)) = [] := by
  rw [List.filter_eq_nil_iff]
  intro w hw
  obtain ⟨h0, h1, _⟩ := prop_events_req data obj_idx prop_idx p req B pos ph w hw
  simp only [decide_eq_true_eq]
  omega

theorem foldl_capacity_ge (l : List mf_data) : ∀ m : Int,
    m ≤ l.foldl (fun m d => if m > d.count then m else d.count) m ∧
    ∀ d ∈ l, d.count ≤ l.foldl (fun m d => if m > d.count then m else d.count) m := by
  induction l with
  | nil => intro m; simp
  | cons a t ih =>
    intro m
    simp only [List.foldl_cons, List.mem_cons, forall_eq_or_imp]
    obtain ⟨h1, h2⟩ := ih (if m > a.count then m else a.count)
    refine ⟨?_, ?_, h2⟩
    · by_cases hm : m > a.count
      · rw [if_pos hm] at h1 ⊢; exact h1
      · rw [if_neg hm] at h1 ⊢; omega
    · by_cases hm : m > a.count
      · rw [if_pos hm] at h1 ⊢; omega
      · rw [if_neg hm] at h1 ⊢; exact h1

theorem count_le_max_capacity (data : List mf_data) (j : Nat) (hj : j < data.length) :
    (data.getD j default).count ≤ max_capacity data := by
  rw [List.getD_eq_getElem?_getD, List.getElem?_eq_getElem hj]
  exact (foldl_capacity_ge data 0).2 _ (List.getElem_mem hj)

theorem max_capacity_nonneg (data : List mf_data) : 0 ≤ max_capacity data :=
  (foldl_capacity_ge data 0).1

/-- Distinct names that all exist are not more than the properties. -/
theorem names_le_properties (props : List mf_property) (names : List (List Nat))
    (hex : ∀ name ∈ names, (find_property name props 0).isSome = true)
    (hnd : (names.map (List.take 8)).Nodup) : names.length ≤ props.length := by
  have hnd0 : names.Nodup := List.Nodup.of_map _ hnd
  have hinj : (names.map (fun nm => (find_property nm props 0).getD 0)).Nodup := by
    refine List.Nodup.map_on ?_ hnd0
    intro a ha b hb hab
    obtain ⟨pa, hpa⟩ := Option.isSome_iff_exists.1 (hex a ha)
    obtain ⟨pb, hpb⟩ := Option.isSome_iff_exists.1 (hex b hb)
    rw [hpa, hpb] at hab
    simp only [Option.getD_some] at hab
    subst hab
    have := find_property_inj hpa hpb
    exact List.inj_on_of_nodup_map hnd ha hb this
  have hsub : names.map (fun nm => (find_property nm props 0).getD 0) ⊆
      List.range props.length := by
    intro x hx
    obtain ⟨nm, hnm, rfl⟩ := List.mem_map.1 hx
    obtain ⟨p, hp⟩ := Option.isSome_iff_exists.1 (hex nm hnm)
    rw [hp]
    have := (find_property_some nm props 0 p hp).2.1
    simp only [Option.getD_some, List.mem_range]
    omega
  have := (List.subperm_of_subset hinj hsub).length_le
  simpa using this

/-- The request table after a successful resolution of distinct names. -/
theorem resolve_requests_table (props : List mf_property) (data : List mf_data)
    (names : List (List Nat))
    (hex : ∀ name ∈ names, (find_property name props 0).isSome = true)
    (hnd : (names.map (List.take 8)).Nodup) (hlen : data.length = names.length) :
    ∃ ri, resolve_requests props data names 0 (List.replicate props.length (-1)) 0 =
        .ok (ri, max_capacity data) ∧
      ∀ j (hj : j < names.length), ∃ p q, find_property names[j] props 0 = some p ∧
        props[p]? = some q ∧ names[j].take 8 = q.name.take 8 ∧
        ri.getD p (-1) = (j : Int) ∧ ∀ p2, p2 ≠ p → ri.getD p2 (-1) ≠ (j : Int) := by
  obtain ⟨ri, hri, _, hget, hframe⟩ := resolve_requests_spec props data names 0
    (List.replicate props.length (-1)) 0 hex hnd (by omega) (by simp)
  refine ⟨ri, ?_, ?_⟩
  · rw [hri, List.drop_zero, ← hlen, List.take_length]
    rfl
  · intro j hj
    obtain ⟨p, hp⟩ := Option.isSome_iff_exists.1 (hex _ (List.getElem_mem hj))
    obtain ⟨_, _, q, hq, hqn⟩ := find_property_some _ props 0 p hp
    refine ⟨p, q, hp, by simpa using hq, hqn, by simpa using hget j hj p hp, ?_⟩
    intro p2 hp2 hcon
    by_cases hres : ∃ name ∈ names, find_property name props 0 = some p2
    · obtain ⟨nm, hnm, hnm2⟩ := hres
      obtain ⟨j2, hj2, rfl⟩ := List.getElem_of_mem hnm
      have h1 := hget j2 hj2 p2 hnm2
      rw [hcon] at h1
      have hjj : j = j2 := by simpa using h1
      subst hjj
      rw [hp] at hnm2
      exact hp2 (Option.some.inj hnm2).symm
    · have h1 := hframe p2 (fun nm hnm hh => hres ⟨nm, hnm, hh⟩)
      rw [hcon, List.getD_eq_getElem?_getD] at h1
      by_cases hlt : p2 < props.length
      · rw [List.getElem?_replicate] at h1
        simp [hlt] at h1
      · rw [List.getElem?_eq_none (by simpa using hlt)] at h1
        simp at h1

/-! ## Two decodes of the same block -/

theorem props_events_req (data : List mf_data) (ri : List Int) (B : List Nat) (phst_idx : Int)
    (obj_idx : Nat) : ∀ (props : List mf_property) (idx pos : Nat) (ph : Int),
    ∀ w ∈ props_events data ri B phst_idx obj_idx props idx pos ph,
      w.obj_idx = obj_idx ∧ (obj_idx : Int) < (data.getD w.req_idx default).count := by
  intro props
  induction props with
  | nil => intro idx pos ph w hw; simp [props_events] at hw
  | cons q qs ih =>
    intro idx pos ph w hw
    simp only [props_events, List.mem_append] at hw
    rcases hw with h | h
    · obtain ⟨_, h1, _, h3, h4⟩ := prop_events_req data obj_idx idx q _ B pos _ w h
      rw [h1]
      exact ⟨h3, h4⟩
    · exact ih _ _ _ w h

/-- Objects at or beyond the capacity of request `j` get no write for it. -/
theorem objects_events_filter_nil (data : List mf_data) (ri : List Int) (B : List Nat)
    (props : List mf_property) (phst_idx : Int) (j : Nat) : ∀ (m obj_idx pos : Nat),
    (∀ x, obj_idx ≤ x → x < obj_idx + m → (data.getD j default).count ≤ (x : Int)) →
    (objects_events data ri B props phst_idx m obj_idx pos).filter
      (fun w => decide (w.req_idx = j)) = [] := by
  intro m
  induction m with
  | zero => intro _ _ _; rfl
  | succ m ih =>
    intro obj_idx pos h
    simp only [objects_events, List.filter_append]
    rw [ih (obj_idx + 1) _ (fun x h1 h2 => h x (by omega) (by omega)), List.append_nil,
      List.filter_eq_nil_iff]
    intro w hw
    obtain ⟨_, h2⟩ := props_events_req data ri B phst_idx obj_idx props 0 pos (-1) w hw
    have h3 := h obj_idx (le_refl _) (by omega)
    simp only [decide_eq_true_eq]
    intro hj
    rw [hj] at h2
    omega

theorem prop_events_value (data data2 : List mf_data) (obj_idx prop_idx : Nat)
    (p : mf_property) (j j2 : Nat) (B : List Nat) (pos : Nat) (ph : Int)
    (hc : (data.getD j default).count = (data2.getD j2 default).count)
    (hst : (data.getD j default).stride = (data2.getD j2 default).stride) :
    (prop_events data obj_idx prop_idx p (j : Int) B pos ph).map dst_write.value =
      (prop_events data2 obj_idx prop_idx p (j2 : Int) B pos ph).map dst_write.value := by
  unfold prop_events
  simp only [Int.toNat_ofNat, hc, hst]
  by_cases h : (obj_idx : Int) ≥ (data2.getD j2 default).count
  · rw [if_pos (Or.inr h), if_pos (Or.inr h)]
  · have h1 : ¬ ((j : Int) < 0 ∨ (obj_idx : Int) ≥ (data2.getD j2 default).count) := by omega
    have h2 : ¬ ((j2 : Int) < 0 ∨ (obj_idx : Int) ≥ (data2.getD j2 default).count) := by omega
    rw [if_neg h1, if_neg h2]
    by_cases hd : p.output_mode = .MF_DOUBLE
    · rw [if_pos hd, if_pos hd]; rfl
    · rw [if_neg hd, if_neg hd]; rfl

/-- The writes for one property of one object carry the same values whatever else
is requested. -/
theorem props_events_value (data data2 : List mf_data) (ri ri2 : List Int) (B : List Nat)
    (phst_idx : Int) (obj_idx j j2 p : Nat)
    (hs : ri.getD p (-1) = (j : Int)) (hu : ∀ p2, p2 ≠ p → ri.getD p2 (-1) ≠ (j : Int))
    (hs2 : ri2.getD p (-1) = (j2 : Int)) (hu2 : ∀ p2, p2 ≠ p → ri2.getD p2 (-1) ≠ (j2 : Int))
    (hc : (data.getD j default).count = (data2.getD j2 default).count)
    (hst : (data.getD j default).stride = (data2.getD j2 default).stride) :
    ∀ (props : List mf_property) (idx pos : Nat) (ph : Int),
    ((props_events data ri B phst_idx obj_idx props idx pos ph).filter
        (fun w => decide (w.req_idx = j))).map dst_write.value =
      ((props_events data2 ri2 B phst_idx obj_idx props idx pos ph).filter
        (fun w => decide (w.req_idx = j2))).map dst_write.value := by
  intro props
  induction props with
  | nil => intro _ _ _; rfl
  | cons q qs ih =>
    intro idx pos ph
    simp only [props_events, List.filter_append, List.map_append]
    rw [ih]
    congr 1
    by_cases hip : idx = p
    · subst hip
      rw [hs, hs2, prop_events_filter_self, prop_events_filter_self]
      exact prop_events_value data data2 obj_idx idx q j j2 B pos _ hc hst
    · rw [prop_events_filter_other _ _ _ _ _ _ _ _ _ (hu idx hip),
        prop_events_filter_other _ _ _ _ _ _ _ _ _ (hu2 idx hip)]

theorem objects_events_value (data data2 : List mf_data) (ri ri2 : List Int) (B : List Nat)
    (props : List mf_property) (phst_idx : Int) (j j2 p : Nat)
    (hs : ri.getD p (-1) = (j : Int)) (hu : ∀ p2, p2 ≠ p → ri.getD p2 (-1) ≠ (j : Int))
    (hs2 : ri2.getD p (-1) = (j2 : Int)) (hu2 : ∀ p2, p2 ≠ p → ri2.getD p2 (-1) ≠ (j2 : Int))
    (hc : (data.getD j default).count = (data2.getD j2 default).count)
    (hst : (data.getD j default).stride = (data2.getD j2 default).stride) (m : Nat) :
    ∀ (n obj_idx pos : Nat),
    (∀ x, obj_idx + n ≤ x → x < obj_idx + n + m → (data.getD j default).count ≤ (x : Int)) →
    ((objects_events data ri B props phst_idx (n + m) obj_idx pos).filter
        (fun w => decide (w.req_idx = j))).map dst_write.value =
      ((objects_events data2 ri2 B props phst_idx n obj_idx pos).filter
        (fun w => decide (w.req_idx = j2))).map dst_write.value := by
  intro n
  induction n with
  | zero =>
    intro obj_idx pos h
    rw [Nat.zero_add, objects_events_filter_nil data ri B props phst_idx j m obj_idx pos
      (fun x h1 h2 => h x (by omega) (by omega))]
    rfl
  | succ n ih =>
    intro obj_idx pos h
    have e : n + 1 + m = (n + m) + 1 := by omega
    rw [e]
    simp only [objects_events, List.filter_append, List.map_append]
    rw [ih (obj_idx + 1) _ (fun x h1 h2 => h x (by omega) (by omega)),
      props_events_value data data2 ri ri2 B phst_idx obj_idx j j2 p hs hu hs2 hu2 hc hst]

theorem max_capacity_le (data : List mf_data) (M : Int) (h0 : 0 ≤ M)
    (h : ∀ d ∈ data, d.count ≤ M) : max_capacity data ≤ M := by
  unfold max_capacity
  suffices hgen : ∀ (l : List mf_data) (m : Int), m ≤ M → (∀ d ∈ l, d.count ≤ M) →
      l.foldl (fun m d => if m > d.count then m else d.count) m ≤ M from hgen data 0 h0 h
  intro l
  induction l with
  | nil => intro m hm _; simpa using hm
  | cons a t ih =>
    intro m hm hl
    simp only [List.foldl_cons]
    apply ih
    · have := hl a (List.mem_cons_self _ _)
      split <;> omega
    · exact fun d hd => hl d (List.mem_cons_of_mem _ hd)

theorem find_property_congr {a b : List Nat} (h : a.take 8 = b.take 8) :
    ∀ (props : List mf_property) (k : Nat), find_property a props k = find_property b props k := by
  intro props
  induction props with
  | nil => intro _; rfl
  | cons q qs ih =>
    intro k
    simp only [find_property, memcmp8, h, ih]

theorem find_property_isSome {props : List mf_property} {names : List (List Nat)}
    (hex : ∀ name ∈ names, ∃ q ∈ props, name.take 8 = q.name.take 8) :
    ∀ name ∈ names, (find_property name props 0).isSome = true := by
  intro name hname
  obtain ⟨q, hq, hqn⟩ := hex name hname
  rw [Option.isSome_iff_ne_none]
  intro hnone
  have := (find_property_none name props 0).1 hnone q hq
  simp [memcmp8, hqn] at this

/-- A successful `read_data` on a stream that holds the whole DATA section: the
writes are those the layout of the section prescribes. -/
theorem read_data_canonical (s : FILE) (desc : mf_arrays) (query : mf_sum_block_query)
    (data : List mf_data) (offset : Nat)
    (hex : ∀ name ∈ query.names, (find_property name desc.properties 0).isSome = true)
    (hnd : (query.names.map (List.take 8)).Nodup)
    (hlen : data.length = query.names.length)
    (hc : data_complete s.bytes desc offset) :
    ∃ ri r, read_data s desc query data (offset : Int) = .ok r ∧
      (∀ j (hj : j < query.names.length), ∃ p q,
        find_property query.names[j] desc.properties 0 = some p ∧
        desc.properties[p]? = some q ∧ query.names[j].take 8 = q.name.take 8 ∧
        ri.getD p (-1) = (j : Int) ∧ ∀ p2, p2 ≠ p → ri.getD p2 (-1) ≠ (j : Int)) ∧
      r.objects = (min desc.num_objects (max_capacity data)).toNat ∧
      r.log = objects_events data ri s.bytes desc.properties
        (find_phst desc.properties 0 (-1)) r.objects 0 offset := by
  have hle := names_le_properties desc.properties query.names hex hnd
  have hn : ¬ desc.num_properties < query.num_items := by
    simp only [mf_arrays.num_properties, mf_sum_block_query.num_items]
    omega
  obtain ⟨ri, hri, htab⟩ := resolve_requests_table desc.properties data query.names hex hnd hlen
  have hK : (clamp_max_count desc (max_capacity data)).toNat =
      (min desc.num_objects (max_capacity data)).toNat := by
    unfold clamp_max_count
    split <;> omega
  by_cases h0 : query.names = []
  · refine ⟨ri, ⟨s, 0, []⟩, ?_, htab, ?_, rfl⟩
    · unfold read_data
      rw [if_neg hn, if_pos (by simp [mf_sum_block_query.num_items, h0])]
    · have hd : data = [] := List.length_eq_zero.1 (by rw [hlen, h0]; rfl)
      have : max_capacity data = 0 := by rw [hd]; rfl
      rw [this]
      dsimp only
      omega
  · have hne : ¬ query.num_items = 0 := by
      intro hz
      apply h0
      simp only [mf_sum_block_query.num_items] at hz
      exact List.length_eq_zero.1 (by exact_mod_cast hz)
    have hseek : fseek_set s (offset : Int) = ⟨s.bytes, offset, false⟩ := by
      simp [fseek_set]
    obtain ⟨hmax, hfit⟩ := hc
    have hfit2 := objects_in_stream_le s.bytes desc.properties
      (find_phst desc.properties 0 (-1)) offset
      (k := (clamp_max_count desc (max_capacity data)).toNat) (by rw [hK]; omega) hfit
    obtain ⟨e, he⟩ := Option.isSome_iff_exists.1 hfit2
    obtain ⟨_, _, c3⟩ := read_objects_complete desc data ri (find_phst desc.properties 0 (-1))
      (clamp_max_count desc (max_capacity data)).toNat 0 ⟨s.bytes, offset, false⟩ e hmax he
    refine ⟨ri, ⟨(read_objects desc data ri (find_phst desc.properties 0 (-1))
        (clamp_max_count desc (max_capacity data)).toNat 0 (fseek_set s offset)).1,
      (clamp_max_count desc (max_capacity data)).toNat,
      (read_objects desc data ri (find_phst desc.properties 0 (-1))
        (clamp_max_count desc (max_capacity data)).toNat 0 (fseek_set s offset)).2⟩,
      ?_, htab, hK, ?_⟩
    · unfold read_data
      rw [if_neg hn, if_neg hne, hri]
    · dsimp only
      rw [hseek, c3]


/-! ## Decoder: the claims -/

/-- Claim C9 (decode failure conditions). `read_data` returns `InvalidReadRequest`
exactly when the block has fewer properties than the query has items; otherwise
it returns `MissingProperty` exactly when some requested name matches no
property of the schema on its eight name bytes; otherwise it returns `MF_OK`;
and a query with no items succeeds, leaves the stream as it is and writes
nothing. -/
theorem read_data_status (stream : FILE) (desc : mf_arrays) (query : mf_sum_block_query)
    (data : List mf_data) (offset : Int) :
    (read_data stream desc query data offset =
        .error (.status .MF_ERROR_INVALID_READ_REQUEST) ↔
      desc.num_properties < query.num_items) ∧
    (¬ desc.num_properties < query.num_items →
      (read_data stream desc query data offset = .error (.status .MF_ERROR_MISSING_PROPERTY) ↔
        ∃ name ∈ query.names, ∀ q ∈ desc.properties, name.take 8 ≠ q.name.take 8)) ∧
    (¬ desc.num_properties < query.num_items →
      (∀ name ∈ query.names, ∃ q ∈ desc.properties, name.take 8 = q.name.take 8) →
      ∃ r, read_data stream desc query data offset = .ok r) ∧
    (query.names = [] → read_data stream desc query data offset = .ok ⟨stream, 0, []⟩) := by
  have hnone : ∀ name : List Nat, find_property name desc.properties 0 = none ↔
      ∀ q ∈ desc.properties, name.take 8 ≠ q.name.take 8 := by
    intro name
    rw [find_property_none]
    simp [memcmp8]
  have hst := resolve_requests_status desc.properties data query.names 0
    (List.replicate desc.properties.length (-1)) 0
  refine ⟨?_, ?_, ?_, ?_⟩
  · constructor
    · intro h
      by_contra hn
      unfold read_data at h
      rw [if_neg hn] at h
      split at h
      · simp at h
      · by_cases hex : ∃ name ∈ query.names, find_property name desc.properties 0 = none
        · rw [hst.1 hex] at h
          simp at h
        · obtain ⟨r, hr⟩ := hst.2 (fun name hname hnn => hex ⟨name, hname, hnn⟩)
          rw [hr] at h
          simp at h
    · intro h
      unfold read_data
      rw [if_pos h]
  · intro hn
    unfold read_data
    rw [if_neg hn]
    constructor
    · intro h
      split at h
      · simp at h
      · by_contra hcon
        have hall : ∀ name ∈ query.names, find_property name desc.properties 0 ≠ none := by
          intro name hname hnn
          exact hcon ⟨name, hname, (hnone name).1 hnn⟩
        obtain ⟨r, hr⟩ := hst.2 hall
        rw [hr] at h
        simp at h
    · rintro ⟨name, hname, hq⟩
      have hne : ¬ query.num_items = 0 := by
        intro h0
        simp only [mf_sum_block_query.num_items] at h0
        have : query.names = [] := List.length_eq_zero.1 (by exact_mod_cast h0)
        rw [this] at hname
        simp at hname
      rw [if_neg hne, hst.1 ⟨name, hname, (hnone name).2 hq⟩]
  · intro hn hall
    unfold read_data
    rw [if_neg hn]
    split
    · exact ⟨_, rfl⟩
    · have hall2 : ∀ name ∈ query.names, find_property name desc.properties 0 ≠ none := by
        intro name hname hnn
        obtain ⟨q, hq, hqe⟩ := hall name hname
        exact (hnone name).1 hnn q hq hqe
      obtain ⟨r, hr⟩ := hst.2 hall2
      rw [hr]
      exact ⟨_, rfl⟩
  · intro h
    unfold read_data
    have h0 : query.num_items = 0 := by simp [mf_sum_block_query.num_items, h]
    have hn : ¬ desc.num_properties < query.num_items := by
      rw [h0]; simp [mf_arrays.num_properties]
    rw [if_neg hn, if_pos h0]

/-- Claim C7 (variable-width scenario). Schema `[PHST (INT1, Fixed, Single),
V (REAL8, Variable, Single)]`, two objects whose inline phase counts are 2
and 1, `V` requested with capacity at least 2. `read_data` copies exactly the
16 value bytes of object 0 and the 8 value bytes of object 1; the cursor
after object 0 is at the DATA offset + 17, where the record of object 1
starts, and at the end at the DATA offset + 26. The DATA section is
`2 :: v0 ++ 1 :: v1`, preceded by `pre` and followed by `post` in the stream. -/
theorem variable_width_scenario (pre v0 v1 post vname u0 u1 : List Nat) (d : mf_data)
    (pos0 : Nat) (eof0 : Bool)
    (hv0 : v0.length = 16) (hv1 : v1.length = 8) (hcap : 2 ≤ d.count)
    (hname : vname.take 8 ≠ PHST)
    (hmax : ((pre ++ 2 :: (v0 ++ 1 :: (v1 ++ post))).length : Int) ≤ LONG_MAX) :
    ∃ r, read_data ⟨pre ++ 2 :: (v0 ++ 1 :: (v1 ++ post)), pos0, eof0⟩
        ⟨2, [⟨PHST, u0, .MF_INT1, .MF_SINGLE, .MF_STATE0⟩,
             ⟨vname, u1, .MF_REAL8, .MF_SINGLE, .MF_STATE1⟩]⟩
        ⟨[vname]⟩ [d] pre.length = .ok r ∧
      r.objects = 2 ∧
      r.log = [⟨0, 1, 0, 0, 0, v0⟩, ⟨0, 1, 1, 0, d.stride, v1⟩] ∧
      r.stream.pos = pre.length + 26 ∧
      (read_objects ⟨2, [⟨PHST, u0, .MF_INT1, .MF_SINGLE, .MF_STATE0⟩,
             ⟨vname, u1, .MF_REAL8, .MF_SINGLE, .MF_STATE1⟩]⟩ [d] [-1, 0] 0 1 0
          ⟨pre ++ 2 :: (v0 ++ 1 :: (v1 ++ post)), pre.length, false⟩).1.pos
        = pre.length + 17 := by
  generalize hB : pre ++ 2 :: (v0 ++ 1 :: (v1 ++ post)) = B at *
  have hlen : B.length = pre.length + 26 + post.length := by
    rw [← hB]; simp; omega
  have hk0 : phst_at B 0 0 pre.length (-1) = ((2 : Nat) : Int) :=
    phst_at_head B _ 2 _ (by rw [← hB]; exact scenario_drop0 pre v0 v1 post) (by omega)
  have hk1 : phst_at B 0 0 (pre.length + 17) (-1) = ((1 : Nat) : Int) :=
    phst_at_head B _ 1 _ (by rw [← hB]; exact scenario_drop17 pre v0 v1 post hv0) (by omega)
  have hval0 : (B.drop (pre.length + 1)).take 16 = v0 := by
    rw [← hB, scenario_drop1, ← hv0, List.take_left]
  have hval1 : (B.drop (pre.length + 18)).take 8 = v1 := by
    rw [← hB, scenario_drop18 _ _ _ _ hv0, ← hv1, List.take_left]
  obtain ⟨ha1, ha2⟩ := scenario_object B vname u0 u1 d 0 pre.length 2 hk0 (by omega)
    (by omega) (by omega)
  obtain ⟨hb1, hb2⟩ := scenario_object B vname u0 u1 d 1 (pre.length + 17) 1 hk1 (by omega)
    (by omega) (by omega)
  rw [show pre.length + 1 + 8 * 2 = pre.length + 17 by omega] at ha1
  rw [show pre.length + 17 + 1 + 8 * 1 = pre.length + 26 by omega] at hb1
  rw [show pre.length + 17 + 1 = pre.length + 18 by omega, show 8 * 1 = 8 by rfl, hval1,
    Nat.mul_one] at hb2
  rw [show 8 * 2 = 16 by rfl, hval0, Nat.mul_zero] at ha2
  have hin1 : objects_in_stream B
      [⟨PHST, u0, .MF_INT1, .MF_SINGLE, .MF_STATE0⟩,
       ⟨vname, u1, .MF_REAL8, .MF_SINGLE, .MF_STATE1⟩] 0 1 pre.length
        = some (pre.length + 17) := by
    simp only [objects_in_stream, ha1]
  have hin2 : objects_in_stream B
      [⟨PHST, u0, .MF_INT1, .MF_SINGLE, .MF_STATE0⟩,
       ⟨vname, u1, .MF_REAL8, .MF_SINGLE, .MF_STATE1⟩] 0 2 pre.length
        = some (pre.length + 26) := by
    simp only [objects_in_stream, ha1, hb1]
  have hname2 : ¬ List.take 8 vname = List.take 8 PHST := hname
  have hfind : find_property vname
      [⟨PHST, u0, .MF_INT1, .MF_SINGLE, .MF_STATE0⟩,
       ⟨vname, u1, .MF_REAL8, .MF_SINGLE, .MF_STATE1⟩] 0 = some 1 := by
    simp [find_property, memcmp8, hname2]
  have hphst : find_phst
      [⟨PHST, u0, .MF_INT1, .MF_SINGLE, .MF_STATE0⟩,
       ⟨vname, u1, .MF_REAL8, .MF_SINGLE, .MF_STATE1⟩] 0 (-1) = 0 := by
    simp [find_phst, memcmp8, hname2]
  have hseek : fseek_set ⟨B, pos0, eof0⟩ (pre.length : Int) = ⟨B, pre.length, false⟩ := by
    simp [fseek_set]
  obtain ⟨c1, c2, c3⟩ := read_objects_complete
    ⟨2, [⟨PHST, u0, .MF_INT1, .MF_SINGLE, .MF_STATE0⟩,
         ⟨vname, u1, .MF_REAL8, .MF_SINGLE, .MF_STATE1⟩]⟩ [d] [-1, 0] 0 2 0
    ⟨B, pre.length, false⟩ _ hmax hin2
  obtain ⟨e1, e2, e3⟩ := read_objects_complete
    ⟨2, [⟨PHST, u0, .MF_INT1, .MF_SINGLE, .MF_STATE0⟩,
         ⟨vname, u1, .MF_REAL8, .MF_SINGLE, .MF_STATE1⟩]⟩ [d] [-1, 0] 0 1 0
    ⟨B, pre.length, false⟩ _ hmax hin1
  have hclamp : (clamp_max_count
      ⟨2, [⟨PHST, u0, .MF_INT1, .MF_SINGLE, .MF_STATE0⟩,
           ⟨vname, u1, .MF_REAL8, .MF_SINGLE, .MF_STATE1⟩]⟩
      (if (0 : Int) > d.count then 0 else d.count)).toNat = 2 := by
    unfold clamp_max_count
    dsimp only
    split <;> split <;> omega
  have hrd : read_data ⟨B, pos0, eof0⟩
      ⟨2, [⟨PHST, u0, .MF_INT1, .MF_SINGLE, .MF_STATE0⟩,
           ⟨vname, u1, .MF_REAL8, .MF_SINGLE, .MF_STATE1⟩]⟩
      ⟨[vname]⟩ [d] pre.length =
      .ok ⟨(read_objects ⟨2, [⟨PHST, u0, .MF_INT1, .MF_SINGLE, .MF_STATE0⟩,
           ⟨vname, u1, .MF_REAL8, .MF_SINGLE, .MF_STATE1⟩]⟩ [d] [-1, 0] 0 2 0
           ⟨B, pre.length, false⟩).1, 2,
         (read_objects ⟨2, [⟨PHST, u0, .MF_INT1, .MF_SINGLE, .MF_STATE0⟩,
           ⟨vname, u1, .MF_REAL8, .MF_SINGLE, .MF_STATE1⟩]⟩ [d] [-1, 0] 0 2 0
           ⟨B, pre.length, false⟩).2⟩ := by
    unfold read_data
    simp only [mf_arrays.num_properties, mf_sum_block_query.num_items, List.length_cons,
      List.length_nil, resolve_requests, hfind, hphst, hseek, hclamp, List.replicate,
      List.set, List.getD_cons_zero]
    rfl
  refine ⟨_, hrd, rfl, ?_, c2, e2⟩
  dsimp only
  rw [c3]
  simp only [objects_events, ha2, hb2, ha1, Option.getD_some]
  rfl

theorem variable_width_scenario_witness :
    ∃ r, read_data ⟨[9, 9] ++ 2 :: ([1, 2, 3, 4, 5, 6, 7, 8, 11, 12, 13, 14, 15, 16, 17, 18] ++
          1 :: ([21, 22, 23, 24, 25, 26, 27, 28] ++ [7])), 0, false⟩
        ⟨2, [⟨PHST, [], .MF_INT1, .MF_SINGLE, .MF_STATE0⟩,
             ⟨[86, 32, 32, 32, 32, 32, 32, 32], [], .MF_REAL8, .MF_SINGLE, .MF_STATE1⟩]⟩
        ⟨[[86, 32, 32, 32, 32, 32, 32, 32]]⟩ [⟨fun _ => 0, fun _ => 0, 16, 2⟩]
        ([9, 9] : List Nat).length = .ok r ∧
      r.objects = 2 ∧
      r.log = [⟨0, 1, 0, 0, 0, [1, 2, 3, 4, 5, 6, 7, 8, 11, 12, 13, 14, 15, 16, 17, 18]⟩,
               ⟨0, 1, 1, 0, (⟨fun _ => 0, fun _ => 0, 16, 2⟩ : mf_data).stride,
                 [21, 22, 23, 24, 25, 26, 27, 28]⟩] ∧
      r.stream.pos = ([9, 9] : List Nat).length + 26 ∧
      (read_objects ⟨2, [⟨PHST, [], .MF_INT1, .MF_SINGLE, .MF_STATE0⟩,
             ⟨[86, 32, 32, 32, 32, 32, 32, 32], [], .MF_REAL8, .MF_SINGLE, .MF_STATE1⟩]⟩
          [⟨fun _ => 0, fun _ => 0, 16, 2⟩] [-1, 0] 0 1 0
          ⟨[9, 9] ++ 2 :: ([1, 2, 3, 4, 5, 6, 7, 8, 11, 12, 13, 14, 15, 16, 17, 18] ++
            1 :: ([21, 22, 23, 24, 25, 26, 27, 28] ++ [7])), ([9, 9] : List Nat).length,
            false⟩).1.pos
        = ([9, 9] : List Nat).length + 17 :=
  variable_width_scenario [9, 9] [1, 2, 3, 4, 5, 6, 7, 8, 11, 12, 13, 14, 15, 16, 17, 18]
    [21, 22, 23, 24, 25, 26, 27, 28] [7] [86, 32, 32, 32, 32, 32, 32, 32] [] []
    ⟨fun _ => 0, fun _ => 0, 16, 2⟩ 0 false (by decide) (by decide) (by decide) (by decide)
    (by decide)

/-- Claim C2 fails on a block with a Variable property that no phase-count property
precedes. Schema `[A (INT1, Fixed), V (REAL8, Variable)]`, two objects, DATA
section at offset 16 of a 40-byte stream, capacity 2 and stride 1 for `A` in
both calls. With the query `[A, V]` the read of `V` for object 0 takes the
whole rest of the stream (the phase count in force is −1), and `A` of object 1
receives no byte; with the sub-query `[A]` the skip of `V` moves the cursor
back by 8, and `A` of object 1 receives the byte at position 9. The
destination of `A` ends as `[16, 0]` in the first call and `[16, 9]` in the
second. -/
theorem read_data_subquery_unset :
    (read_data sample_long_stream sample_unset_schema
      ⟨[[65, 32, 32, 32, 32, 32, 32, 32], [86, 32, 32, 32, 32, 32, 32, 32]]⟩
      [⟨fun _ => 0, fun _ => 0, 1, 2⟩, ⟨fun _ => 0, fun _ => 0, 8, 2⟩] 16).map
      (fun r => (r.log.filter (fun w => decide (w.req_idx = 0)),
        mem_after (fun _ => 0) 0 0 r.log 0, mem_after (fun _ => 0) 0 0 r.log 1)) =
      .ok ([⟨0, 0, 0, 0, 0, [16]⟩, ⟨0, 0, 1, 0, 1, []⟩], 16, 0) ∧
    (read_data sample_long_stream sample_unset_schema
      ⟨[[65, 32, 32, 32, 32, 32, 32, 32]]⟩
      [⟨fun _ => 0, fun _ => 0, 1, 2⟩] 16).map
      (fun r => (r.log.filter (fun w => decide (w.req_idx = 0)),
        mem_after (fun _ => 0) 0 0 r.log 0, mem_after (fun _ => 0) 0 0 r.log 1)) =
      .ok ([⟨0, 0, 0, 0, 0, [16]⟩, ⟨0, 0, 1, 0, 1, [9]⟩], 16, 9) := by
  decide

/-- The selective decode subset law on a block whose DATA section lies whole in the
stream, at the widths the decoder derives. The block is decoded twice: with a
query `q` of distinct names that all exist, and with a query `q2` of distinct
names that all occur in `q`, every such name being given the same capacity and
stride in both calls. Both calls succeed, and for every name of `q2` the writes
into its destination (object, buffer, byte offset and bytes, in order) are the
same in both calls. -/
theorem read_data_subquery (s : FILE) (desc : mf_arrays) (q q2 : mf_sum_block_query)
    (data data2 : List mf_data) (offset : Nat)
    (hex : ∀ name ∈ q.names, ∃ pr ∈ desc.properties, name.take 8 = pr.name.take 8)
    (hnd : (q.names.map (List.take 8)).Nodup)
    (hnd2 : (q2.names.map (List.take 8)).Nodup)
    (hlen : data.length = q.names.length) (hlen2 : data2.length = q2.names.length)
    (hsub : ∀ j2 (hj2 : j2 < q2.names.length), ∃ j, ∃ hj : j < q.names.length,
      q2.names[j2].take 8 = q.names[j].take 8 ∧
      (data2.getD j2 default).count = (data.getD j default).count ∧
      (data2.getD j2 default).stride = (data.getD j default).stride)
    (hc : data_complete s.bytes desc offset) :
    ∃ r r2, read_data s desc q data (offset : Int) = .ok r ∧
      read_data s desc q2 data2 (offset : Int) = .ok r2 ∧
      ∀ j2 j (hj2 : j2 < q2.names.length) (hj : j < q.names.length),
        q2.names[j2].take 8 = q.names[j].take 8 →
        (r2.log.filter (fun w => decide (w.req_idx = j2))).map dst_write.value =
          (r.log.filter (fun w => decide (w.req_idx = j))).map dst_write.value := by
  have hex1 := find_property_isSome hex
  have hex2 : ∀ name ∈ q2.names, (find_property name desc.properties 0).isSome = true := by
    intro name hname
    obtain ⟨j2, hj2, rfl⟩ := List.getElem_of_mem hname
    obtain ⟨j, hj, hn, _⟩ := hsub j2 hj2
    rw [find_property_congr hn]
    exact hex1 _ (List.getElem_mem hj)
  obtain ⟨ri, r, hr, htab, hK, hlog⟩ := read_data_canonical s desc q data offset hex1 hnd hlen hc
  obtain ⟨ri2, r2, hr2, htab2, hK2, hlog2⟩ :=
    read_data_canonical s desc q2 data2 offset hex2 hnd2 hlen2 hc
  refine ⟨r, r2, hr, hr2, ?_⟩
  intro j2 j hj2 hj hname
  obtain ⟨p, _, hp, _, _, hs, hu⟩ := htab j hj
  obtain ⟨p2, _, hp2, _, _, hs2, hu2⟩ := htab2 j2 hj2
  have hpp : p2 = p := by
    rw [find_property_congr hname, hp] at hp2
    exact (Option.some.inj hp2).symm
  subst hpp
  -- the descriptor of this name is the same in both calls
  obtain ⟨j1, hj1, hn1, hcnt, hstr⟩ := hsub j2 hj2
  have hjj : j1 = j := by
    have hb1 : j1 < (q.names.map (List.take 8)).length := by simpa using hj1
    have hb : j < (q.names.map (List.take 8)).length := by simpa using hj
    have h1 : (q.names.map (List.take 8))[j1] = (q.names.map (List.take 8))[j] := by
      simp only [List.getElem_map]
      rw [← hn1, hname]
    exact (List.Nodup.getElem_inj_iff hnd).1 h1
  subst hjj
  -- capacities of the sub-query are among those of the query
  have hmc : max_capacity data2 ≤ max_capacity data := by
    apply max_capacity_le _ _ (max_capacity_nonneg data)
    intro d hd
    obtain ⟨k, hk, rfl⟩ := List.getElem_of_mem hd
    obtain ⟨k1, hk1, _, hcnt1, _⟩ := hsub k (by omega)
    have h1 : (data2.getD k default).count = data2[k].count := by
      rw [List.getD_eq_getElem?_getD, List.getElem?_eq_getElem hk]; rfl
    rw [← h1, hcnt1]
    exact count_le_max_capacity data k1 (by omega)
  have hcj := count_le_max_capacity data2 j2 (by omega)
  have h0 := max_capacity_nonneg data2
  have hsplit : r.objects = r2.objects + (r.objects - r2.objects) := by
    rw [hK, hK2]; omega
  rw [hlog, hlog2, hsplit]
  symm
  apply objects_events_value data data2 ri ri2 s.bytes desc.properties _ j1 j2 p2 hs hu hs2 hu2
    hcnt.symm hstr.symm
  intro x hx1 hx2
  omega

theorem read_data_subquery_witness :
    ∃ r r2, read_data ⟨[1, 2, 3, 4, 5, 6, 7, 8, 9], 0, false⟩
        ⟨3, [⟨[65], [], .MF_INT1, .MF_SINGLE, .MF_STATE0⟩,
             ⟨[66], [], .MF_INT2, .MF_SINGLE, .MF_STATE0⟩]⟩
        ⟨[[66], [65]]⟩ [⟨fun _ => 0, fun _ => 0, 2, 2⟩, ⟨fun _ => 0, fun _ => 0, 1, 7⟩]
        ((0 : Nat) : Int) = .ok r ∧
      read_data ⟨[1, 2, 3, 4, 5, 6, 7, 8, 9], 0, false⟩
        ⟨3, [⟨[65], [], .MF_INT1, .MF_SINGLE, .MF_STATE0⟩,
             ⟨[66], [], .MF_INT2, .MF_SINGLE, .MF_STATE0⟩]⟩
        ⟨[[66]]⟩ [⟨fun _ => 0, fun _ => 0, 2, 2⟩] ((0 : Nat) : Int) = .ok r2 ∧
      ∀ j2 j (hj2 : j2 < ([[66]] : List (List Nat)).length)
        (hj : j < ([[66], [65]] : List (List Nat)).length),
        ([[66]] : List (List Nat))[j2].take 8 = ([[66], [65]] : List (List Nat))[j].take 8 →
        (r2.log.filter (fun w => decide (w.req_idx = j2))).map dst_write.value =
          (r.log.filter (fun w => decide (w.req_idx = j))).map dst_write.value :=
  read_data_subquery ⟨[1, 2, 3, 4, 5, 6, 7, 8, 9], 0, false⟩
    ⟨3, [⟨[65], [], .MF_INT1, .MF_SINGLE, .MF_STATE0⟩,
         ⟨[66], [], .MF_INT2, .MF_SINGLE, .MF_STATE0⟩]⟩
    ⟨[[66], [65]]⟩ ⟨[[66]]⟩
    [⟨fun _ => 0, fun _ => 0, 2, 2⟩, ⟨fun _ => 0, fun _ => 0, 1, 7⟩]
    [⟨fun _ => 0, fun _ => 0, 2, 2⟩] 0
    (by decide) (by decide) (by decide) (by decide) (by decide)
    (fun j2 hj2 => ⟨0, by decide, by
      have h0 : j2 = 0 := by simpa using hj2
      subst h0
      exact ⟨rfl, rfl, rfl⟩⟩)
    (by decide)

/-! ## Integers in byte form -/

theorem bytes_of_nat_length : ∀ (k x : Nat), (bytes_of_nat k x).length = k := by
  intro k
  induction k with
  | zero => intro _; rfl
  | succ k ih => intro x; simp [bytes_of_nat, ih]

theorem le_nat_bytes_of_nat : ∀ (k x : Nat), le_nat (bytes_of_nat k x) = x % 256 ^ k := by
  intro k
  induction k with
  | zero => intro x; simp [bytes_of_nat, le_nat, Nat.mod_one]
  | succ k ih =>
    intro x
    simp only [bytes_of_nat, le_nat, ih, Nat.mod_mod]
    rw [pow_succ', Nat.mod_mul]

theorem bytes_of_int64_length (x : Int) : (bytes_of_int64 x).length = 8 :=
  bytes_of_nat_length 8 _

theorem bytes_of_int32_length (x : Int) : (bytes_of_int32 x).length = 4 :=
  bytes_of_nat_length 4 _

theorem int64_of_bytes_of_int64 (x : Int) (h0 : -9223372036854775808 ≤ x)
    (h1 : x < 9223372036854775808) : int64_of_bytes (bytes_of_int64 x) = x := by
  unfold int64_of_bytes bytes_of_int64
  rw [le_nat_bytes_of_nat]
  have : (256 : Nat) ^ 8 = 18446744073709551616 := by norm_num
  rw [this]
  unfold to_long
  omega

theorem int32_of_bytes_of_int32 (x : Int) (h0 : -2147483648 ≤ x) (h1 : x < 2147483648) :
    int32_of_bytes (bytes_of_int32 x) = x := by
  unfold int32_of_bytes bytes_of_int32
  rw [le_nat_bytes_of_nat]
  have : (256 : Nat) ^ 4 = 4294967296 := by norm_num
  rw [this]
  unfold wrap32
  omega

/-! ## Reading what lies ahead in the stream -/

theorem drop_length_le {l b rest : List Nat} {p : Nat} (h : l.drop p = b ++ rest)
    (hb : 0 < b.length) : p + b.length + rest.length = l.length := by
  have := congrArg List.length h
  rw [List.length_drop, List.length_append] at this
  omega

theorem fread_rest (s : FILE) (b rest : List Nat) (h : s.bytes.drop s.pos = b ++ rest) :
    fread s b.length = ({ s with pos := s.pos + b.length }, b) := by
  by_cases hb : b.length = 0
  · have : b = [] := List.length_eq_zero.1 hb
    subst this
    rfl
  · have hl := drop_length_le h (by omega)
    rw [fread_of_le s b.length (by omega), h, List.take_left]

theorem drop_rest (s : FILE) (b rest : List Nat) (h : s.bytes.drop s.pos = b ++ rest) :
    s.bytes.drop (s.pos + b.length) = rest := by
  rw [← List.drop_drop, h, List.drop_left]

theorem read_header_rest (s : FILE) (name sz rest : List Nat)
    (h : s.bytes.drop s.pos = name ++ (sz ++ rest)) (hn : name.length = 8)
    (hs : sz.length = 8) (he : s.eof = false) :
    read_header s = .ok (s.advance 16, ⟨name, int64_of_bytes sz⟩) := by
  have h2 : s.bytes.drop s.pos = (name ++ sz) ++ rest := by rw [h, List.append_assoc]
  have hl : (name ++ sz).length = 16 := by rw [List.length_append, hn, hs]
  have hf := fread_rest s (name ++ sz) rest h2
  rw [hl] at hf
  unfold read_header
  rw [hf]
  simp only [he, Bool.false_eq_true, if_false]
  rw [← hn, List.take_left, List.drop_left]
  simp only [FILE.advance, he]

/-! ## The schema decoder on a well-formed ARRAYS record -/

theorem slice_rest (buf a rest : List Nat) (off : Nat) (h : buf.drop off = a ++ rest)
    (ha : 0 < a.length) : slice buf off a.length = some a := by
  have hl := drop_length_le h ha
  unfold slice
  rw [if_pos (by omega), h, List.take_left]

theorem drop_add_rest (buf a rest : List Nat) (off : Nat) (h : buf.drop off = a ++ rest) :
    buf.drop (off + a.length) = rest := by
  rw [← List.drop_drop, h, List.drop_left]

theorem read_tag_word (t : List Nat) (ht : t ∈ tag_words) (p : mf_property) :
    t.length = 8 ∧ ∃ p2, read_tag t p = .set p2 := by
  simp only [tag_words, List.mem_cons, List.mem_singleton, List.not_mem_nil, or_false] at ht
  rcases ht with h | h | h | h | h | h | h | h | h | h | h <;> subst h <;>
    refine ⟨rfl, ?_⟩ <;>
    simp [read_tag, MN_INT1, MN_INT2, MN_INT4, MN_REAL4, MN_REAL8, MN_CHAR4, MN_CHAR8,
      MN_SINGLE, MN_DOUBLE, MN_STATE0, MN_STATE1, MN_ENDITEM]

theorem read_tag_enditem (p : mf_property) : read_tag MN_ENDITEM p = .enditem := by
  simp [read_tag, MN_INT1, MN_INT2, MN_INT4, MN_REAL4, MN_REAL8, MN_CHAR4, MN_CHAR8,
    MN_SINGLE, MN_DOUBLE, MN_STATE0, MN_STATE1, MN_ENDITEM]

theorem flatten_tags_length (ts : List (List Nat)) (h : ∀ t ∈ ts, t ∈ tag_words) :
    ts.flatten.length = 8 * ts.length := by
  induction ts with
  | nil => rfl
  | cons t ts ih =>
    have h1 := (read_tag_word t (h t (List.mem_cons_self _ _))
      ⟨[], [], .MF_REAL8, .MF_SINGLE, .MF_STATE0⟩).1
    have h2 := ih (fun x hx => h x (List.mem_cons_of_mem _ hx))
    simp only [List.flatten_cons, List.length_append, List.length_cons, h1, h2]
    omega

/-- The tag loop on the tag words of a well-formed descriptor. -/
theorem read_tags_spec (buf : List Nat) (off : Nat) : ∀ (ts : List (List Nat))
    (n tag_idx : Nat) (p : mf_property) (more : List Nat),
    (∀ t ∈ ts, t ∈ tag_words) → ts.length ≤ n →
    buf.drop (off + 16 + tag_idx * 8) = ts.flatten ++ (MN_ENDITEM ++ more) →
    read_tags buf off n tag_idx p = .ok (tags_property ts p, tag_idx + ts.length) := by
  intro ts
  induction ts with
  | nil =>
    intro n tag_idx p more _ _ hd
    cases n with
    | zero => rfl
    | succ n =>
      simp only [List.flatten_nil, List.nil_append] at hd
      have hs := slice_rest buf MN_ENDITEM more _ hd (by decide)
      have h8 : MN_ENDITEM.length = 8 := rfl
      rw [h8] at hs
      simp only [read_tags, hs, read_tag_enditem]
      rfl
  | cons t ts ih =>
    intro n tag_idx p more hv hl hd
    cases n with
    | zero => simp at hl
    | succ n =>
      obtain ⟨h8, p2, hp2⟩ := read_tag_word t (hv t (List.mem_cons_self _ _)) p
      simp only [List.flatten_cons, List.append_assoc] at hd
      have hs := slice_rest buf t _ _ hd (by omega)
      rw [h8] at hs
      have hd2 := drop_add_rest buf t _ _ hd
      rw [h8] at hd2
      have hd3 : buf.drop (off + 16 + (tag_idx + 1) * 8) = ts.flatten ++ (MN_ENDITEM ++ more) := by
        rw [← hd2]; congr 1; omega
      have := ih n (tag_idx + 1) p2 more (fun x hx => hv x (List.mem_cons_of_mem _ hx))
        (by simpa using hl) hd3
      simp only [read_tags, hs, hp2, this, tags_property, List.length_cons]
      congr 2
      omega

theorem descriptor_bytes_length (d : descriptor) (h : d.wf) :
    d.bytes.length = 16 + (d.tags.length + 1) * 8 := by
  obtain ⟨h1, h2, _, h4⟩ := h
  have h8 : MN_ENDITEM.length = 8 := rfl
  simp only [descriptor.bytes, List.length_append, h1, h2, flatten_tags_length d.tags h4, h8]
  omega

/-- The property loop on a well-formed property table. -/
theorem read_properties_spec (buf : List Nat) : ∀ (descs : List descriptor) (off : Nat)
    (more : List Nat), (∀ d ∈ descs, d.wf) →
    buf.drop off = (descs.map descriptor.bytes).flatten ++ more →
    read_properties buf descs.length off = .ok (descs.map descriptor.property) := by
  intro descs
  induction descs with
  | nil => intro _ _ _ _; rfl
  | cons d ds ih =>
    intro off more hwf hd
    have hdwf := hwf d (List.mem_cons_self _ _)
    obtain ⟨h1, h2, h3, h4⟩ := hdwf
    simp only [List.map_cons, List.flatten_cons, descriptor.bytes, List.append_assoc] at hd
    have hs1 := slice_rest buf d.name _ off hd (by omega)
    rw [h1] at hs1
    have hd1 := drop_add_rest buf d.name _ off hd
    rw [h1] at hd1
    have hs2 := slice_rest buf d.dimension _ (off + 8) hd1 (by omega)
    rw [h2] at hs2
    have hd2 := drop_add_rest buf d.dimension _ (off + 8) hd1
    rw [h2] at hd2
    have hd3 : buf.drop (off + 16 + 0 * 8) =
        d.tags.flatten ++ (MN_ENDITEM ++ ((ds.map descriptor.bytes).flatten ++ more)) := by
      rw [← hd2]
    have ht := read_tags_spec buf off d.tags 3 0
      ⟨d.name, d.dimension, .MF_REAL8, .MF_SINGLE, .MF_STATE0⟩ _ h4 h3 hd3
    have hnext : buf.drop (off + (16 + (0 + d.tags.length + 1) * 8)) =
        (ds.map descriptor.bytes).flatten ++ more := by
      have e1 := drop_add_rest buf _ _ _ hd3
      have e2 := drop_add_rest buf _ _ _ e1
      rw [flatten_tags_length d.tags h4] at e2
      have h8 : MN_ENDITEM.length = 8 := rfl
      rw [h8] at e2
      rw [← e2]; congr 1; omega
    have hrec := ih _ more (fun x hx => hwf x (List.mem_cons_of_mem _ hx)) hnext
    simp only [List.length_cons, read_properties, hs1, hs2, ht, hrec, List.map_cons]
    rfl

theorem advance_advance (s : FILE) (a b : Nat) : (s.advance a).advance b = s.advance (a + b) := by
  simp [FILE.advance, Nat.add_assoc]

theorem fread_rest_advance (s : FILE) (b rest : List Nat) (h : s.bytes.drop s.pos = b ++ rest)
    (he : s.eof = false) : fread s b.length = (s.advance b.length, b) := by
  rw [fread_rest s b rest h]
  simp [FILE.advance, he]

theorem fseek_cur_advance (s : FILE) (n : Nat) (off : Int) (ho : off = (n : Int))
    (h : s.pos + n ≤ s.bytes.length)
    (hmax : (s.bytes.length : Int) ≤ 9223372036854775807) : fseek_cur s off = s.advance n := by
  subst ho
  unfold fseek_cur FILE.advance
  rw [if_neg (by simp only [LONG_MAX]; omega)]
  have : ((s.pos : Int) + (n : Int)).toNat = s.pos + n := by omega
  rw [this]

theorem arrays_payload_drop8 (num_objects : Int) (descs : List descriptor) (pad : List Nat) :
    (arrays_payload num_objects descs pad).drop 8 =
      (descs.map descriptor.bytes).flatten ++ pad := by
  unfold arrays_payload
  rw [← List.append_assoc, List.drop_left' (by simp [bytes_of_int32_length])]

theorem arrays_payload_slices (num_objects : Int) (descs : List descriptor) (pad : List Nat) :
    slice (arrays_payload num_objects descs pad) 0 4 = some (bytes_of_int32 descs.length) ∧
    slice (arrays_payload num_objects descs pad) 4 4 = some (bytes_of_int32 num_objects) := by
  have h0 : (arrays_payload num_objects descs pad).drop 0 =
      bytes_of_int32 descs.length ++ (bytes_of_int32 num_objects ++
        ((descs.map descriptor.bytes).flatten ++ pad)) := rfl
  have s0 := slice_rest _ _ _ 0 h0 (by rw [bytes_of_int32_length]; omega)
  have h4 := drop_add_rest _ _ _ 0 h0
  have s4 := slice_rest _ _ _ _ h4 (by rw [bytes_of_int32_length]; omega)
  rw [bytes_of_int32_length] at s0 s4
  exact ⟨s0, s4⟩


theorem read_arrays_data_path (s s3 : FILE) (header : header_t) (num_objects : Int)
    (props : List mf_property)
    (h : read_header s = .ok (s3, header)) (hn : header.name = MN_DATA)
    (hsz : 0 ≤ header.size) :
    read_arrays_data s num_objects props =
      .ok (fseek_cur s3 (header.size + 16), ⟨num_objects, props⟩,
        some (ftell s3, header.size)) := by
  unfold read_arrays_data
  rw [h]
  dsimp only
  rw [if_neg (by rw [hn]; exact fun h => h rfl), if_neg (by omega)]

theorem read_arrays_table_path (s : FILE) (buf b0 b1 : List Nat) (props : List mf_property)
    (hs0 : slice buf 0 4 = some b0) (hs4 : slice buf 4 4 = some b1)
    (hc0 : 0 < int32_of_bytes b0) (hc1 : 0 ≤ int32_of_bytes b1)
    (hp : read_properties buf (int32_of_bytes b0).toNat 8 = .ok props) :
    read_arrays_table s buf = read_arrays_data s (int32_of_bytes b1) props := by
  unfold read_arrays_table
  rw [hs0, hs4]
  dsimp only
  rw [if_neg (by omega), if_neg (by omega), hp]

theorem read_arrays_table_empty (s : FILE) (buf b0 b1 : List Nat)
    (hs0 : slice buf 0 4 = some b0) (hs4 : slice buf 4 4 = some b1)
    (hc0 : int32_of_bytes b0 = 0) (hc1 : 0 ≤ int32_of_bytes b1) :
    read_arrays_table s buf = .ok (s, ⟨int32_of_bytes b1, []⟩, none) := by
  unfold read_arrays_table
  rw [hs0, hs4]
  dsimp only
  rw [if_neg (by omega), if_pos hc0]

theorem read_arrays_path {heap : Nat} (s s1 s2 : FILE) (header : header_t) (buf : List Nat)
    (h1 : read_header s = .ok (s1, header)) (hname : header.name = MN_ARRAYS)
    (hsize : 0 ≤ header.size) (hheap : header.size ≤ (heap : Int))
    (hf : fread s1 header.size.toNat = (s2, buf)) (he : s2.eof = false) :
    read_arrays heap s = read_arrays_table s2 buf := by
  unfold read_arrays
  rw [h1]
  dsimp only
  rw [if_neg (by rw [hname]; exact fun h => h rfl), if_neg (by omega), if_neg (by omega), hf]
  dsimp only
  rw [he, if_neg Bool.false_ne_true]

/-- `read_arrays` on a well-formed ARRAYS record with at least one property, followed
by its DATA record and trailer. -/
theorem read_arrays_block {heap : Nat} (s : FILE) (num_objects : Int) (descs : List descriptor)
    (pad data trailer rest : List Nat)
    (h : s.bytes.drop s.pos = MN_ARRAYS ++
      (bytes_of_int64 (arrays_payload num_objects descs pad).length ++
      (arrays_payload num_objects descs pad ++ (MN_DATA ++ (bytes_of_int64 data.length ++
      (data ++ (trailer ++ rest)))))))
    (he : s.eof = false) (hmax : (s.bytes.length : Int) ≤ LONG_MAX)
    (hheap : s.bytes.length ≤ heap)
    (hn0 : 0 ≤ num_objects) (hn1 : num_objects < 2147483648)
    (hd0 : 0 < descs.length) (hd1 : descs.length < 2147483648)
    (hwf : ∀ d ∈ descs, d.wf) (ht : trailer.length = 16) :
    read_arrays heap s = .ok
      (s.advance (16 + ((arrays_payload num_objects descs pad).length +
          (16 + (data.length + 16)))),
        ⟨num_objects, descs.map descriptor.property⟩,
        some (((s.pos + (32 + (arrays_payload num_objects descs pad).length) : Nat) : Int),
          (data.length : Int))) := by
  generalize hP : arrays_payload num_objects descs pad = P at *
  have hlen := congrArg List.length h
  simp only [List.length_drop, List.length_append, bytes_of_int64_length, ht] at hlen
  have hA : MN_ARRAYS.length = 8 := rfl
  have hD : MN_DATA.length = 8 := rfl
  rw [hA, hD] at hlen
  simp only [LONG_MAX] at hmax
  -- the ARRAYS header
  have hh1 := read_header_rest s MN_ARRAYS _ _ h rfl (bytes_of_int64_length _) he
  rw [int64_of_bytes_of_int64 _ (by omega) (by omega)] at hh1
  have hr1 : (s.advance 16).bytes.drop (s.advance 16).pos =
      P ++ (MN_DATA ++ (bytes_of_int64 data.length ++ (data ++ (trailer ++ rest)))) := by
    have e1 := drop_rest s _ _ h
    have e2 := drop_add_rest s.bytes _ _ _ e1
    rw [hA, bytes_of_int64_length] at e2
    simp only [FILE.advance]
    rw [← e2]
  -- the payload
  have hf := fread_rest_advance (s.advance 16) P _ hr1 rfl
  rw [advance_advance] at hf
  have hr2 : (s.advance (16 + P.length)).bytes.drop (s.advance (16 + P.length)).pos =
      MN_DATA ++ (bytes_of_int64 data.length ++ (data ++ (trailer ++ rest))) := by
    have e := drop_rest (s.advance 16) _ _ hr1
    simp only [FILE.advance] at e ⊢
    rw [← e]; congr 1; omega
  obtain ⟨hs0, hs4⟩ := arrays_payload_slices num_objects descs pad
  rw [hP] at hs0 hs4
  have hb0 : int32_of_bytes (bytes_of_int32 (descs.length : Int)) = (descs.length : Int) :=
    int32_of_bytes_of_int32 _ (by omega) (by omega)
  have hb1 : int32_of_bytes (bytes_of_int32 num_objects) = num_objects :=
    int32_of_bytes_of_int32 _ (by omega) (by omega)
  have hprops := read_properties_spec P descs 8 pad hwf
    (by rw [← hP]; exact arrays_payload_drop8 num_objects descs pad)
  -- the DATA header
  have hh2 := read_header_rest (s.advance (16 + P.length)) MN_DATA _ _ hr2 rfl
    (bytes_of_int64_length _) rfl
  rw [int64_of_bytes_of_int64 _ (by omega) (by omega), advance_advance] at hh2
  have hseek : fseek_cur (s.advance (16 + P.length + 16)) ((data.length : Int) + 16) =
      s.advance (16 + (P.length + (16 + (data.length + 16)))) := by
    have := fseek_cur_advance (s.advance (16 + P.length + 16)) (data.length + 16)
      ((data.length : Int) + 16) (by omega)
      (by simp only [FILE.advance]; omega) (by simp only [FILE.advance]; omega)
    rw [advance_advance] at this
    rw [this, show 16 + P.length + 16 + (data.length + 16) =
      16 + (P.length + (16 + (data.length + 16))) by omega]
  have hft : ftell (s.advance (16 + P.length + 16)) = ((s.pos + (32 + P.length) : Nat) : Int) := by
    clear hb0 hb1
    simp only [ftell, FILE.advance]; omega
  have hc0 : 0 < int32_of_bytes (bytes_of_int32 (descs.length : Int)) := by
    rw [hb0]; exact Int.natCast_pos.mpr hd0
  have hc1 : 0 ≤ int32_of_bytes (bytes_of_int32 num_objects) := by rw [hb1]; exact hn0
  have hp2 : read_properties P (int32_of_bytes (bytes_of_int32 (descs.length : Int))).toNat 8 =
      .ok (descs.map descriptor.property) := by
    rw [hb0, Int.toNat_ofNat]
    exact hprops
  have hPh : ((P.length : Nat) : Int) ≤ (heap : Int) := Int.ofNat_le.mpr (by omega)
  have hpath := read_arrays_path s _ _ _ P hh1 rfl (Int.natCast_nonneg _) hPh (by
    simp only [Int.toNat_ofNat]; exact hf) rfl
  rw [hpath, read_arrays_table_path _ P _ _ _ hs0 hs4 hc0 hc1 hp2, hb1,
    read_arrays_data_path _ _ _ _ _ hh2 rfl (Int.natCast_nonneg _), hseek, hft]

theorem read_arrays_empty_block {heap : Nat} (s : FILE) (num_objects : Int) (pad rest : List Nat)
    (h : s.bytes.drop s.pos = MN_ARRAYS ++
      (bytes_of_int64 (arrays_payload num_objects [] pad).length ++
      (arrays_payload num_objects [] pad ++ rest)))
    (he : s.eof = false) (hmax : (s.bytes.length : Int) ≤ LONG_MAX)
    (hheap : s.bytes.length ≤ heap)
    (hn0 : 0 ≤ num_objects) (hn1 : num_objects < 2147483648) :
    read_arrays heap s = .ok
      (s.advance (16 + (arrays_payload num_objects [] pad).length), ⟨num_objects, []⟩, none) := by
  have hs := arrays_payload_slices num_objects [] pad
  generalize hP : arrays_payload num_objects [] pad = P at *
  obtain ⟨hs0, hs4⟩ := hs
  have hlen := congrArg List.length h
  simp only [List.length_drop, List.length_append, bytes_of_int64_length] at hlen
  have hA : MN_ARRAYS.length = 8 := rfl
  rw [hA] at hlen
  simp only [LONG_MAX] at hmax
  have hh1 := read_header_rest s MN_ARRAYS _ _ h rfl (bytes_of_int64_length _) he
  rw [int64_of_bytes_of_int64 _ (by omega) (by omega)] at hh1
  have hr1 : (s.advance 16).bytes.drop (s.advance 16).pos = P ++ rest := by
    have e1 := drop_rest s _ _ h
    have e2 := drop_add_rest s.bytes _ _ _ e1
    rw [hA, bytes_of_int64_length] at e2
    simp only [FILE.advance]
    rw [← e2]
  have hf := fread_rest_advance (s.advance 16) P _ hr1 rfl
  rw [advance_advance] at hf
  have hb0 : int32_of_bytes (bytes_of_int32 (([] : List descriptor).length : Int)) = 0 :=
    int32_of_bytes_of_int32 _ (by simp) (by simp)
  have hb1 : int32_of_bytes (bytes_of_int32 num_objects) = num_objects :=
    int32_of_bytes_of_int32 _ (by omega) (by omega)
  have hc1 : 0 ≤ int32_of_bytes (bytes_of_int32 num_objects) := by rw [hb1]; exact hn0
  have hPh : ((P.length : Nat) : Int) ≤ (heap : Int) := Int.ofNat_le.mpr (by omega)
  have hpath := read_arrays_path s _ _ _ P hh1 rfl (Int.natCast_nonneg _) hPh (by
    simp only [Int.toNat_ofNat]; exact hf) rfl
  rw [hpath, read_arrays_table_empty _ P _ _ hs0 hs4 hb0 hc1, hb1]

theorem open_loop_step {heap : Nat} (fuel : Nat) (f f2 : mf_sum_file) (s1 : FILE)
    (header : header_t)
    (he : f.stream.eof = false) (hh : read_header f.stream = .ok (s1, header))
    (hr : open_record heap f s1 header = .ok (f2, false)) :
    open_loop heap (fuel + 1) f = open_loop heap fuel f2 := by
  rw [open_loop, he, if_neg Bool.false_ne_true, hh]
  dsimp only
  rw [hr]

theorem open_loop_end {heap : Nat} (fuel : Nat) (f f2 : mf_sum_file) (s1 : FILE) (header : header_t)
    (he : f.stream.eof = false) (hh : read_header f.stream = .ok (s1, header))
    (hr : open_record heap f s1 header = .ok (f2, true)) :
    open_loop heap (fuel + 1) f = some (.ok f2) := by
  rw [open_loop, he, if_neg Bool.false_ne_true, hh]
  dsimp only
  rw [hr]

theorem open_loop_record_error {heap : Nat} (fuel : Nat) (f : mf_sum_file) (s1 : FILE)
    (header : header_t)
    (e : Fault) (he : f.stream.eof = false) (hh : read_header f.stream = .ok (s1, header))
    (hr : open_record heap f s1 header = .error e) :
    open_loop heap (fuel + 1) f = some (.error e) := by
  rw [open_loop, he, if_neg Bool.false_ne_true, hh]
  dsimp only
  rw [hr]

theorem open_record_time {heap : Nat} (f : mf_sum_file) (s1 s2 : FILE) (header : header_t)
    (t : mf_time)
    (hn : header.name = MN_TIME) (hr : read_time s1 = .ok (s2, t)) :
    open_record heap f s1 header = .ok ({ f with
        stream := s2
        description := { f.description with time := some t } }, false) := by
  unfold open_record
  rw [if_pos hn, hr]

theorem open_record_date {heap : Nat} (f : mf_sum_file) (s1 s2 : FILE) (header : header_t)
    (d : mf_date)
    (hn : header.name = MN_DATE) (hr : read_date s1 = .ok (s2, d)) :
    open_record heap f s1 header = .ok ({ f with
        stream := s2
        description := { f.description with date := some d } }, false) := by
  unfold open_record
  rw [if_neg (by rw [hn]; decide), if_pos hn, hr]

theorem block_of_mnemonic_kind (k : block_kind) : block_of_mnemonic k.mnemonic = some k := by
  cases k <;> decide

theorem kind_ne_time (k : block_kind) : k.mnemonic ≠ MN_TIME := by
  cases k <;> decide

theorem kind_ne_date (k : block_kind) : k.mnemonic ≠ MN_DATE := by
  cases k <;> decide

theorem open_record_block {heap : Nat} (f : mf_sum_file) (s1 s2 : FILE) (header : header_t)
    (k : block_kind)
    (a : mf_arrays) (loc : Option (Int × Int))
    (hn : header.name = k.mnemonic) (hr : read_arrays heap s1 = .ok (s2, a, loc)) :
    open_record heap f s1 header = .ok (f.store_block k s2 a loc, false) := by
  unfold open_record
  rw [if_neg (by rw [hn]; exact kind_ne_time k), if_neg (by rw [hn]; exact kind_ne_date k), hn,
    block_of_mnemonic_kind]
  dsimp only
  rw [hr]

theorem open_record_endfile {heap : Nat} (f : mf_sum_file) (s1 : FILE) (header : header_t)
    (hn : header.name = MN_ENDFILE) :
    open_record heap f s1 header = .ok ({ f with stream := s1 }, true) := by
  unfold open_record
  rw [if_neg (by rw [hn]; decide), if_neg (by rw [hn]; decide), hn,
    show block_of_mnemonic MN_ENDFILE = none by decide]
  dsimp only
  rw [if_pos rfl]

theorem open_record_other {heap : Nat} (f : mf_sum_file) (s1 : FILE) (header : header_t)
    (h1 : header.name ≠ MN_TIME) (h2 : header.name ≠ MN_DATE)
    (h3 : block_of_mnemonic header.name = none) (h4 : header.name ≠ MN_ENDFILE) :
    open_record heap f s1 header = .ok ({ f with stream := fseek_cur s1 header.size }, false) := by
  unfold open_record
  rw [if_neg h1, if_neg h2, h3]
  dsimp only
  rw [if_neg h4]

theorem advance_rest (s : FILE) (a b rest : List Nat) (n : Nat)
    (h : s.bytes.drop s.pos = a ++ (b ++ rest)) (hn : a.length + b.length = n) :
    (s.advance n).bytes.drop (s.advance n).pos = rest := by
  subst hn
  have h2 : s.bytes.drop s.pos = (a ++ b) ++ rest := by rw [h, List.append_assoc]
  have := drop_rest s (a ++ b) rest h2
  rw [List.length_append] at this
  exact this

theorem read_time_rest (s : FILE) (value dimension rest : List Nat)
    (h : s.bytes.drop s.pos = value ++ (dimension ++ rest)) (hv : value.length = 8)
    (hd : dimension.length = 8) (he : s.eof = false) :
    read_time s = .ok (s.advance 16, ⟨value, dimension⟩) := by
  have h2 : s.bytes.drop s.pos = (value ++ dimension) ++ rest := by rw [h, List.append_assoc]
  have hl : (value ++ dimension).length = 16 := by rw [List.length_append, hv, hd]
  have hf := fread_rest s (value ++ dimension) rest h2
  rw [hl] at hf
  have e1 : (value ++ dimension).take 8 = value := by rw [← hv, List.take_left]
  have e2 : ((value ++ dimension).drop 8).take 8 = dimension := by
    rw [← hv, List.drop_left, List.take_of_length_le (by omega)]
  unfold read_time
  rw [hf]
  simp only [he, Bool.false_eq_true, if_false, e1, e2]
  simp only [FILE.advance, he]

theorem read_date_rest (s : FILE) (day month year rest : List Nat)
    (h : s.bytes.drop s.pos = day ++ (month ++ (year ++ rest))) (h1 : day.length = 4)
    (h2 : month.length = 8) (h3 : year.length = 4) (he : s.eof = false) :
    read_date s = .ok (s.advance 16, ⟨int32_of_bytes day, month, int32_of_bytes year⟩) := by
  have h4 : s.bytes.drop s.pos = (day ++ (month ++ year)) ++ rest := by
    rw [h]; simp only [List.append_assoc]
  have hl : (day ++ (month ++ year)).length = 16 := by
    simp only [List.length_append, h1, h2, h3]
  have hf := fread_rest s (day ++ (month ++ year)) rest h4
  rw [hl] at hf
  have e1 : (day ++ (month ++ year)).take 4 = day := by rw [← h1, List.take_left]
  have e2 : ((day ++ (month ++ year)).drop 4).take 8 = month := by
    rw [← h1, List.drop_left, ← h2, List.take_left]
  have e3 : ((day ++ (month ++ year)).drop 12).take 4 = year := by
    have : day ++ (month ++ year) = (day ++ month) ++ year := by rw [List.append_assoc]
    rw [this, show 12 = (day ++ month).length by rw [List.length_append, h1, h2],
      List.drop_left, List.take_of_length_le (by omega)]
  unfold read_date
  rw [hf]
  simp only [he, Bool.false_eq_true, if_false, e1, e2, e3]
  simp only [FILE.advance, he]

theorem kind_length (k : block_kind) : k.mnemonic.length = 8 := by
  cases k <;> rfl

theorem store_block_stream (f : mf_sum_file) (k : block_kind) (s : FILE) (a : mf_arrays)
    (loc : Option (Int × Int)) : (f.store_block k s a loc).stream = s := by
  cases k <;> rfl

/-- The stream of the file after a record: the record has been passed. -/
theorem apply_stream (f : mf_sum_file) (r : record) :
    (r.apply f).stream = f.stream.advance r.bytes.length := by
  cases r <;> simp only [record.apply, store_block_stream]

/-- One iteration of the record loop on a well-formed record. -/
theorem open_loop_record {heap : Nat} (fuel : Nat) (f : mf_sum_file) (r : record) (rest : List Nat)
    (hwf : r.wf) (h : f.stream.bytes.drop f.stream.pos = r.bytes ++ rest)
    (he : f.stream.eof = false) (hmax : (f.stream.bytes.length : Int) ≤ LONG_MAX)
    (hheap : f.stream.bytes.length ≤ heap) :
    open_loop heap (fuel + 1) f = open_loop heap fuel (r.apply f) := by
  cases r with
  | time sz value dimension =>
    obtain ⟨hsz, hv, hd⟩ := hwf
    simp only [record.bytes, List.append_assoc] at h
    have hh := read_header_rest f.stream MN_TIME sz _ h rfl hsz he
    have hr1 := advance_rest f.stream MN_TIME sz _ 16 h (by rw [hsz]; rfl)
    have ht := read_time_rest (f.stream.advance 16) value dimension rest hr1 hv hd rfl
    rw [open_loop_step fuel f _ _ _ he hh (open_record_time f _ _ _ _ rfl ht)]
    simp only [record.apply, record.bytes, List.length_append, hsz, hv, hd, advance_advance]
    rfl
  | date sz day month year =>
    obtain ⟨hsz, h1, h2, h3⟩ := hwf
    simp only [record.bytes, List.append_assoc] at h
    have hh := read_header_rest f.stream MN_DATE sz _ h rfl hsz he
    have hr1 := advance_rest f.stream MN_DATE sz _ 16 h (by rw [hsz]; rfl)
    have ht := read_date_rest (f.stream.advance 16) day month year rest hr1 h1 h2 h3 rfl
    rw [open_loop_step fuel f _ _ _ he hh (open_record_date f _ _ _ _ rfl ht)]
    simp only [record.apply, record.bytes, List.length_append, hsz, h1, h2, h3, advance_advance]
    rfl
  | block k sz num_objects descs pad data trailer =>
    obtain ⟨hsz, hn0, hn1, hd0, hd1, hdw, htr⟩ := hwf
    simp only [record.bytes, List.append_assoc] at h
    have hh := read_header_rest f.stream k.mnemonic sz _ h (kind_length k) hsz he
    have hr1 := advance_rest f.stream k.mnemonic sz _ 16 h (by rw [hsz, kind_length])
    have hra := read_arrays_block (f.stream.advance 16) num_objects descs pad data trailer rest
      hr1 rfl hmax hheap hn0 hn1 hd0 hd1 hdw htr
    rw [open_loop_step fuel f _ _ _ he hh (open_record_block f _ _ _ k _ _ rfl hra)]
    simp only [record.apply, record.bytes, List.length_append, hsz, htr, kind_length,
      bytes_of_int64_length, advance_advance]
    have e1 : 16 + (16 + ((arrays_payload num_objects descs pad).length +
        (16 + (data.length + 16)))) = 8 + (8 + (MN_ARRAYS.length + (8 +
        ((arrays_payload num_objects descs pad).length + (MN_DATA.length + (8 +
        (data.length + 16))))))) := by
      rw [show MN_ARRAYS.length = 8 from rfl, show MN_DATA.length = 8 from rfl]; omega
    have e2 : (f.stream.advance 16).pos + (32 + (arrays_payload num_objects descs pad).length) =
        f.stream.pos + (48 + (arrays_payload num_objects descs pad).length) := by
      simp only [FILE.advance]; omega
    rw [e1, e2]
  | empty_block k sz num_objects pad =>
    obtain ⟨hsz, hn0, hn1⟩ := hwf
    simp only [record.bytes, List.append_assoc] at h
    have hh := read_header_rest f.stream k.mnemonic sz _ h (kind_length k) hsz he
    have hr1 := advance_rest f.stream k.mnemonic sz _ 16 h (by rw [hsz, kind_length])
    have hra := read_arrays_empty_block (f.stream.advance 16) num_objects pad rest
      hr1 rfl hmax hheap hn0 hn1
    rw [open_loop_step fuel f _ _ _ he hh (open_record_block f _ _ _ k _ _ rfl hra)]
    simp only [record.apply, record.bytes, List.length_append, hsz, kind_length,
      bytes_of_int64_length, advance_advance]
    have e1 : 16 + (16 + (arrays_payload num_objects [] pad).length) = 8 + (8 +
        (MN_ARRAYS.length + (8 + (arrays_payload num_objects [] pad).length))) := by
      rw [show MN_ARRAYS.length = 8 from rfl]; omega
    rw [e1]
  | other name payload =>
    obtain ⟨hn, h1, h2, h3, h4⟩ := hwf
    simp only [record.bytes, List.append_assoc] at h
    have hlen := congrArg List.length h
    simp only [List.length_drop, List.length_append, bytes_of_int64_length, hn] at hlen
    simp only [LONG_MAX] at hmax
    have hh := read_header_rest f.stream name _ _ h hn (bytes_of_int64_length _) he
    rw [int64_of_bytes_of_int64 _ (by omega) (by omega)] at hh
    have hsk := fseek_cur_advance (f.stream.advance 16) payload.length (payload.length : Int) rfl
      (by simp only [FILE.advance]; omega) (by simp only [FILE.advance]; omega)
    rw [open_loop_step fuel f _ _ _ he hh (open_record_other f _ _ h1 h2 h3 h4)]
    simp only [record.apply, record.bytes, List.length_append, hn, bytes_of_int64_length]
    rw [hsk, advance_advance, show 16 + payload.length = 8 + (8 + payload.length) by omega]

theorem open_loop_records {heap : Nat} : ∀ (records : List record) (f : mf_sum_file) (fuel : Nat)
    (tail : List Nat), (∀ r ∈ records, r.wf) →
    f.stream.bytes.drop f.stream.pos = (records.map record.bytes).flatten ++ tail →
    f.stream.eof = false → (f.stream.bytes.length : Int) ≤ LONG_MAX →
    f.stream.bytes.length ≤ heap →
    open_loop heap (fuel + records.length) f = open_loop heap fuel (apply_records f records) ∧
    (apply_records f records).stream =
      f.stream.advance ((records.map record.bytes).flatten).length := by
  intro records
  induction records with
  | nil =>
    intro f fuel tail _ _ he _ _
    refine ⟨rfl, ?_⟩
    simp only [apply_records, List.foldl_nil, List.map_nil, List.flatten_nil, List.length_nil,
      FILE.advance, Nat.add_zero, ← he]
  | cons r rs ih =>
    intro f fuel tail hwf h he hmax hheap
    simp only [List.map_cons, List.flatten_cons, List.append_assoc] at h
    have hstep := open_loop_record (fuel + rs.length) f r _ (hwf r (List.mem_cons_self _ _)) h he
      hmax hheap
    have hs := apply_stream f r
    have hr : (r.apply f).stream.bytes.drop (r.apply f).stream.pos =
        (rs.map record.bytes).flatten ++ tail := by
      rw [hs]
      exact drop_rest f.stream _ _ h
    obtain ⟨h1, h2⟩ := ih (r.apply f) fuel tail
      (fun r2 hr2 => hwf r2 (List.mem_cons_of_mem _ hr2)) hr (by rw [hs]; rfl)
      (by rw [hs]; exact hmax) (by rw [hs]; exact hheap)
    refine ⟨?_, ?_⟩
    · rw [List.length_cons, ← Nat.add_assoc, hstep, h1]
      rfl
    · simp only [apply_records, List.foldl_cons] at h2 ⊢
      rw [h2, hs, advance_advance]
      simp only [List.map_cons, List.flatten_cons, List.length_append]

theorem open_loop_endfile {heap : Nat} (fuel : Nat) (f : mf_sum_file) (sz rest : List Nat)
    (h : f.stream.bytes.drop f.stream.pos = MN_ENDFILE ++ (sz ++ rest)) (hsz : sz.length = 8)
    (he : f.stream.eof = false) :
    open_loop heap (fuel + 1) f = some (.ok { f with stream := f.stream.advance 16 }) := by
  have hh := read_header_rest f.stream MN_ENDFILE sz _ h rfl hsz he
  exact open_loop_end fuel f _ _ _ he hh (open_record_endfile f _ _ rfl)

theorem read_file_format_binary (bytes rest : List Nat)
    (h : bytes = MN_BINARY ++ (bytes_of_int64 0 ++ rest)) :
    read_file_format ⟨bytes, 0, false⟩ = .ok (⟨bytes, 16, false⟩, .MF_BINARY) := by
  have hh := read_header_rest ⟨bytes, 0, false⟩ MN_BINARY (bytes_of_int64 0) rest
    (by simp only [List.drop_zero]; exact h) rfl rfl rfl
  unfold read_file_format
  rw [hh]
  rfl

theorem apply_records_snoc (f : mf_sum_file) (rs : List record) (r : record) :
    apply_records f (rs ++ [r]) = r.apply (apply_records f rs) := by
  simp only [apply_records, List.foldl_append, List.foldl_cons, List.foldl_nil]

theorem store_block_description (f : mf_sum_file) (k k2 : block_kind) (s : FILE) (a : mf_arrays)
    (loc : Option (Int × Int)) :
    (f.store_block k s a loc).description.time = f.description.time ∧
    (f.store_block k s a loc).description.date = f.description.date ∧
    (f.store_block k s a loc).description.block k2 =
      if k = k2 then some a else f.description.block k2 := by
  cases k <;> cases k2 <;> exact ⟨rfl, rfl, rfl⟩

theorem apply_description (f : mf_sum_file) (r : record) (k : block_kind) :
    (r.apply f).description.time = r.time_of.or f.description.time ∧
    (r.apply f).description.date = r.date_of.or f.description.date ∧
    (r.apply f).description.block k = (r.block_of k).or (f.description.block k) := by
  cases r with
  | time sz value dimension => exact ⟨rfl, rfl, by cases k <;> rfl⟩
  | date sz day month year => exact ⟨rfl, rfl, by cases k <;> rfl⟩
  | block k2 sz num_objects descs pad data trailer =>
    obtain ⟨h1, h2, h3⟩ := store_block_description f k2 k
      (f.stream.advance (record.block k2 sz num_objects descs pad data trailer).bytes.length)
      ⟨num_objects, descs.map descriptor.property⟩
      (some (((f.stream.pos + (48 + (arrays_payload num_objects descs pad).length) : Nat) : Int),
        (data.length : Int)))
    refine ⟨h1, h2, ?_⟩
    simp only [record.apply, record.block_of]
    rw [h3]
    by_cases hk : k2 = k <;> simp [hk]
  | empty_block k2 sz num_objects pad =>
    obtain ⟨h1, h2, h3⟩ := store_block_description f k2 k
      (f.stream.advance (record.empty_block k2 sz num_objects pad).bytes.length)
      ⟨num_objects, []⟩ none
    refine ⟨h1, h2, ?_⟩
    simp only [record.apply, record.block_of]
    rw [h3]
    by_cases hk : k2 = k <;> simp [hk]
  | other name payload => exact ⟨rfl, rfl, by cases k <;> rfl⟩

theorem filterMap_getLast_snoc {α β : Type} (g : α → Option β) (rs : List α) (r : α)
    (d : Option β) :
    (((rs ++ [r]).filterMap g).getLast?).or d = (g r).or (((rs.filterMap g).getLast?).or d) := by
  rw [List.filterMap_append, List.getLast?_append]
  have h1 : [r].filterMap g = (g r).toList := by
    cases h : g r <;> simp [List.filterMap, h]
  rw [h1]
  cases g r <;> simp

theorem apply_records_description (f : mf_sum_file) (k : block_kind) :
    ∀ records : List record,
    (apply_records f records).description.time =
      ((records.filterMap record.time_of).getLast?).or f.description.time ∧
    (apply_records f records).description.date =
      ((records.filterMap record.date_of).getLast?).or f.description.date ∧
    (apply_records f records).description.block k =
      ((records.filterMap (record.block_of k)).getLast?).or (f.description.block k) := by
  intro records
  induction records using List.reverseRecOn with
  | nil => exact ⟨rfl, rfl, rfl⟩
  | append_singleton rs r ih =>
    obtain ⟨i1, i2, i3⟩ := ih
    obtain ⟨a1, a2, a3⟩ := apply_description (apply_records f rs) r k
    rw [apply_records_snoc, a1, a2, a3, i1, i2, i3]
    simp only [filterMap_getLast_snoc]
    exact ⟨trivial, trivial, trivial⟩


/-! ## Inversion of the scanner functions, and what they leave of the stream -/

theorem fread_length (s : FILE) (n : Nat) : (fread s n).2.length ≤ n := by
  unfold fread
  split
  · simp
  · dsimp only
    split <;> simp [List.length_take, Nat.min_le_left]

theorem fread_short (s : FILE) (n : Nat) (hn : 0 < n) (h : s.bytes.length < s.pos + n) :
    (fread s n).1.eof = true := by
  unfold fread
  rw [if_neg (by omega)]
  dsimp only
  have hm := Nat.min_le_right n (s.bytes.length - s.pos)
  rw [if_neg (by simp only [List.length_take, List.length_drop]; intro heq; omega)]

theorem fread_pos (s : FILE) (n : Nat) : (fread s n).1.pos = s.pos + (fread s n).2.length := by
  unfold fread
  split
  · simp
  · dsimp only
    split
    · rename_i h; simp [h]
    · rfl

theorem fread_full (s : FILE) (n : Nat) (h : (fread s n).1.eof = false) :
    s.eof = false ∧ (fread s n).1 = ⟨s.bytes, s.pos + n, false⟩ ∧
      (fread s n).2 = (s.bytes.drop s.pos).take n ∧ (n = 0 ∨ s.pos + n ≤ s.bytes.length) := by
  unfold fread at h ⊢
  split
  · rename_i h0
    subst h0
    rw [if_pos rfl] at h
    simp only at h
    refine ⟨h, ?_, by simp, Or.inl rfl⟩
    cases s
    simp only at h
    simp [h]
  · rename_i h0
    rw [if_neg h0] at h
    dsimp only at h ⊢
    split
    · rename_i h1
      rw [if_pos h1] at h
      simp only at h
      refine ⟨h, ?_, rfl, Or.inr ?_⟩
      · cases s
        simp only at h
        simp [h]
      · simp only [List.length_take, List.length_drop] at h1
        omega
    · rename_i h1
      rw [if_neg h1] at h
      simp at h

theorem read_header_short (s : FILE) (h : s.bytes.length < s.pos + 16) :
    read_header s = .error (.status .MF_ERROR_INVALID_FILE) := by
  unfold read_header
  rw [if_pos (fread_short s 16 (by decide) h)]

theorem read_header_inv (s s1 : FILE) (header : header_t) (h : read_header s = .ok (s1, header)) :
    s.eof = false ∧ s1 = ⟨s.bytes, s.pos + 16, false⟩ ∧ s.pos + 16 ≤ s.bytes.length ∧
      header.name = (s.bytes.drop s.pos).take 8 ∧
      header.size = int64_of_bytes ((s.bytes.drop (s.pos + 8)).take 8) := by
  unfold read_header at h
  split at h
  · cases h
  · rename_i he
    simp only [Bool.not_eq_true] at he
    obtain ⟨h1, h2, h3, h4⟩ := fread_full s 16 he
    simp only [Except.ok.injEq, Prod.mk.injEq] at h
    obtain ⟨ha, hb⟩ := h
    subst hb
    refine ⟨h1, by rw [← ha, h2], by omega, ?_, ?_⟩
    · simp only [h3, List.take_take]
      rfl
    · simp only [h3]
      congr 1
      rw [← List.drop_drop, List.drop_take]

theorem read_arrays_data_inv (s s2 : FILE) (n : Int) (props : List mf_property)
    (arr : mf_arrays) (loc : Option (Int × Int))
    (h : read_arrays_data s n props = .ok (s2, arr, loc)) :
    ∃ s3 header, read_header s = .ok (s3, header) ∧ header.name = MN_DATA ∧ 0 ≤ header.size ∧
      s2 = fseek_cur s3 (header.size + 16) ∧ arr = ⟨n, props⟩ ∧
      loc = some (ftell s3, header.size) := by
  unfold read_arrays_data at h
  split at h
  · cases h
  · rename_i s3 header hh
    split at h
    · cases h
    · rename_i hn
      split at h
      · cases h
      · rename_i hs
        simp only [Except.ok.injEq, Prod.mk.injEq] at h
        obtain ⟨h1, h2, h3⟩ := h
        exact ⟨s3, header, hh, not_not.mp hn, by omega, h1.symm, h2.symm, h3.symm⟩

theorem read_properties_length (buf : List Nat) : ∀ (n off : Nat) (props : List mf_property),
    read_properties buf n off = .ok props → props.length = n := by
  intro n
  induction n with
  | zero =>
    intro off props h
    simp only [read_properties, Except.ok.injEq] at h
    rw [← h]; rfl
  | succ k ih =>
    intro off props h
    rw [read_properties] at h
    split at h
    · split at h
      · cases h
      · split at h
        · cases h
        · rename_i props2 hp
          simp only [Except.ok.injEq] at h
          rw [← h, List.length_cons, ih _ _ hp]
    · cases h

theorem read_arrays_table_inv (s s2 : FILE) (buf : List Nat) (arr : mf_arrays)
    (loc : Option (Int × Int)) (h : read_arrays_table s buf = .ok (s2, arr, loc)) :
    (arr.properties = [] ∧ loc = none ∧ s2 = s) ∨
    (arr.properties ≠ [] ∧ read_arrays_data s arr.num_objects arr.properties =
      .ok (s2, arr, loc)) := by
  unfold read_arrays_table at h
  split at h
  · rename_i b0 b1 h0 h1
    split at h
    · cases h
    · split at h
      · simp only [Except.ok.injEq, Prod.mk.injEq] at h
        obtain ⟨h2, h3, h4⟩ := h
        left
        exact ⟨by rw [← h3], h4.symm, h2.symm⟩
      · rename_i hneg hz
        split at h
        · cases h
        · rename_i props hp
          right
          obtain ⟨s3, header, _, _, _, _, ha, _⟩ := read_arrays_data_inv _ _ _ _ _ _ h
          have hl := read_properties_length _ _ _ _ hp
          have hpos : 0 < (int32_of_bytes b0).toNat := by
            generalize int32_of_bytes b0 = x at hneg hz
            generalize int32_of_bytes b1 = y at hneg
            omega
          subst ha
          refine ⟨?_, h⟩
          intro hnil
          simp only at hnil
          rw [hnil] at hl
          simp only [List.length_nil] at hl
          omega
  · cases h

theorem read_arrays_inv {heap : Nat} (s s2 : FILE) (arr : mf_arrays) (loc : Option (Int × Int))
    (h : read_arrays heap s = .ok (s2, arr, loc)) :
    ∃ s1 header, read_header s = .ok (s1, header) ∧ header.name = MN_ARRAYS ∧
      0 ≤ header.size ∧ (fread s1 header.size.toNat).1.eof = false ∧
      read_arrays_table (fread s1 header.size.toNat).1 (fread s1 header.size.toNat).2 =
        .ok (s2, arr, loc) := by
  unfold read_arrays at h
  split at h
  · cases h
  · rename_i s1 header hh
    split at h
    · cases h
    · rename_i hn
      split at h
      · cases h
      · rename_i hs
        split at h
        · cases h
        · split at h
          · cases h
          · rename_i he
            exact ⟨s1, header, hh, not_not.mp hn, by omega, by simpa using he, h⟩

theorem fread_consistent (s : FILE) (n : Nat) (h : s.consistent) : (fread s n).1.consistent := by
  unfold FILE.consistent at h ⊢
  unfold fread
  split
  · exact h
  · dsimp only
    split
    · intro he
      have := h he
      show s.bytes.length ≤ s.pos + n
      omega
    · rename_i h1
      intro _
      show s.bytes.length ≤ s.pos + ((s.bytes.drop s.pos).take n).length
      simp only [List.length_take, List.length_drop] at h1 ⊢
      rcases Nat.le_total n (s.bytes.length - s.pos) with hle | hle
      · rw [Nat.min_eq_left hle] at h1
        exact absurd rfl h1
      · rw [Nat.min_eq_right hle]
        omega

theorem fseek_cur_consistent (s : FILE) (off : Int) (h : s.consistent) :
    (fseek_cur s off).consistent := by
  unfold fseek_cur
  split
  · exact h
  · intro he
    simp at he

theorem read_header_full (s : FILE) (he : s.eof = false) (h : s.pos + 16 ≤ s.bytes.length) :
    read_header s = .ok (⟨s.bytes, s.pos + 16, false⟩,
      ⟨(s.bytes.drop s.pos).take 8, int64_of_bytes ((s.bytes.drop (s.pos + 8)).take 8)⟩) := by
  have h1 : s.bytes.drop s.pos = (s.bytes.drop s.pos).take 8 ++
      (((s.bytes.drop (s.pos + 8)).take 8) ++ s.bytes.drop (s.pos + 16)) := by
    have c1 : s.bytes.drop (s.pos + 8) = (s.bytes.drop s.pos).drop 8 := by
      rw [List.drop_drop, Nat.add_comm]
    have c2 : s.bytes.drop (s.pos + 16) = ((s.bytes.drop s.pos).drop 8).drop 8 := by
      rw [List.drop_drop, List.drop_drop]
    rw [c1, c2, List.take_append_drop, List.take_append_drop]
  have := read_header_rest s _ _ _ h1
    (by simp only [List.length_take, List.length_drop]; omega)
    (by simp only [List.length_take, List.length_drop]; omega) he
  rw [this]
  rfl
theorem read_tag_fields (t : List Nat) (ht : t ∈ tag_words) (p : mf_property) :
    ∃ p2, read_tag t p = .set p2 ∧ p2.name = p.name ∧ p2.dimension = p.dimension ∧
      p2.data_type = (tag_data_type t).getD p.data_type ∧
      p2.output_mode = (tag_output_mode t).getD p.output_mode ∧
      p2.phase_state = (tag_phase_state t).getD p.phase_state := by
  simp only [tag_words, List.mem_cons, List.mem_singleton, List.not_mem_nil, or_false] at ht
  rcases ht with h | h | h | h | h | h | h | h | h | h | h <;> subst h <;>
    exact ⟨_, rfl, rfl, rfl, rfl, rfl, rfl⟩

theorem tags_property_snoc : ∀ (ts : List (List Nat)) (t : List Nat) (p : mf_property),
    (∀ x ∈ ts, x ∈ tag_words) →
    tags_property (ts ++ [t]) p =
      match read_tag t (tags_property ts p) with
      | .set p2 => p2
      | _ => tags_property ts p := by
  intro ts
  induction ts with
  | nil =>
    intro t p _
    cases h : read_tag t p <;> simp [tags_property, h]
  | cons x xs ih =>
    intro t p h
    obtain ⟨p2, hp2, _⟩ := read_tag_fields x (h x (List.mem_cons_self _ _)) p
    simp only [List.cons_append, tags_property, hp2]
    exact ih t p2 (fun y hy => h y (List.mem_cons_of_mem _ hy))

/-- The fields of the property after the tag words: for each category the last tag
of the category decides, and a category without a tag keeps what it had. -/
theorem tags_property_fields (p : mf_property) : ∀ ts : List (List Nat),
    (∀ x ∈ ts, x ∈ tag_words) →
    (tags_property ts p).name = p.name ∧ (tags_property ts p).dimension = p.dimension ∧
    (tags_property ts p).data_type = (ts.reverse.findSome? tag_data_type).getD p.data_type ∧
    (tags_property ts p).output_mode =
      (ts.reverse.findSome? tag_output_mode).getD p.output_mode ∧
    (tags_property ts p).phase_state =
      (ts.reverse.findSome? tag_phase_state).getD p.phase_state := by
  intro ts
  induction ts using List.reverseRecOn with
  | nil => intro _; exact ⟨rfl, rfl, rfl, rfl, rfl⟩
  | append_singleton xs t ih =>
    intro h
    have hx : ∀ x ∈ xs, x ∈ tag_words := fun x hx => h x (List.mem_append_left _ hx)
    obtain ⟨i1, i2, i3, i4, i5⟩ := ih hx
    obtain ⟨p2, hp2, f1, f2, f3, f4, f5⟩ := read_tag_fields t
      (h t (List.mem_append_right _ (List.mem_singleton_self _))) (tags_property xs p)
    rw [tags_property_snoc xs t p hx, hp2]
    simp only [List.reverse_append, List.reverse_singleton, List.singleton_append,
      List.findSome?_cons]
    refine ⟨by rw [f1, i1], by rw [f2, i2], ?_, ?_, ?_⟩
    · rw [f3, i3]; cases tag_data_type t <;> rfl
    · rw [f4, i4]; cases tag_output_mode t <;> rfl
    · rw [f5, i5]; cases tag_phase_state t <;> rfl

theorem read_tag_unknown (u : List Nat) (p : mf_property) (h1 : u ∉ tag_words)
    (h2 : u ≠ MN_ENDITEM) : read_tag u p = .unknown := by
  simp only [tag_words, List.mem_cons, List.mem_singleton, List.not_mem_nil, or_false,
    not_or] at h1
  obtain ⟨a1, a2, a3, a4, a5, a6, a7, a8, a9, a10, a11⟩ := h1
  unfold read_tag
  rw [if_neg a1, if_neg a2, if_neg a3, if_neg a4, if_neg a5, if_neg a6, if_neg a7, if_neg a8,
    if_neg a9, if_neg a10, if_neg a11, if_neg h2]

/-- The tag loop on valid tag words followed by a word that is neither in the
vocabulary nor the terminator. -/
theorem read_tags_unknown (buf : List Nat) (off : Nat) (u : List Nat) (hu8 : u.length = 8)
    (h1 : u ∉ tag_words) (h2 : u ≠ MN_ENDITEM) : ∀ (ts : List (List Nat))
    (n tag_idx : Nat) (p : mf_property) (more : List Nat),
    (∀ t ∈ ts, t ∈ tag_words) → ts.length < n →
    buf.drop (off + 16 + tag_idx * 8) = ts.flatten ++ (u ++ more) →
    read_tags buf off n tag_idx p = .error (.status .MF_ERROR_INVALID_FILE) := by
  intro ts
  induction ts with
  | nil =>
    intro n tag_idx p more _ hl hd
    cases n with
    | zero => simp at hl
    | succ n =>
      simp only [List.flatten_nil, List.nil_append] at hd
      have hs := slice_rest buf u more _ hd (by omega)
      rw [hu8] at hs
      simp only [read_tags, hs, read_tag_unknown u p h1 h2]
  | cons t ts ih =>
    intro n tag_idx p more hv hl hd
    cases n with
    | zero => simp at hl
    | succ n =>
      obtain ⟨h8, p2, hp2⟩ := read_tag_word t (hv t (List.mem_cons_self _ _)) p
      simp only [List.flatten_cons, List.append_assoc] at hd
      have hs := slice_rest buf t _ _ hd (by omega)
      rw [h8] at hs
      have hd2 := drop_add_rest buf t _ _ hd
      rw [h8] at hd2
      have hd3 : buf.drop (off + 16 + (tag_idx + 1) * 8) = ts.flatten ++ (u ++ more) := by
        rw [← hd2]; congr 1; omega
      have := ih n (tag_idx + 1) p2 more (fun x hx => hv x (List.mem_cons_of_mem _ hx))
        (by simpa using hl) hd3
      simp only [read_tags, hs, hp2, this]

/-- The property loop on well-formed descriptors followed by a descriptor with an
unknown tag word. -/
theorem read_properties_unknown (buf : List Nat) (name dimension u more : List Nat)
    (ts : List (List Nat)) (hn : name.length = 8) (hdim : dimension.length = 8)
    (hts : ∀ t ∈ ts, t ∈ tag_words) (hl : ts.length < 3) (hu8 : u.length = 8)
    (h1 : u ∉ tag_words) (h2 : u ≠ MN_ENDITEM) : ∀ (descs : List descriptor) (n off : Nat),
    (∀ d ∈ descs, d.wf) → descs.length < n →
    buf.drop off = (descs.map descriptor.bytes).flatten ++
      (name ++ (dimension ++ (ts.flatten ++ (u ++ more)))) →
    read_properties buf n off = .error (.status .MF_ERROR_INVALID_FILE) := by
  intro descs
  induction descs with
  | nil =>
    intro n off _ hlen hd
    cases n with
    | zero => simp at hlen
    | succ n =>
      simp only [List.map_nil, List.flatten_nil, List.nil_append] at hd
      have hs1 := slice_rest buf name _ off hd (by omega)
      rw [hn] at hs1
      have hd1 := drop_add_rest buf name _ off hd
      rw [hn] at hd1
      have hs2 := slice_rest buf dimension _ (off + 8) hd1 (by omega)
      rw [hdim] at hs2
      have hd2 := drop_add_rest buf dimension _ (off + 8) hd1
      rw [hdim] at hd2
      have hd3 : buf.drop (off + 16 + 0 * 8) = ts.flatten ++ (u ++ more) := by
        rw [← hd2]
      have ht := read_tags_unknown buf off u hu8 h1 h2 ts 3 0
        ⟨name, dimension, .MF_REAL8, .MF_SINGLE, .MF_STATE0⟩ more hts hl hd3
      simp only [read_properties, hs1, hs2, ht]
  | cons d ds ih =>
    intro n off hwf hlen hd
    cases n with
    | zero => simp at hlen
    | succ n =>
      have hdwf := hwf d (List.mem_cons_self _ _)
      obtain ⟨e1, e2, e3, e4⟩ := hdwf
      simp only [List.map_cons, List.flatten_cons, descriptor.bytes, List.append_assoc] at hd
      have hs1 := slice_rest buf d.name _ off hd (by omega)
      rw [e1] at hs1
      have hd1 := drop_add_rest buf d.name _ off hd
      rw [e1] at hd1
      have hs2 := slice_rest buf d.dimension _ (off + 8) hd1 (by omega)
      rw [e2] at hs2
      have hd2 := drop_add_rest buf d.dimension _ (off + 8) hd1
      rw [e2] at hd2
      have hd3 : buf.drop (off + 16 + 0 * 8) =
          d.tags.flatten ++ (MN_ENDITEM ++ ((ds.map descriptor.bytes).flatten ++
            (name ++ (dimension ++ (ts.flatten ++ (u ++ more)))))) := by
        rw [← hd2]
      have ht := read_tags_spec buf off d.tags 3 0
        ⟨d.name, d.dimension, .MF_REAL8, .MF_SINGLE, .MF_STATE0⟩ _ e4 e3 hd3
      have hnext : buf.drop (off + (16 + (0 + d.tags.length + 1) * 8)) =
          (ds.map descriptor.bytes).flatten ++
            (name ++ (dimension ++ (ts.flatten ++ (u ++ more)))) := by
        have f1 := drop_add_rest buf _ _ _ hd3
        have f2 := drop_add_rest buf _ _ _ f1
        rw [flatten_tags_length d.tags e4] at f2
        have h8 : MN_ENDITEM.length = 8 := rfl
        rw [h8] at f2
        rw [← f2]; congr 1; omega
      have hrec := ih n _ (fun x hx => hwf x (List.mem_cons_of_mem _ hx))
        (by simpa using hlen) hnext
      simp only [read_properties, hs1, hs2, ht, hrec]

theorem read_arrays_table_error (s : FILE) (buf b0 b1 : List Nat) (e : Fault)
    (hs0 : slice buf 0 4 = some b0) (hs4 : slice buf 4 4 = some b1)
    (hc0 : 0 < int32_of_bytes b0) (hc1 : 0 ≤ int32_of_bytes b1)
    (hp : read_properties buf (int32_of_bytes b0).toNat 8 = .error e) :
    read_arrays_table s buf = .error e := by
  unfold read_arrays_table
  rw [hs0, hs4]
  dsimp only
  rw [if_neg (by omega), if_neg (by omega), hp]
/-- The ARRAYS header and the read of the payload, whatever the payload holds. -/
theorem read_arrays_payload {heap : Nat} (s : FILE) (P rest : List Nat)
    (h : s.bytes.drop s.pos = MN_ARRAYS ++ (bytes_of_int64 P.length ++ (P ++ rest)))
    (he : s.eof = false) (hmax : (s.bytes.length : Int) ≤ LONG_MAX)
    (hheap : P.length ≤ heap) :
    read_arrays heap s = read_arrays_table (s.advance (16 + P.length)) P := by
  have hlen := congrArg List.length h
  simp only [List.length_drop, List.length_append, bytes_of_int64_length] at hlen
  have hA : MN_ARRAYS.length = 8 := rfl
  rw [hA] at hlen
  simp only [LONG_MAX] at hmax
  have hh1 := read_header_rest s MN_ARRAYS _ _ h rfl (bytes_of_int64_length _) he
  rw [int64_of_bytes_of_int64 _ (by omega) (by omega)] at hh1
  have hr1 := advance_rest s MN_ARRAYS _ _ 16 h (by rw [bytes_of_int64_length]; rfl)
  have hf := fread_rest_advance (s.advance 16) P _ hr1 rfl
  rw [advance_advance] at hf
  exact read_arrays_path s _ _ _ P hh1 rfl (Int.natCast_nonneg _)
    (Int.ofNat_le.mpr hheap) (by simp only [Int.toNat_ofNat]; exact hf) rfl

theorem payload_slices (c n : Int) (more : List Nat) :
    slice (bytes_of_int32 c ++ (bytes_of_int32 n ++ more)) 0 4 = some (bytes_of_int32 c) ∧
    slice (bytes_of_int32 c ++ (bytes_of_int32 n ++ more)) 4 4 = some (bytes_of_int32 n) := by
  have h0 : (bytes_of_int32 c ++ (bytes_of_int32 n ++ more)).drop 0 =
      bytes_of_int32 c ++ (bytes_of_int32 n ++ more) := rfl
  have s0 := slice_rest _ _ _ 0 h0 (by rw [bytes_of_int32_length]; omega)
  have h4 := drop_add_rest _ _ _ 0 h0
  have s4 := slice_rest _ _ _ _ h4 (by rw [bytes_of_int32_length]; omega)
  rw [bytes_of_int32_length] at s0 s4
  exact ⟨s0, s4⟩

theorem payload_drop8 (c n : Int) (more : List Nat) :
    (bytes_of_int32 c ++ (bytes_of_int32 n ++ more)).drop 8 = more := by
  rw [← List.append_assoc, List.drop_left' (by simp [bytes_of_int32_length])]

/-- The schema decoder on a well-formed ARRAYS record with a property table, up to
the DATA header. -/
theorem read_arrays_to_data {heap : Nat} (s : FILE) (num_objects : Int) (descs : List descriptor)
    (pad rest : List Nat)
    (h : s.bytes.drop s.pos = MN_ARRAYS ++
      (bytes_of_int64 (arrays_payload num_objects descs pad).length ++
      (arrays_payload num_objects descs pad ++ rest)))
    (he : s.eof = false) (hmax : (s.bytes.length : Int) ≤ LONG_MAX)
    (hheap : (arrays_payload num_objects descs pad).length ≤ heap)
    (hn0 : 0 ≤ num_objects) (hn1 : num_objects < 2147483648)
    (hd0 : 0 < descs.length) (hd1 : descs.length < 2147483648)
    (hwf : ∀ d ∈ descs, d.wf) :
    read_arrays heap s =
      read_arrays_data (s.advance (16 + (arrays_payload num_objects descs pad).length))
        num_objects (descs.map descriptor.property) := by
  rw [read_arrays_payload s _ rest h he hmax hheap]
  obtain ⟨hs0, hs4⟩ := arrays_payload_slices num_objects descs pad
  have hprops := read_properties_spec (arrays_payload num_objects descs pad) descs 8 pad hwf
    (arrays_payload_drop8 num_objects descs pad)
  have hb0 : int32_of_bytes (bytes_of_int32 (descs.length : Int)) = (descs.length : Int) :=
    int32_of_bytes_of_int32 _ (by omega) (by omega)
  have hb1 : int32_of_bytes (bytes_of_int32 num_objects) = num_objects :=
    int32_of_bytes_of_int32 _ (by omega) (by omega)
  have hc0 : 0 < int32_of_bytes (bytes_of_int32 (descs.length : Int)) := by
    rw [hb0]; exact Int.natCast_pos.mpr hd0
  have hc1 : 0 ≤ int32_of_bytes (bytes_of_int32 num_objects) := by rw [hb1]; exact hn0
  have hp2 : read_properties (arrays_payload num_objects descs pad)
      (int32_of_bytes (bytes_of_int32 (descs.length : Int))).toNat 8 =
      .ok (descs.map descriptor.property) := by
    rw [hb0, Int.toNat_ofNat]
    exact hprops
  rw [read_arrays_table_path _ _ _ _ _ hs0 hs4 hc0 hc1 hp2, hb1]

theorem read_arrays_data_assert (s s3 : FILE) (header : header_t) (num_objects : Int)
    (props : List mf_property)
    (h : read_header s = .ok (s3, header)) (hn : header.name ≠ MN_DATA) :
    read_arrays_data s num_objects props = .error .assert_failed := by
  unfold read_arrays_data
  rw [h]
  dsimp only
  rw [if_pos hn]

theorem read_arrays_assert {heap : Nat} (s s1 : FILE) (header : header_t)
    (h : read_header s = .ok (s1, header)) (hn : header.name ≠ MN_ARRAYS) :
    read_arrays heap s = .error .assert_failed := by
  unfold read_arrays
  rw [h]
  dsimp only
  rw [if_pos hn]
theorem fread_int32_rest (s : FILE) (b rest : List Nat) (h : s.bytes.drop s.pos = b ++ rest)
    (hb : b.length = 4) (he : s.eof = false) :
    fread_int32 s 0 = (s.advance 4, int32_of_bytes b) := by
  have hf := fread_rest_advance s b rest h he
  rw [hb] at hf
  unfold fread_int32
  rw [hf]
  simp only [hb]
  congr 2
  rw [show (bytes_of_int32 0).drop 4 = [] from rfl, List.append_nil]

theorem open_mvs_points_path (s : FILE) (desc : mf_mvs_description)
    (n3 payload n4 z4 rest : List Nat)
    (h : s.bytes.drop s.pos = n3 ++ (bytes_of_int64 payload.length ++
      (payload ++ (n4 ++ (z4 ++ rest)))))
    (h3 : n3.length = 8) (h4 : n4.length = 8) (hz4 : z4.length = 8) (he : s.eof = false)
    (hmax : (s.bytes.length : Int) ≤ LONG_MAX) :
    open_mvs_points s desc =
      if n3 ≠ MN_POINTS then .error (.status .MF_ERROR_INVALID_FILE)
      else if n4 ≠ MN_CELLS then .error (.status .MF_ERROR_INVALID_FILE)
      else .ok ⟨.MF_BINARY, s.advance (16 + payload.length + 16), s.pos + 16,
        s.pos + 16 + payload.length + 16, desc⟩ := by
  have hlen := congrArg List.length h
  simp only [List.length_drop, List.length_append, bytes_of_int64_length, h3, h4, hz4] at hlen
  simp only [LONG_MAX] at hmax
  have hh := read_header_rest s n3 _ _ h h3 (bytes_of_int64_length _) he
  rw [int64_of_bytes_of_int64 _ (by omega) (by omega)] at hh
  have hr1 := advance_rest s n3 _ _ 16 h (by rw [h3, bytes_of_int64_length])
  have hsk := fseek_cur_advance (s.advance 16) payload.length (payload.length : Int) rfl
    (by simp only [FILE.advance]; omega) (by simp only [FILE.advance]; omega)
  rw [advance_advance] at hsk
  have hr2 : (s.advance (16 + payload.length)).bytes.drop (s.advance (16 + payload.length)).pos =
      n4 ++ (z4 ++ rest) := by
    have := drop_rest (s.advance 16) payload _ hr1
    simp only [FILE.advance] at this ⊢
    rw [← this, Nat.add_assoc]
  have hh2 := read_header_rest _ n4 z4 rest hr2 h4 hz4 rfl
  rw [advance_advance] at hh2
  unfold open_mvs_points
  rw [hh]
  dsimp only
  by_cases c3 : n3 = MN_POINTS
  · rw [if_neg (not_not.mpr c3), if_neg (not_not.mpr c3), hsk, hh2]
    dsimp only
    by_cases c4 : n4 = MN_CELLS
    · rw [if_neg (not_not.mpr c4), if_neg (not_not.mpr c4)]
      have t1 : to_size_t (ftell (s.advance 16)) = s.pos + 16 := by
        simp only [to_size_t, ftell, FILE.advance]; omega
      have t2 : to_size_t (ftell (s.advance (16 + payload.length + 16))) =
          s.pos + 16 + payload.length + 16 := by
        simp only [to_size_t, ftell, FILE.advance]; omega
      rw [t1, t2]
    · rw [if_pos c4, if_pos c4]
  · rw [if_pos c3, if_pos c3]

theorem open_mvs_counts_path (s : FILE) (nv nc rest : List Nat)
    (h : s.bytes.drop s.pos = nv ++ (nc ++ rest)) (hv : nv.length = 4) (hc : nc.length = 4)
    (he : s.eof = false) :
    open_mvs_counts s =
      if int32_of_bytes nv < 0 ∨ int32_of_bytes nc < 0 then .error .assert_failed
      else open_mvs_points (s.advance 8) ⟨int32_of_bytes nv, int32_of_bytes nc⟩ := by
  have f1 := fread_int32_rest s nv _ h hv he
  have hr : (s.advance 4).bytes.drop (s.advance 4).pos = nc ++ rest := by
    have := drop_rest s nv _ h
    rw [hv] at this
    exact this
  have f2 := fread_int32_rest (s.advance 4) nc rest hr hc rfl
  rw [advance_advance] at f2
  unfold open_mvs_counts
  rw [f1]
  dsimp only
  rw [f2]
  dsimp only
  by_cases c1 : int32_of_bytes nv < 0
  · rw [if_pos c1, if_pos (Or.inl c1)]
  · rw [if_neg c1]
    by_cases c2 : int32_of_bytes nc < 0
    · rw [if_pos c2, if_pos (Or.inr c2)]
    · rw [if_neg c2, if_neg (not_or.mpr ⟨c1, c2⟩)]

theorem open_mvs_grid_path (s : FILE) (n1 z1 n2 z2 rest : List Nat)
    (h : s.bytes.drop s.pos = n1 ++ (z1 ++ (n2 ++ (z2 ++ rest))))
    (h1 : n1.length = 8) (hz1 : z1.length = 8) (h2 : n2.length = 8) (hz2 : z2.length = 8)
    (he : s.eof = false) :
    open_mvs_grid s =
      if n1 ≠ MN_GRIDDATA then .error (.status .MF_ERROR_INVALID_FILE)
      else if n2 ≠ MN_GRIDSIZE then .error (.status .MF_ERROR_INVALID_FILE)
      else open_mvs_counts (s.advance 32) := by
  have hh := read_header_rest s n1 z1 _ h h1 hz1 he
  have hr1 := advance_rest s n1 z1 _ 16 h (by rw [h1, hz1])
  have hh2 := read_header_rest (s.advance 16) n2 z2 rest hr1 h2 hz2 rfl
  rw [advance_advance] at hh2
  unfold open_mvs_grid
  rw [hh]
  dsimp only
  by_cases c1 : n1 = MN_GRIDDATA
  · rw [if_neg (not_not.mpr c1), if_neg (not_not.mpr c1), hh2]
  · rw [if_pos c1, if_pos c1]

/-- The allocator has no buffer of the declared ARRAYS length: `assert(buf)` fails. -/
theorem read_arrays_no_buffer {heap : Nat} (s s1 : FILE) (header : header_t)
    (h : read_header s = .ok (s1, header)) (hn : header.name = MN_ARRAYS)
    (hheap : (heap : Int) < header.size) :
    read_arrays heap s = .error .assert_failed := by
  unfold read_arrays
  rw [h]
  dsimp only
  rw [if_neg (by rw [hn]; exact fun h => h rfl)]
  by_cases h0 : header.size < 0
  · rw [if_pos h0]
  · rw [if_neg h0, if_pos hheap]

theorem append_length_drop {l a rest : List Nat} {p : Nat} (h : l.drop p = a ++ rest)
    (hp : p ≤ l.length) : l.length = p + a.length + rest.length := by
  have := congrArg List.length h
  rw [List.length_drop, List.length_append] at this
  omega

theorem bytes_to_read_eq (p : mf_property) (ph : Int) (hph : ph = -1 ∨ (1 ≤ ph ∧ ph ≤ 127))
    (hw : bytes_to_skip p ph < 9223372036854775808) :
    (p.phase_state = .MF_STATE1 → 1 ≤ ph) ∧
    bytes_to_read p ph =
      elem_size p.data_type * (if p.phase_state = .MF_STATE1 then ph.toNat else 1) := by
  obtain ⟨nm, dm, dt, om, ps⟩ := p
  have hz : (ph = -1 ∧ to_size_t ph = 18446744073709551615) ∨
      (1 ≤ ph ∧ to_size_t ph = ph.toNat ∧ ph.toNat ≤ 127) := by
    unfold to_size_t; omega
  unfold bytes_to_skip bytes_to_read at *
  generalize to_size_t ph = z at *
  generalize ph.toNat = y at *
  cases dt <;> cases om <;> cases ps <;>
    simp only [elem_size, reduceCtorEq, if_true, if_false, Nat.reduceMul, Nat.reduceMod,
      and_true, one_mul, mul_one, false_implies, true_implies, forall_const] at hw ⊢ <;> omega

theorem mem_after_frame : ∀ (log : List dst_write) (mem : Nat → Nat) (req half a : Nat),
    (∀ w ∈ log, w.req_idx = req → w.half = half → ¬ (w.pos ≤ a ∧ a < w.pos + w.bytes.length)) →
    mem_after mem req half log a = mem a := by
  intro log
  induction log with
  | nil => intro _ _ _ _ _; rfl
  | cons w ws ih =>
    intro mem req half a h
    rw [mem_after, ih _ req half a (fun x hx => h x (List.mem_cons_of_mem _ hx))]
    split
    · rename_i hc
      have := h w (List.mem_cons_self _ _) hc.1 hc.2
      unfold store
      rw [if_neg this]
    · rfl


theorem read_property_writes (data : List mf_data) (phst_idx : Int) (obj_idx prop_idx : Nat)
    (p : mf_property) (req_idx : Int) (s : FILE) (phst : Int)
    (hph : phst = -1 ∨ (1 ≤ phst ∧ phst ≤ 127)) :
    ((read_property data phst_idx obj_idx prop_idx p req_idx s phst).2.1 = -1 ∨
      (1 ≤ (read_property data phst_idx obj_idx prop_idx p req_idx s phst).2.1 ∧
        (read_property data phst_idx obj_idx prop_idx p req_idx s phst).2.1 ≤ 127)) ∧
    ∀ w ∈ (read_property data phst_idx obj_idx prop_idx p req_idx s phst).2.2,
      write_ok data obj_idx prop_idx p req_idx w := by
  unfold read_property
  dsimp only
  have hsp : (if (prop_idx : Int) = phst_idx then peek_phst s phst else (s, phst)).2 = -1 ∨
      (1 ≤ (if (prop_idx : Int) = phst_idx then peek_phst s phst else (s, phst)).2 ∧
        (if (prop_idx : Int) = phst_idx then peek_phst s phst else (s, phst)).2 ≤ 127) := by
    split
    · exact Or.inr (peek_phst_range s phst hph)
    · exact hph
  generalize (if (prop_idx : Int) = phst_idx then peek_phst s phst else (s, phst)) = sp at hsp
  split
  · exact ⟨hsp, fun w hw => by simp at hw⟩
  · rename_i hreq
    have h0 : 0 ≤ req_idx := by omega
    have h1 : (obj_idx : Int) < (data.getD req_idx.toNat default).count := by omega
    split
    · rename_i hd
      refine ⟨hsp, ?_⟩
      intro w hw
      simp only [List.mem_cons, List.mem_singleton, List.not_mem_nil, or_false] at hw
      rcases hw with rfl | rfl
      · exact ⟨h0, rfl, h1, rfl, rfl, rfl, Nat.zero_le 1, fun h => absurd h Nat.zero_ne_one,
          sp.2, hsp, fread_length _ _⟩
      · exact ⟨h0, rfl, h1, rfl, rfl, rfl, Nat.le_refl 1, fun _ => hd, sp.2, hsp,
          fread_length _ _⟩
    · refine ⟨hsp, ?_⟩
      intro w hw
      simp only [List.mem_singleton] at hw
      subst hw
      exact ⟨h0, rfl, h1, rfl, rfl, rfl, Nat.zero_le 1, fun h => absurd h Nat.zero_ne_one,
        sp.2, hsp, fread_length _ _⟩

theorem read_props_writes (data : List mf_data) (req_indices : List Int) (phst_idx : Int)
    (obj_idx : Nat) : ∀ (props : List mf_property) (prop_idx : Nat) (s : FILE) (phst : Int),
    (phst = -1 ∨ (1 ≤ phst ∧ phst ≤ 127)) →
    ∀ w ∈ (read_props data req_indices phst_idx obj_idx props prop_idx s phst).2.2,
      prop_idx ≤ w.prop_idx ∧ ∃ p, props[w.prop_idx - prop_idx]? = some p ∧
        write_ok data obj_idx w.prop_idx p (req_indices.getD w.prop_idx (-1)) w := by
  intro props
  induction props with
  | nil => intro _ _ _ _ w hw; simp [read_props] at hw
  | cons p ps ih =>
    intro prop_idx s phst hph w hw
    simp only [read_props, List.mem_append] at hw
    obtain ⟨hph2, hws⟩ := read_property_writes data phst_idx obj_idx prop_idx p
      (req_indices.getD prop_idx (-1)) s phst hph
    rcases hw with hw | hw
    · have hok := hws w hw
      have hpi : w.prop_idx = prop_idx := hok.2.2.2.2.1
      refine ⟨by omega, p, by rw [hpi, Nat.sub_self]; simp, ?_⟩
      rw [hpi]
      exact hok
    · obtain ⟨hle, q, hq, hok⟩ := ih (prop_idx + 1) _ _ hph2 w hw
      refine ⟨by omega, q, ?_, hok⟩
      rw [show w.prop_idx - prop_idx = (w.prop_idx - (prop_idx + 1)) + 1 by omega,
        List.getElem?_cons_succ]
      exact hq

theorem read_objects_writes (desc : mf_arrays) (data : List mf_data) (req_indices : List Int)
    (phst_idx : Int) : ∀ (n obj_idx : Nat) (s : FILE),
    ∀ w ∈ (read_objects desc data req_indices phst_idx n obj_idx s).2,
      obj_idx ≤ w.obj_idx ∧ w.obj_idx < obj_idx + n ∧
      ∃ p, desc.properties[w.prop_idx]? = some p ∧
        write_ok data w.obj_idx w.prop_idx p (req_indices.getD w.prop_idx (-1)) w := by
  intro n
  induction n with
  | zero => intro _ _ w hw; simp [read_objects] at hw
  | succ n ih =>
    intro obj_idx s w hw
    simp only [read_objects, List.mem_append] at hw
    rcases hw with hw | hw
    · obtain ⟨_, p, hp, hok⟩ := read_props_writes data req_indices phst_idx obj_idx
        desc.properties 0 s (-1) (Or.inl rfl) w hw
      have ho : w.obj_idx = obj_idx := hok.2.2.2.1
      refine ⟨by omega, by omega, p, by simpa using hp, ?_⟩
      rw [ho]
      exact hok
    · obtain ⟨h1, h2, h3⟩ := ih (obj_idx + 1) _ w hw
      exact ⟨by omega, by omega, h3⟩

theorem resolve_requests_range (props : List mf_property) (data : List mf_data) :
    ∀ (names : List (List Nat)) (req0 : Nat) (ri0 : List Int) (mc0 : Int) (ri : List Int)
      (mc : Int), resolve_requests props data names req0 ri0 mc0 = .ok (ri, mc) →
    ∀ p, ri.getD p (-1) = ri0.getD p (-1) ∨
      ((req0 : Int) ≤ ri.getD p (-1) ∧ ri.getD p (-1) < ((req0 + names.length : Nat) : Int)) := by
  intro names
  induction names with
  | nil =>
    intro req0 ri0 mc0 ri mc h p
    simp only [resolve_requests, Except.ok.injEq, Prod.mk.injEq] at h
    rw [h.1]
    exact Or.inl rfl
  | cons name rest ih =>
    intro req0 ri0 mc0 ri mc h p
    rw [resolve_requests] at h
    split at h
    · cases h
    · rename_i prop_idx _
      rcases ih _ _ _ _ _ h p with h1 | h1
      · by_cases hp : p = prop_idx ∧ p < ri0.length
        · right
          rw [h1, List.getD_eq_getElem?_getD, hp.1, List.getElem?_set_self (by omega)]
          simp only [Option.getD_some, List.length_cons]
          push_cast
          omega
        · left
          rw [h1, List.getD_eq_getElem?_getD, List.getD_eq_getElem?_getD]
          by_cases hpe : p = prop_idx
          · have : ¬ p < ri0.length := fun hlt => hp ⟨hpe, hlt⟩
            rw [List.getElem?_eq_none (by rw [List.length_set]; omega),
              List.getElem?_eq_none (by omega)]
          · rw [List.getElem?_set_ne (fun h => hpe h.symm)]
      · right
        simp only [List.length_cons]
        push_cast at h1 ⊢
        omega


theorem filter_other_filterMap {β : Type} (g : record → Option β)
    (hg : ∀ r, r.is_other = true → g r = none) (records : List record) :
    (records.filter (fun r => !r.is_other)).filterMap g = records.filterMap g := by
  induction records with
  | nil => rfl
  | cons r rs ih =>
    by_cases h : r.is_other = true
    · simp only [List.filter_cons, h, Bool.not_true, Bool.false_eq_true, if_false,
        List.filterMap_cons, hg r h, ih]
    · simp only [Bool.not_eq_true] at h
      simp only [List.filter_cons, h, Bool.not_false, if_true, List.filterMap_cons, ih]

theorem description_ext (d e : mf_sum_description) (h1 : d.time = e.time) (h2 : d.date = e.date)
    (h3 : ∀ k, d.block k = e.block k) : d = e := by
  have a := h3 .celldata
  have b := h3 .conndata
  have c := h3 .srcdata
  have x := h3 .fpcedata
  have y := h3 .fpcodata
  cases d; cases e
  simp only [mf_sum_description.block] at a b c x y h1 h2
  simp only [mf_sum_description.mk.injEq]
  exact ⟨h1, h2, a, b, c, x, y⟩

set_option maxRecDepth 100000 in
theorem sample_records_wf : ∀ r ∈ sample_records, r.wf := by decide

set_option maxRecDepth 100000 in
theorem sample_records_fit :
    ((snapshot_bytes sample_records [0, 0, 0, 0, 0, 0, 0, 0] [7]).length : Int) ≤ LONG_MAX := by
  decide

set_option maxRecDepth 100000 in
theorem sample_records_heap :
    (snapshot_bytes sample_records [0, 0, 0, 0, 0, 0, 0, 0] [7]).length ≤ sample_heap := by
  decide

/-- Claim C10 (snapshot open, success path). On a stream made of the BINARY format
tag, any sequence of well-formed records and an ENDFILE header, with enough loop
iterations allowed and an allocator that satisfies a request as large as the
stream, `mf_open_sum_file` returns a file (status `MF_OK`): it is the
initial file after the contribution of each record in turn, with the cursor just
after the ENDFILE header. The description holds the time, the date and the block
of each kind of the last record that carries one, and none where no record does;
records with another mnemonic leave the description as it is without them. -/
theorem mf_open_sum_file_success (heap : Nat) (records : List record) (sz rest : List Nat)
    (fuel : Nat) (hwf : ∀ r ∈ records, r.wf) (hsz : sz.length = 8)
    (hmax : ((snapshot_bytes records sz rest).length : Int) ≤ LONG_MAX)
    (hheap : (snapshot_bytes records sz rest).length ≤ heap)
    (hfuel : records.length < fuel) :
    ∃ f, mf_open_sum_file heap fuel (snapshot_bytes records sz rest) = some (.ok f) ∧
      f = { apply_records (initial_sum_file (snapshot_bytes records sz rest)) records with
            stream := ⟨snapshot_bytes records sz rest,
              16 + ((records.map record.bytes).flatten).length + 16, false⟩ } ∧
      f.description.time = (records.filterMap record.time_of).getLast? ∧
      f.description.date = (records.filterMap record.date_of).getLast? ∧
      (∀ k, f.description.block k = (records.filterMap (record.block_of k)).getLast?) ∧
      f.description = (apply_records (initial_sum_file (snapshot_bytes records sz rest))
        (records.filter (fun r => !r.is_other))).description := by
  generalize hB : snapshot_bytes records sz rest = bytes at *
  have hfmt := read_file_format_binary bytes _ hB.symm
  have h0 : (initial_sum_file bytes).stream.bytes.drop (initial_sum_file bytes).stream.pos =
      (records.map record.bytes).flatten ++ (MN_ENDFILE ++ (sz ++ rest)) := by
    have : bytes = (MN_BINARY ++ bytes_of_int64 0) ++ ((records.map record.bytes).flatten ++
        (MN_ENDFILE ++ (sz ++ rest))) := by
      rw [← hB, snapshot_bytes, List.append_assoc]
    simp only [initial_sum_file]
    rw [this, show 16 = (MN_BINARY ++ bytes_of_int64 0).length from rfl, List.drop_left]
  obtain ⟨n, rfl⟩ : ∃ n, fuel = (n + 1) + records.length := ⟨fuel - records.length - 1, by omega⟩
  obtain ⟨h1, h2⟩ := @open_loop_records heap records (initial_sum_file bytes) (n + 1) _ hwf h0
    rfl hmax hheap
  have h3 : (apply_records (initial_sum_file bytes) records).stream.bytes.drop
      (apply_records (initial_sum_file bytes) records).stream.pos = MN_ENDFILE ++ (sz ++ rest) := by
    rw [h2]
    exact drop_rest _ _ _ h0
  have h4 := @open_loop_endfile heap n (apply_records (initial_sum_file bytes) records) sz rest
    h3 hsz (by rw [h2]; rfl)
  have hopen : mf_open_sum_file heap (n + 1 + records.length) bytes =
      open_loop heap (n + 1 + records.length) (initial_sum_file bytes) := by
    unfold mf_open_sum_file
    rw [hfmt]
    rfl
  have hd := fun k => apply_records_description (initial_sum_file bytes) k records
  have hd2 := fun k => apply_records_description (initial_sum_file bytes) k
    (records.filter (fun r => !r.is_other))
  have ht : ∀ r : record, r.is_other = true → r.time_of = none := by
    intro r; cases r <;> simp [record.is_other, record.time_of]
  have hdt : ∀ r : record, r.is_other = true → r.date_of = none := by
    intro r; cases r <;> simp [record.is_other, record.date_of]
  have hb : ∀ k (r : record), r.is_other = true → r.block_of k = none := by
    intro k r; cases r <;> simp [record.is_other, record.block_of]
  refine ⟨_, by rw [hopen, h1, h4], ?_, ?_, ?_, ?_, ?_⟩
  · rw [h2]
    simp only [FILE.advance, initial_sum_file, Nat.add_assoc]
  · rw [(hd .celldata).1]; cases (records.filterMap record.time_of).getLast? <;> rfl
  · rw [(hd .celldata).2.1]; cases (records.filterMap record.date_of).getLast? <;> rfl
  · intro k
    show (apply_records (initial_sum_file bytes) records).description.block k = _
    rw [(hd k).2.2]
    cases (records.filterMap (record.block_of k)).getLast? <;> cases k <;> rfl
  · apply description_ext
    · show (apply_records (initial_sum_file bytes) records).description.time = _
      rw [(hd .celldata).1, (hd2 .celldata).1, filter_other_filterMap _ ht]
    · show (apply_records (initial_sum_file bytes) records).description.date = _
      rw [(hd .celldata).2.1, (hd2 .celldata).2.1, filter_other_filterMap _ hdt]
    · intro k
      show (apply_records (initial_sum_file bytes) records).description.block k = _
      rw [(hd k).2.2, (hd2 k).2.2, filter_other_filterMap _ (hb k)]

theorem mf_open_sum_file_success_witness :
    ∃ f, mf_open_sum_file sample_heap 4
        (snapshot_bytes sample_records [0, 0, 0, 0, 0, 0, 0, 0] [7]) = some (.ok f) ∧
      f = { apply_records (initial_sum_file
              (snapshot_bytes sample_records [0, 0, 0, 0, 0, 0, 0, 0] [7])) sample_records with
            stream := ⟨snapshot_bytes sample_records [0, 0, 0, 0, 0, 0, 0, 0] [7],
              16 + ((sample_records.map record.bytes).flatten).length + 16, false⟩ } ∧
      f.description.time = (sample_records.filterMap record.time_of).getLast? ∧
      f.description.date = (sample_records.filterMap record.date_of).getLast? ∧
      (∀ k, f.description.block k = (sample_records.filterMap (record.block_of k)).getLast?) ∧
      f.description = (apply_records (initial_sum_file
          (snapshot_bytes sample_records [0, 0, 0, 0, 0, 0, 0, 0] [7]))
        (sample_records.filter (fun r => !r.is_other))).description :=
  mf_open_sum_file_success sample_heap sample_records [0, 0, 0, 0, 0, 0, 0, 0] [7] 4
    sample_records_wf (by decide) sample_records_fit sample_records_heap (by decide)

/-! ## Properties of the record scanner and the schema decoder -/

theorem read_file_format_spec (bytes : List Nat) :
    (bytes.length < 16 →
      read_file_format ⟨bytes, 0, false⟩ = .error (.status .MF_ERROR_INVALID_FILE)) ∧
    (16 ≤ bytes.length →
      (int64_of_bytes ((bytes.drop 8).take 8) ≠ 0 ∨
        (bytes.take 8 ≠ MN_BINARY ∧ bytes.take 8 ≠ MN_ASCII)) →
      read_file_format ⟨bytes, 0, false⟩ = .error (.status .MF_ERROR_INVALID_FILE)) ∧
    (16 ≤ bytes.length → bytes.take 8 = MN_ASCII → int64_of_bytes ((bytes.drop 8).take 8) = 0 →
      read_file_format ⟨bytes, 0, false⟩ = .ok (⟨bytes, 16, false⟩, .MF_ASCII)) ∧
    (16 ≤ bytes.length → bytes.take 8 = MN_BINARY → int64_of_bytes ((bytes.drop 8).take 8) = 0 →
      read_file_format ⟨bytes, 0, false⟩ = .ok (⟨bytes, 16, false⟩, .MF_BINARY)) := by
  have hfull : 16 ≤ bytes.length → read_header ⟨bytes, 0, false⟩ =
      .ok (⟨bytes, 16, false⟩, ⟨bytes.take 8, int64_of_bytes ((bytes.drop 8).take 8)⟩) := by
    intro h
    have := read_header_full ⟨bytes, 0, false⟩ rfl (by simpa using h)
    simpa using this
  refine ⟨?_, ?_, ?_, ?_⟩
  · intro h
    unfold read_file_format
    rw [read_header_short _ (by simpa using h)]
  · intro h hc
    unfold read_file_format
    rw [hfull h]
    dsimp only
    by_cases hz : int64_of_bytes ((bytes.drop 8).take 8) = 0
    · rcases hc with hc | ⟨hc1, hc2⟩
      · exact absurd hz hc
      · rw [if_neg (not_not.mpr hz), if_neg hc1, if_neg hc2]
    · rw [if_pos hz]
  · intro h hn hz
    unfold read_file_format
    rw [hfull h]
    dsimp only
    rw [if_neg (not_not.mpr hz), hn, if_neg (by decide), if_pos rfl]
  · intro h hn hz
    unfold read_file_format
    rw [hfull h]
    dsimp only
    rw [if_neg (not_not.mpr hz), if_pos hn]

/-- Claim C12 (format tag). Both openers go on to the records after the first one
only when its mnemonic is `"BINARY  "` and its length field is 0; with
`"ASCII   "` and length 0 they fail with `MF_ERROR_UNSUPPORTED_FEATURE_REQUIRED`;
with another mnemonic, a length other than 0, or fewer than sixteen bytes, they
fail with `MF_ERROR_INVALID_FILE`. -/
theorem format_tag (heap : Nat) (bytes : List Nat) (fuel : Nat) :
    ((bytes.length < 16 ∨ (16 ≤ bytes.length ∧
        (int64_of_bytes ((bytes.drop 8).take 8) ≠ 0 ∨
          (bytes.take 8 ≠ MN_BINARY ∧ bytes.take 8 ≠ MN_ASCII)))) →
      mf_open_sum_file heap fuel bytes = some (.error (.status .MF_ERROR_INVALID_FILE)) ∧
      mf_open_mvs_file bytes = .error (.status .MF_ERROR_INVALID_FILE)) ∧
    (16 ≤ bytes.length → bytes.take 8 = MN_ASCII → int64_of_bytes ((bytes.drop 8).take 8) = 0 →
      mf_open_sum_file heap fuel bytes =
        some (.error (.status .MF_ERROR_UNSUPPORTED_FEATURE_REQUIRED)) ∧
      mf_open_mvs_file bytes = .error (.status .MF_ERROR_UNSUPPORTED_FEATURE_REQUIRED)) ∧
    (16 ≤ bytes.length → bytes.take 8 = MN_BINARY → int64_of_bytes ((bytes.drop 8).take 8) = 0 →
      mf_open_sum_file heap fuel bytes = open_loop heap fuel (initial_sum_file bytes) ∧
      mf_open_mvs_file bytes = open_mvs_grid ⟨bytes, 16, false⟩) := by
  obtain ⟨h1, h2, h3, h4⟩ := read_file_format_spec bytes
  refine ⟨?_, ?_, ?_⟩
  · intro h
    have hf : read_file_format ⟨bytes, 0, false⟩ = .error (.status .MF_ERROR_INVALID_FILE) := by
      rcases h with h | ⟨h, hc⟩
      · exact h1 h
      · exact h2 h hc
    unfold mf_open_sum_file mf_open_mvs_file
    rw [hf]
    exact ⟨rfl, rfl⟩
  · intro h hn hz
    unfold mf_open_sum_file mf_open_mvs_file
    rw [h3 h hn hz]
    exact ⟨rfl, rfl⟩
  · intro h hn hz
    unfold mf_open_sum_file mf_open_mvs_file
    rw [h4 h hn hz]
    exact ⟨rfl, rfl⟩

/-- Claim C14 (readHeader). On a stream whose end-of-file indicator is set only at
the end of the file: with at least sixteen bytes left, `read_header` returns
the next eight bytes as the mnemonic and the eight bytes after them, read as a
little-endian signed 64-bit integer, as the length, and leaves the cursor
sixteen bytes further; with fewer than sixteen bytes left it fails with
`MF_ERROR_INVALID_FILE`. -/
theorem read_header_spec (s : FILE) (hc : s.consistent) :
    (s.pos + 16 ≤ s.bytes.length →
      read_header s = .ok (⟨s.bytes, s.pos + 16, false⟩,
        ⟨(s.bytes.drop s.pos).take 8, int64_of_bytes ((s.bytes.drop (s.pos + 8)).take 8)⟩)) ∧
    (s.bytes.length < s.pos + 16 →
      read_header s = .error (.status .MF_ERROR_INVALID_FILE)) := by
  refine ⟨?_, read_header_short s⟩
  intro h
  have he : s.eof = false := by
    cases hs : s.eof
    · rfl
    · have := hc hs
      omega
  exact read_header_full s he h

theorem read_header_spec_witness :
    (sample_header_stream.pos + 16 ≤ sample_header_stream.bytes.length →
      read_header sample_header_stream =
        .ok (⟨sample_header_stream.bytes, sample_header_stream.pos + 16, false⟩,
          ⟨(sample_header_stream.bytes.drop sample_header_stream.pos).take 8,
            int64_of_bytes
              ((sample_header_stream.bytes.drop (sample_header_stream.pos + 8)).take 8)⟩)) ∧
    (sample_header_stream.bytes.length < sample_header_stream.pos + 16 →
      read_header sample_header_stream = .error (.status .MF_ERROR_INVALID_FILE)) :=
  read_header_spec sample_header_stream (by decide)

/-- Claim C15, as amended (property tags and defaults). The allocator satisfies a
request as large as the stream. On a well-formed ARRAYS record followed by its
DATA record, `read_arrays` returns one property per descriptor, in order, with
the name and unit of the descriptor; in each category (data type, arity, phase
mode) the last tag word of the category decides, and a category with no tag
word keeps its default REAL8, Single, Fixed. When a descriptor of the table
has, among its first three tag words, one that is neither in the vocabulary
nor `"ENDITEM "`, `read_arrays` fails with `MF_ERROR_INVALID_FILE`; the tag
loop looks at no more than three words of a descriptor. -/
theorem read_arrays_tags (heap : Nat) (s : FILE) (num_objects : Int) (descs : List descriptor)
    (pad data trailer rest name dimension u more : List Nat) (ts : List (List Nat))
    (count : Nat) (he : s.eof = false) (hmax : (s.bytes.length : Int) ≤ LONG_MAX)
    (hheap : s.bytes.length ≤ heap)
    (hn0 : 0 ≤ num_objects) (hn1 : num_objects < 2147483648)
    (hwf : ∀ d ∈ descs, d.wf) (hd1 : descs.length < count) (hc : count < 2147483648)
    (ht : trailer.length = 16) (hname : name.length = 8) (hdim : dimension.length = 8)
    (hts : ∀ t ∈ ts, t ∈ tag_words) (hl : ts.length < 3) (hu8 : u.length = 8)
    (hu1 : u ∉ tag_words) (hu2 : u ≠ MN_ENDITEM) :
    (0 < descs.length →
      s.bytes.drop s.pos = MN_ARRAYS ++
        (bytes_of_int64 (arrays_payload num_objects descs pad).length ++
        (arrays_payload num_objects descs pad ++ (MN_DATA ++ (bytes_of_int64 data.length ++
        (data ++ (trailer ++ rest)))))) →
      ∃ s2 loc, read_arrays heap s =
        .ok (s2, ⟨num_objects, descs.map descriptor.property⟩, loc)) ∧
    (∀ d ∈ descs, d.property.name = d.name ∧ d.property.dimension = d.dimension ∧
      d.property.data_type = (d.tags.reverse.findSome? tag_data_type).getD .MF_REAL8 ∧
      d.property.output_mode = (d.tags.reverse.findSome? tag_output_mode).getD .MF_SINGLE ∧
      d.property.phase_state = (d.tags.reverse.findSome? tag_phase_state).getD .MF_STATE0) ∧
    (∀ P, P = bytes_of_int32 count ++ (bytes_of_int32 num_objects ++
        ((descs.map descriptor.bytes).flatten ++
          (name ++ (dimension ++ (ts.flatten ++ (u ++ more)))))) →
      s.bytes.drop s.pos = MN_ARRAYS ++ (bytes_of_int64 P.length ++ (P ++ rest)) →
      read_arrays heap s = .error (.status .MF_ERROR_INVALID_FILE)) := by
  refine ⟨?_, ?_, ?_⟩
  · intro hd0 h
    exact ⟨_, _, read_arrays_block s num_objects descs pad data trailer rest h he hmax hheap
      hn0 hn1 hd0 (by omega) hwf ht⟩
  · intro d hd
    exact tags_property_fields _ d.tags (hwf d hd).2.2.2
  · intro P hP h
    have hPl : P.length ≤ heap := by
      have hl := congrArg List.length h
      simp only [List.length_drop, List.length_append] at hl
      omega
    rw [read_arrays_payload s P rest h he hmax hPl]
    obtain ⟨hs0, hs4⟩ := payload_slices (count : Int) num_objects
      ((descs.map descriptor.bytes).flatten ++
        (name ++ (dimension ++ (ts.flatten ++ (u ++ more)))))
    have hdrop := payload_drop8 (count : Int) num_objects
      ((descs.map descriptor.bytes).flatten ++
        (name ++ (dimension ++ (ts.flatten ++ (u ++ more)))))
    rw [← hP] at hs0 hs4 hdrop
    have k0 : (-2147483648 : Int) ≤ (count : Int) := by omega
    have k1 : (count : Int) < 2147483648 := by omega
    have k2 : (-2147483648 : Int) ≤ num_objects := by omega
    have k3 : 0 < count := by omega
    have hb0 : int32_of_bytes (bytes_of_int32 (count : Int)) = (count : Int) :=
      int32_of_bytes_of_int32 _ k0 k1
    have hb1 : int32_of_bytes (bytes_of_int32 num_objects) = num_objects :=
      int32_of_bytes_of_int32 _ k2 hn1
    have hc0 : 0 < int32_of_bytes (bytes_of_int32 (count : Int)) := by
      rw [hb0]; exact Int.natCast_pos.mpr k3
    have hc1 : 0 ≤ int32_of_bytes (bytes_of_int32 num_objects) := by rw [hb1]; exact hn0
    have hp := read_properties_unknown P name dimension u more ts hname hdim hts hl hu8 hu1 hu2
      descs count 8 hwf hd1 hdrop
    exact read_arrays_table_error _ P _ _ _ hs0 hs4 hc0 hc1 (by
      rw [hb0, Int.toNat_ofNat]; exact hp)

theorem sample_descriptors_wf : ∀ d ∈ sample_descriptors, d.wf := by decide

set_option maxRecDepth 100000 in
theorem sample_arrays_stream_fit : (sample_arrays_stream.bytes.length : Int) ≤ LONG_MAX := by
  decide

set_option maxRecDepth 100000 in
theorem sample_arrays_stream_layout :
    sample_arrays_stream.bytes.drop sample_arrays_stream.pos = MN_ARRAYS ++
      (bytes_of_int64 (arrays_payload 2 sample_descriptors []).length ++
      (arrays_payload 2 sample_descriptors [] ++ (MN_DATA ++
      (bytes_of_int64 ([1, 2, 3, 4, 5] : List Nat).length ++
      ([1, 2, 3, 4, 5] ++ ((MN_ENDDATA ++ bytes_of_int64 0) ++ [])))))) := by
  decide

set_option maxRecDepth 100000 in
theorem sample_arrays_stream_heap : sample_arrays_stream.bytes.length ≤ sample_heap := by
  decide

set_option maxRecDepth 100000 in
theorem sample_bad_arrays_stream_heap : sample_bad_arrays_stream.bytes.length ≤ sample_heap := by
  decide

set_option maxRecDepth 100000 in
theorem sample_bad_arrays_stream_fit :
    (sample_bad_arrays_stream.bytes.length : Int) ≤ LONG_MAX := by
  decide

theorem read_arrays_tags_witness :
    (∃ s2 loc, read_arrays sample_heap sample_arrays_stream =
        .ok (s2, ⟨2, sample_descriptors.map descriptor.property⟩, loc)) ∧
    sample_descriptors.map descriptor.property =
      [⟨[80, 82, 69, 83, 32, 32, 32, 32], [66, 65, 82, 32, 32, 32, 32, 32],
          .MF_REAL8, .MF_SINGLE, .MF_STATE0⟩,
       ⟨[83, 65, 84, 32, 32, 32, 32, 32], [32, 32, 32, 32, 32, 32, 32, 32],
          .MF_REAL4, .MF_DOUBLE, .MF_STATE1⟩,
       ⟨[80, 72, 83, 84, 32, 32, 32, 32], [32, 32, 32, 32, 32, 32, 32, 32],
          .MF_INT1, .MF_SINGLE, .MF_STATE0⟩] ∧
    read_arrays sample_heap sample_bad_arrays_stream = .error (.status .MF_ERROR_INVALID_FILE) :=
  ⟨(read_arrays_tags sample_heap sample_arrays_stream 2 sample_descriptors [] [1, 2, 3, 4, 5]
      (MN_ENDDATA ++ bytes_of_int64 0) [] MN_DATA MN_DATA sample_unknown_tag [] [] 4 rfl
      sample_arrays_stream_fit sample_arrays_stream_heap (by decide) (by decide)
        sample_descriptors_wf (by decide)
      (by decide) (by decide) (by decide) (by decide) (by decide) (by decide) (by decide)
      (by decide) (by decide)).1 (by decide) sample_arrays_stream_layout, by decide,
    (read_arrays_tags sample_heap sample_bad_arrays_stream 2 [] [] []
      (MN_ENDDATA ++ bytes_of_int64 0) []
      [80, 82, 69, 83, 32, 32, 32, 32] [66, 65, 82, 32, 32, 32, 32, 32] sample_unknown_tag
      MN_ENDITEM [MN_INT4] 1 rfl sample_bad_arrays_stream_fit sample_bad_arrays_stream_heap
      (by decide) (by decide)
      (by decide) (by decide) (by decide) (by decide) (by decide) (by decide) (by decide)
      (by decide) (by decide) (by decide) (by decide)).2.2 sample_bad_payload rfl rfl⟩

/-- Claim C15 as stated fails for the fourth word of a descriptor. The descriptor
of the sample record carries the tag words `"INT4    "`, `"DOUBLE  "`,
`"STATE1  "` and then `"REAL16  "`, which is neither in the vocabulary nor
`"ENDITEM "`. The tag loop `for (; tag_idx < 3; ++tag_idx)` ends after three
words, and `read_arrays` returns the property (INT4, Double, Variable) instead
of failing with `MF_ERROR_INVALID_FILE`. -/
theorem read_arrays_fourth_word :
    sample_unknown_tag ∉ tag_words ∧ sample_unknown_tag ≠ MN_ENDITEM ∧
    (sample_fourth_word_stream.bytes.drop 64).take 8 = sample_unknown_tag ∧
    read_arrays sample_heap sample_fourth_word_stream =
      .ok ((⟨sample_fourth_word_stream.bytes, 104, false⟩ : FILE),
        (⟨2, [⟨[80, 82, 69, 83, 32, 32, 32, 32], [66, 65, 82, 32, 32, 32, 32, 32],
          .MF_INT4, .MF_DOUBLE, .MF_STATE1⟩]⟩ : mf_arrays),
        (some (88, 0) : Option (Int × Int))) := by
  decide

/-- Claim C16, as amended (DATA section bookkeeping). Whenever `read_arrays` returns
a block with at least one property, the record after the ARRAYS payload is
named `"DATA    "`, the recorded offset is the position right after its
header, the recorded size is its length field, which is not negative, and
(the target being a valid position) the cursor is left at offset + size + 16. -/
theorem read_arrays_data_section (heap : Nat) (s s2 : FILE) (arr : mf_arrays)
    (loc : Option (Int × Int))
    (h : read_arrays heap s = .ok (s2, arr, loc)) (hp : arr.properties ≠ []) :
    ∃ (a : Nat) (size : Int),
      a = s.pos + 16 + (int64_of_bytes ((s.bytes.drop (s.pos + 8)).take 8)).toNat ∧
      (s.bytes.drop a).take 8 = MN_DATA ∧
      size = int64_of_bytes ((s.bytes.drop (a + 8)).take 8) ∧ 0 ≤ size ∧
      loc = some (((a + 16 : Nat) : Int), size) ∧
      ((a : Int) + 16 + size + 16 ≤ LONG_MAX →
        s2 = ⟨s.bytes, a + 16 + size.toNat + 16, false⟩) := by
  obtain ⟨s1, header, hh, _, hsz, hef, ht⟩ := read_arrays_inv s s2 arr loc h
  obtain ⟨_, e1, _, _, e2⟩ := read_header_inv s s1 header hh
  obtain ⟨_, e3, _, _⟩ := fread_full s1 header.size.toNat hef
  rw [e3] at ht
  rcases read_arrays_table_inv _ _ _ _ _ ht with ⟨h1, _, _⟩ | ⟨_, hd⟩
  · exact absurd h1 hp
  · obtain ⟨s3, h2, hh2, hn2, hs2, hs2eq, _, hloc⟩ := read_arrays_data_inv _ _ _ _ _ _ hd
    obtain ⟨_, f1, _, f2, f3⟩ := read_header_inv _ s3 h2 hh2
    subst e1
    simp only at f1 f2 f3
    refine ⟨s.pos + 16 + header.size.toNat, h2.size, by rw [e2], by rw [← f2, hn2], f3, hs2,
      ?_, ?_⟩
    · rw [hloc, f1]
      rfl
    · intro hfit
      rw [hs2eq, f1]
      unfold fseek_cur
      simp only
      rw [if_neg (by push_cast at hfit ⊢; omega)]
      congr 1
      omega

theorem read_arrays_data_section_witness :
    ∃ (a : Nat) (size : Int),
      a = sample_arrays_stream.pos + 16 + (int64_of_bytes
        ((sample_arrays_stream.bytes.drop (sample_arrays_stream.pos + 8)).take 8)).toNat ∧
      (sample_arrays_stream.bytes.drop a).take 8 = MN_DATA ∧
      size = int64_of_bytes ((sample_arrays_stream.bytes.drop (a + 8)).take 8) ∧ 0 ≤ size ∧
      (some (((sample_arrays_stream.pos + (32 +
          (arrays_payload 2 sample_descriptors []).length) : Nat) : Int),
        ((([1, 2, 3, 4, 5] : List Nat).length : Nat) : Int)) : Option (Int × Int)) =
        some (((a + 16 : Nat) : Int), size) ∧
      ((a : Int) + 16 + size + 16 ≤ LONG_MAX →
        sample_arrays_stream.advance (16 + ((arrays_payload 2 sample_descriptors []).length +
          (16 + (([1, 2, 3, 4, 5] : List Nat).length + 16)))) =
        ⟨sample_arrays_stream.bytes, a + 16 + size.toNat + 16, false⟩) :=
  read_arrays_data_section sample_heap sample_arrays_stream _ _ _
    (read_arrays_block sample_arrays_stream 2 sample_descriptors [] [1, 2, 3, 4, 5]
      (MN_ENDDATA ++ bytes_of_int64 0) [] sample_arrays_stream_layout rfl
      sample_arrays_stream_fit sample_arrays_stream_heap (by decide) (by decide) (by decide)
        (by decide)
      sample_descriptors_wf (by decide)) (by decide)

/-- Claim C16 as stated fails for a property count of 0: on an ARRAYS record with no
property (two objects), followed by a DATA record of five bytes at position 24,
`read_arrays` succeeds without recording an offset or a size and leaves the
cursor at 24, on the DATA header, not after the section and its trailer. -/
theorem read_arrays_no_property :
    read_arrays sample_heap sample_empty_arrays_stream =
      .ok (⟨sample_empty_arrays_stream.bytes, 24, false⟩, ⟨2, []⟩, none) ∧
    (sample_empty_arrays_stream.bytes.drop 24).take 8 = MN_DATA := by
  decide

/-- Claim C17, as amended (schema decoder mnemonic check). When the record
`read_arrays` is handed is not named `"ARRAYS  "`, and when the record after a
well-formed property table is not named `"DATA    "`, `read_arrays` stops on a
failed assertion: the program aborts and no status is returned. -/
theorem read_arrays_mnemonic_assert (heap : Nat) (s : FILE) (name sz rest pad : List Nat)
    (num_objects : Int) (descs : List descriptor)
    (he : s.eof = false) (hmax : (s.bytes.length : Int) ≤ LONG_MAX)
    (hn0 : 0 ≤ num_objects) (hn1 : num_objects < 2147483648)
    (hd0 : 0 < descs.length) (hd1 : descs.length < 2147483648)
    (hwf : ∀ d ∈ descs, d.wf) (hname : name.length = 8) (hsz : sz.length = 8) :
    (s.bytes.drop s.pos = name ++ (sz ++ rest) → name ≠ MN_ARRAYS →
      read_arrays heap s = .error .assert_failed) ∧
    (s.bytes.drop s.pos = MN_ARRAYS ++
        (bytes_of_int64 (arrays_payload num_objects descs pad).length ++
        (arrays_payload num_objects descs pad ++ (name ++ (sz ++ rest)))) →
      name ≠ MN_DATA → read_arrays heap s = .error .assert_failed) := by
  constructor
  · intro h hne
    exact read_arrays_assert s _ _ (read_header_rest s name sz rest h hname hsz he) hne
  · intro h hne
    rcases Nat.lt_or_ge heap (arrays_payload num_objects descs pad).length with hb | hb
    · have hl := congrArg List.length h
      simp only [List.length_drop, List.length_append, bytes_of_int64_length] at hl
      simp only [LONG_MAX] at hmax
      have hh := read_header_rest s MN_ARRAYS _ _ h rfl (bytes_of_int64_length _) he
      rw [int64_of_bytes_of_int64 _ (by omega) (by omega)] at hh
      exact read_arrays_no_buffer s _ _ hh rfl (Int.ofNat_lt.mpr hb)
    rw [read_arrays_to_data s num_objects descs pad _ h he hmax hb hn0 hn1 hd0 hd1 hwf]
    have hr := advance_rest s (MN_ARRAYS ++ bytes_of_int64
      (arrays_payload num_objects descs pad).length) (arrays_payload num_objects descs pad)
      (name ++ (sz ++ rest)) (16 + (arrays_payload num_objects descs pad).length)
      (by rw [h]; simp only [List.append_assoc])
      (by rw [List.length_append, bytes_of_int64_length]; rfl)
    exact read_arrays_data_assert _ _ _ _ _
      (read_header_rest _ name sz rest hr hname hsz rfl) hne

set_option maxRecDepth 100000 in
theorem sample_misnamed_data_stream_fit :
    (sample_misnamed_data_stream.bytes.length : Int) ≤ LONG_MAX := by
  decide

theorem read_arrays_mnemonic_assert_witness :
    read_arrays sample_heap sample_misnamed_stream = .error .assert_failed ∧
    read_arrays sample_heap sample_misnamed_data_stream = .error .assert_failed :=
  ⟨(read_arrays_mnemonic_assert sample_heap sample_misnamed_stream sample_wrong_mnemonic
      (bytes_of_int64 0) [1, 2, 3] [] 2 sample_descriptors rfl (by decide) (by decide) (by decide) (by decide)
      (by decide) sample_descriptors_wf (by decide) (by decide)).1 rfl (by decide),
    (read_arrays_mnemonic_assert sample_heap sample_misnamed_data_stream sample_wrong_mnemonic
      (bytes_of_int64 0) [1, 2, 3] [] 2 sample_descriptors rfl sample_misnamed_data_stream_fit
      (by decide) (by decide) (by decide) (by decide) sample_descriptors_wf (by decide)
      (by decide)).2 rfl (by decide)⟩

/-- Claim C17 as stated fails: on a stream whose first record is named `"ARRAY   "`,
`read_arrays` does not return `MF_ERROR_INVALID_FILE`; the assertion on the
mnemonic aborts the program. -/
theorem read_arrays_misnamed :
    read_arrays sample_heap sample_misnamed_stream = .error .assert_failed ∧
    read_arrays sample_heap sample_misnamed_stream ≠ .error (.status .MF_ERROR_INVALID_FILE) := by
  decide

/-- Claim C13, as amended (mesh open, positional grammar). On a stream made of the
BINARY format tag, four record headers, the two 32-bit counts after the second
header and the payload of the third record, `mf_open_mvs_file` succeeds if and
only if the four mnemonics are, in order, GRIDDATA, GRIDSIZE, POINTS, CELLS and
neither count is negative. It fails with `MF_ERROR_INVALID_FILE` at the first
mnemonic that differs, and a negative count (once the first two mnemonics have
matched) stops it on a failed assertion. On success the description holds the
two counts, the vertex offset is the position right after the POINTS header,
and the cell offset is the vertex offset + the POINTS payload length + 16. -/
theorem mf_open_mvs_file_grammar (n1 z1 n2 z2 nv nc n3 payload n4 z4 rest : List Nat)
    (h1 : n1.length = 8) (hz1 : z1.length = 8) (h2 : n2.length = 8) (hz2 : z2.length = 8)
    (hv : nv.length = 4) (hc : nc.length = 4) (h3 : n3.length = 8) (h4 : n4.length = 8)
    (hz4 : z4.length = 8)
    (hmax : ((mesh_bytes n1 z1 n2 z2 nv nc n3 payload n4 z4 rest).length : Int) ≤ LONG_MAX) :
    mf_open_mvs_file (mesh_bytes n1 z1 n2 z2 nv nc n3 payload n4 z4 rest) =
      if n1 ≠ MN_GRIDDATA then .error (.status .MF_ERROR_INVALID_FILE)
      else if n2 ≠ MN_GRIDSIZE then .error (.status .MF_ERROR_INVALID_FILE)
      else if int32_of_bytes nv < 0 ∨ int32_of_bytes nc < 0 then .error .assert_failed
      else if n3 ≠ MN_POINTS then .error (.status .MF_ERROR_INVALID_FILE)
      else if n4 ≠ MN_CELLS then .error (.status .MF_ERROR_INVALID_FILE)
      else .ok ⟨.MF_BINARY,
        ⟨mesh_bytes n1 z1 n2 z2 nv nc n3 payload n4 z4 rest, 72 + payload.length + 16, false⟩,
        72, 72 + payload.length + 16, ⟨int32_of_bytes nv, int32_of_bytes nc⟩⟩ := by
  generalize hB : mesh_bytes n1 z1 n2 z2 nv nc n3 payload n4 z4 rest = bytes at *
  have hfmt := read_file_format_binary bytes _ hB.symm
  have e0 : (⟨bytes, 16, false⟩ : FILE).bytes.drop (⟨bytes, 16, false⟩ : FILE).pos =
      n1 ++ (z1 ++ (n2 ++ (z2 ++ (nv ++ (nc ++ (n3 ++ (bytes_of_int64 payload.length ++
        (payload ++ (n4 ++ (z4 ++ rest)))))))))) := by
    have : bytes = (MN_BINARY ++ bytes_of_int64 0) ++ (n1 ++ (z1 ++ (n2 ++ (z2 ++ (nv ++ (nc ++
        (n3 ++ (bytes_of_int64 payload.length ++ (payload ++ (n4 ++ (z4 ++ rest))))))))))) := by
      rw [← hB, mesh_bytes, List.append_assoc]
    show bytes.drop 16 = _
    rw [this, show 16 = (MN_BINARY ++ bytes_of_int64 0).length from rfl, List.drop_left]
  have g := open_mvs_grid_path ⟨bytes, 16, false⟩ n1 z1 n2 z2 _ e0 h1 hz1 h2 hz2 rfl
  have e1 : ((⟨bytes, 16, false⟩ : FILE).advance 32).bytes.drop
      ((⟨bytes, 16, false⟩ : FILE).advance 32).pos =
      nv ++ (nc ++ (n3 ++ (bytes_of_int64 payload.length ++
        (payload ++ (n4 ++ (z4 ++ rest)))))) := by
    have a1 := advance_rest ⟨bytes, 16, false⟩ n1 z1 _ 16 e0 (by rw [h1, hz1])
    have a2 := advance_rest _ n2 z2 _ 16 a1 (by rw [h2, hz2])
    rw [advance_advance] at a2
    exact a2
  have c := open_mvs_counts_path _ nv nc _ e1 hv hc rfl
  have e2 := advance_rest _ nv nc _ 8 e1 (by rw [hv, hc])
  rw [advance_advance] at e2
  have p := open_mvs_points_path ((⟨bytes, 16, false⟩ : FILE).advance (32 + 8))
    ⟨int32_of_bytes nv, int32_of_bytes nc⟩ n3 payload n4 z4 rest e2 h3 h4 hz4 rfl hmax
  rw [advance_advance] at c
  unfold mf_open_mvs_file
  rw [hfmt]
  dsimp only
  rw [if_neg (by decide), g, c, p]
  simp only [FILE.advance, advance_advance]
  rw [show 16 + (32 + 8) + (16 + payload.length + 16) = 72 + payload.length + 16 by omega,
    show 16 + (32 + 8) + 16 + payload.length + 16 = 72 + payload.length + 16 by omega]

set_option maxRecDepth 100000 in
theorem sample_mesh_fit : ((sample_mesh.length : Nat) : Int) ≤ LONG_MAX := by
  decide

theorem mf_open_mvs_file_grammar_witness :
    mf_open_mvs_file sample_mesh =
      if MN_GRIDDATA ≠ MN_GRIDDATA then .error (.status .MF_ERROR_INVALID_FILE)
      else if MN_GRIDSIZE ≠ MN_GRIDSIZE then .error (.status .MF_ERROR_INVALID_FILE)
      else if int32_of_bytes (bytes_of_int32 3) < 0 ∨ int32_of_bytes (bytes_of_int32 5) < 0 then
        .error .assert_failed
      else if MN_POINTS ≠ MN_POINTS then .error (.status .MF_ERROR_INVALID_FILE)
      else if MN_CELLS ≠ MN_CELLS then .error (.status .MF_ERROR_INVALID_FILE)
      else .ok ⟨.MF_BINARY, ⟨sample_mesh, 72 + ([1, 2, 3] : List Nat).length + 16, false⟩,
        72, 72 + ([1, 2, 3] : List Nat).length + 16,
        ⟨int32_of_bytes (bytes_of_int32 3), int32_of_bytes (bytes_of_int32 5)⟩⟩ :=
  mf_open_mvs_file_grammar MN_GRIDDATA (bytes_of_int64 0) MN_GRIDSIZE (bytes_of_int64 8)
    (bytes_of_int32 3) (bytes_of_int32 5) MN_POINTS [1, 2, 3] MN_CELLS (bytes_of_int64 0) [9]
    rfl rfl rfl rfl rfl rfl rfl rfl rfl sample_mesh_fit

/-- Claim C13 as stated fails: a mesh stream whose four record headers carry
GRIDDATA, GRIDSIZE, POINTS, CELLS in order, with a vertex count of −1, is not
opened; the assertion on the count aborts the program. -/
theorem mf_open_mvs_file_negative_count :
    mf_open_mvs_file sample_negative_mesh = .error .assert_failed := by
  decide

/-! ## Further properties of the decoder, the opener, the reindexer and the converter -/

/-- Claim C20 fails on a schema with a Variable property and no preceding phase-count
property. Schema `[A (INT1, Fixed), V (REAL8, Variable)]`, one object, `A`
requested, DATA section at offset 16 of a 32-byte stream: the phase count in
force for `V` is −1, the width computed for it is `2^64 − 8`, which is −8 as a
`long`, and the cursor ends at 9, before the start of the section. With `V`
requested the read size is `2^64 − 8` and the rest of the stream goes into the
8-byte element. -/
theorem read_data_phase_count_unset :
    bytes_to_skip ⟨[86, 32, 32, 32, 32, 32, 32, 32], [], .MF_REAL8, .MF_SINGLE, .MF_STATE1⟩ (-1) =
      18446744073709551608 ∧
    (read_data sample_data_stream sample_variable_schema ⟨[[65, 32, 32, 32, 32, 32, 32, 32]]⟩
      [⟨fun _ => 0, fun _ => 0, 1, 1⟩] 16).map (fun r => (r.stream.pos, r.log)) =
      .ok (9, [⟨0, 0, 0, 0, 0, [16]⟩]) ∧
    (read_data sample_data_stream sample_variable_schema ⟨[[86, 32, 32, 32, 32, 32, 32, 32]]⟩
      [⟨fun _ => 0, fun _ => 0, 8, 1⟩] 16).map (fun r => r.log) =
      .ok [⟨0, 1, 0, 0, 0, [17, 18, 19, 20, 21, 22, 23, 24, 25, 26, 27, 28, 29, 30, 31]⟩] := by
  decide

/-- Claim C23 fails: schema of one INT4 property, one object, the property requested
with capacity 1, and a stream that ends two bytes into the DATA section.
`read_data` returns `MF_OK` with the two bytes stored; the short read is not
detected. -/
theorem read_data_truncated :
    (read_data ⟨[1, 2], 0, false⟩ sample_int4_schema ⟨[[65, 32, 32, 32, 32, 32, 32, 32]]⟩
      [⟨fun _ => 0, fun _ => 0, 4, 1⟩] 0).map (fun r => (r.stream.eof, r.objects, r.log)) =
      .ok (true, 1, [⟨0, 0, 0, 0, 0, [1, 2]⟩]) := by
  decide

/-- Claim C24 fails: on an ARRAYS record whose declared payload is the eight bytes of
the counts, with a property count of 1, `read_arrays` reads the name of the
property at offset 8 of the 8-byte buffer, beyond its end, and does not return
`MF_ERROR_INVALID_FILE`. -/
theorem read_arrays_short_payload :
    read_arrays sample_heap sample_short_arrays_stream = .error .out_of_bounds ∧
    slice ((fread (fread sample_short_arrays_stream 16).1 8).2) 8 8 = none := by
  decide

theorem sample_looping_step {heap : Nat} (fuel : Nat) :
    open_loop heap (fuel + 1) (initial_sum_file sample_looping_bytes) =
      open_loop heap fuel (initial_sum_file sample_looping_bytes) :=
  open_loop_step fuel (initial_sum_file sample_looping_bytes) _
    ⟨sample_looping_bytes, 32, false⟩ ⟨[78, 79, 84, 69, 32, 32, 32, 32], -16⟩ rfl
    (by decide)
    (open_record_other (initial_sum_file sample_looping_bytes) ⟨sample_looping_bytes, 32, false⟩
      ⟨[78, 79, 84, 69, 32, 32, 32, 32], -16⟩ (by decide) (by decide) (by decide) (by decide))

/-- Claim C25 fails: on the stream made of the format tag and a record with an
unknown mnemonic and the length −16, the skip moves the cursor back onto the
header of that record, and the record loop of `mf_open_sum_file` does not end,
however many iterations it is given. -/
theorem mf_open_sum_file_loops (heap fuel : Nat) :
    mf_open_sum_file heap fuel sample_looping_bytes = none := by
  have h : ∀ n, mf_open_sum_file heap n sample_looping_bytes =
      open_loop heap n (initial_sum_file sample_looping_bytes) := by
    intro n
    unfold mf_open_sum_file
    rw [show read_file_format ⟨sample_looping_bytes, 0, false⟩ =
      .ok (⟨sample_looping_bytes, 16, false⟩, .MF_BINARY) by decide]
    rfl
  rw [h]
  induction fuel with
  | zero => rfl
  | succ n ih => rw [sample_looping_step, ih]

/-- Claim C28 fails when the largest key is `INT32_MAX`. For the keys
`[2147483647, 0, 2147483647]` the number of table entries `max key + 1` is
computed in `int` and wraps to `-2147483648`: the table has no entry, the first
access `map[sorter[0]]` of the second loop is outside it, and `remap_ids` does
not return `[2, 0, 2]`. -/
theorem remap_ids_table_overflow :
    (wrap32 (2147483647 + 1)).toNat = 0 ∧
    (qsort (fill_sorter [2147483647, 0, 2147483647] 0)).get? 2 = some (2147483647, 2) ∧
    fill_map (qsort (fill_sorter [2147483647, 0, 2147483647] 0)) 0
      (List.replicate (wrap32 (2147483647 + 1)).toNat 0) = none ∧
    remap_ids [2147483647, 0, 2147483647] = none := by
  decide

/-- Reindexing with duplicate keys where no key is `INT32_MAX`. For `N ≥ 1`
non-negative keys (as `int32_t`, at most `INT32_MAX - 1`), equal keys allowed,
and every array `qsort` may leave, `remap_ids` returns (no access outside the
table) and the entry at each position `i` is the number of positions `j` with
`keys[j] ≤ keys[i]`, minus one; any other array `qsort` may leave gives the
same result. -/
theorem remap_ids_duplicates (ids : List Int) (sorter sorter2 : List (Int × Int))
    (hne : ids ≠ []) (hr : ∀ k ∈ ids, 0 ≤ k ∧ k < 2147483647)
    (hq : qsort_post (fill_sorter ids 0) sorter)
    (hq2 : qsort_post (fill_sorter ids 0) sorter2) :
    ∃ perm, remap_ids_sorted sorter ids = some perm ∧ perm.length = ids.length ∧
      (∀ i (hi : i < ids.length),
        perm[i]? = some ((ids.countP (fun x => decide (x ≤ ids[i])) : Int) - 1)) ∧
      remap_ids_sorted sorter2 ids = some perm := by
  refine ⟨_, remap_ids_sorted_eq hne hr hq, by simp, ?_, remap_ids_sorted_eq hne hr hq2⟩
  intro i hi
  simp [List.getElem?_map, List.getElem?_eq_getElem hi]

theorem remap_ids_duplicates_witness :
    ∃ perm, remap_ids_sorted [(0, 1), (3, 3), (7, 0), (7, 2)] [7, 0, 7, 3] = some perm ∧
      perm.length = [7, 0, 7, 3].length ∧
      (∀ i (hi : i < [7, 0, 7, 3].length),
        perm[i]? = some (([7, 0, 7, 3].countP
          (fun x => decide (x ≤ ([7, 0, 7, 3] : List Int)[i])) : Int) - 1)) ∧
      remap_ids_sorted [(0, 1), (3, 3), (7, 2), (7, 0)] [7, 0, 7, 3] = some perm :=
  remap_ids_duplicates [7, 0, 7, 3] [(0, 1), (3, 3), (7, 0), (7, 2)]
    [(0, 1), (3, 3), (7, 2), (7, 0)] (by decide) (by decide) ⟨by decide, by decide⟩
    ⟨by decide, by decide⟩

/-- Claim C29 fails when the cell count of the mesh differs from the object count of
the CELLDATA block. With two objects (cell ids `[2, 1]`, pressures `[1, 2]`,
temperatures `[10, 20]`) the reindexed arrays are `[200000, 100000]` and
`[20, 10]`; with a mesh cell count of 1 the output is `[200000, 20]`, not the
whole arrays, and with a mesh cell count of 3 each `fwrite` reads a third
element beyond the two-element array. -/
theorem convert_output_cell_count :
    convert_fields [2, 1] [1, 2] [10, 20] = some ([200000, 100000], [20, 10]) ∧
    convert_output 1 [2, 1] [1, 2] [10, 20] = some [200000, 20] ∧
    convert_output 3 [2, 1] [1, 2] [10, 20] = none := by
  have hids : ([2, 1] : List Int).map (fun c => wrap32 (c - 1)) = [1, 0] := by decide
  have hperm : remap_ids_sorted (qsort (fill_sorter [1, 0] 0)) [1, 0] = some [1, 0] := by
    decide
  have hcf : convert_fields [2, 1] [1, 2] [10, 20] = some ([200000, 100000], [20, 10]) := by
    unfold convert_fields convert_fields_sorted
    rw [hids, hperm]
    have e1 : Int.toNat 1 = 1 := rfl
    simp only [sort_field, sort_field_loop]
    norm_num [e1, List.set]
  refine ⟨hcf, ?_, ?_⟩
  · unfold convert_output
    rw [hcf]
    simp [fwrite_doubles]
  · unfold convert_output
    rw [hcf]
    simp [fwrite_doubles]

theorem resolve_requests_error (props : List mf_property) (data : List mf_data)
    (names : List (List Nat)) (req0 : Nat) (ri0 : List Int) (mc0 : Int) (e : Fault)
    (h : resolve_requests props data names req0 ri0 mc0 = .error e) :
    e = .status .MF_ERROR_MISSING_PROPERTY := by
  obtain ⟨h1, h2⟩ := resolve_requests_status props data names req0 ri0 mc0
  by_cases hc : ∃ name ∈ names, find_property name props 0 = none
  · rw [h1 hc] at h
    cases h
    rfl
  · obtain ⟨r, hr⟩ := h2 (fun name hn hf => hc ⟨name, hn, hf⟩)
    rw [hr] at h
    cases h

theorem getD_replicate_neg (n p : Nat) : (List.replicate n (-1 : Int)).getD p (-1) = -1 := by
  rw [List.getD_eq_getElem?_getD]
  by_cases h : p < n
  · rw [List.getElem?_replicate, if_pos h]; rfl
  · rw [List.getElem?_eq_none (by rw [List.length_replicate]; omega)]; rfl

/-- Claim C22 fails for a Variable property that no phase-count property precedes.
Schema `[A (INT1, Fixed), V (REAL8, Variable)]`, one object, `V` requested
with capacity 1 and stride 8, DATA section at offset 16 of a 32-byte stream:
the one write goes to offset 0 of the destination and stores 15 bytes, the
whole rest of the stream, so the bytes at offsets 8 to 14, outside the
element `[0, 8)`, are changed (to 25, ..., 31). -/
theorem read_data_frame_unset :
    (read_data sample_data_stream sample_variable_schema ⟨[[86, 32, 32, 32, 32, 32, 32, 32]]⟩
      [⟨fun _ => 0, fun _ => 0, 8, 1⟩] 16).map
      (fun r => (r.log.map (fun w => (w.req_idx, w.obj_idx, w.pos, w.bytes.length)),
        mem_after (fun _ => 0) 0 0 r.log 8, mem_after (fun _ => 0) 0 0 r.log 14)) =
      .ok ([(0, 0, 0, 15)], 25, 31) := by
  decide

/-- The frame of the decoder. Every write of a successful `read_data` serves a
request `j` of the query and an object index `i < min(object count,
capacity_j)`, goes to byte offset `stride_j × i` of the buffer of that request
(the second buffer only for a Double property), and has at most the width the
decoder computed for the property: the data-type width for a Fixed property,
the size `bytes_to_read` for the phase count in force for a Variable one. A
destination byte outside these ranges keeps
its value. `read_data` fails only with `InvalidReadRequest` or
`MissingProperty`, and then before any read into a destination; the
description is an argument the function does not change. -/
theorem read_data_frame (s : FILE) (desc : mf_arrays) (query : mf_sum_block_query)
    (data : List mf_data) (offset : Int) :
    (∀ r, read_data s desc query data offset = .ok r →
      (∀ w ∈ r.log, w.req_idx < query.names.length ∧
        (w.obj_idx : Int) < min desc.num_objects (data.getD w.req_idx default).count ∧
        w.pos = (data.getD w.req_idx default).stride * w.obj_idx ∧ w.half ≤ 1 ∧
        ∃ p ph, desc.properties[w.prop_idx]? = some p ∧
          (w.half = 1 → p.output_mode = .MF_DOUBLE) ∧
          (ph = -1 ∨ (1 ≤ ph ∧ ph ≤ 127)) ∧ w.bytes.length ≤ bytes_to_read p ph ∧
          (p.phase_state = .MF_STATE0 → w.bytes.length ≤ elem_size p.data_type)) ∧
      (∀ (mem : Nat → Nat) (req half a : Nat),
        (∀ w ∈ r.log, w.req_idx = req → w.half = half →
          ¬ (w.pos ≤ a ∧ a < w.pos + w.bytes.length)) →
        mem_after mem req half r.log a = mem a)) ∧
    (∀ e, read_data s desc query data offset = .error e →
      e = .status .MF_ERROR_INVALID_READ_REQUEST ∨ e = .status .MF_ERROR_MISSING_PROPERTY) := by
  constructor
  · intro r h
    refine ⟨?_, fun mem req half a => mem_after_frame r.log mem req half a⟩
    unfold read_data at h
    split at h
    · cases h
    · split at h
      · simp only [Except.ok.injEq] at h
        subst h
        intro w hw
        simp at hw
      · split at h
        · cases h
        · rename_i ri mc hres
          simp only [Except.ok.injEq] at h
          subst h
          intro w hw
          obtain ⟨_, h2, p, hp, hok⟩ := read_objects_writes desc data ri _ _ 0 _ w hw
          obtain ⟨h0, hreq, hcnt, _, _, hpos, hhalf, hdbl, ph, hph, hlen⟩ := hok
          have hrange := resolve_requests_range desc.properties data query.names 0 _ 0 ri mc
            hres w.prop_idx
          rw [getD_replicate_neg] at hrange
          have hK : clamp_max_count desc mc ≤ desc.num_objects := by
            unfold clamp_max_count; split <;> omega
          rw [hreq]
          have hfix : p.phase_state = .MF_STATE0 → w.bytes.length ≤ elem_size p.data_type := by
            intro hs
            have : bytes_to_read p ph = elem_size p.data_type := by
              unfold bytes_to_read
              rw [hs]
              rfl
            rw [← this]
            exact hlen
          refine ⟨?_, ?_, hpos, hhalf, p, ph, hp, hdbl, hph, hlen, hfix⟩
          · rcases hrange with hr | hr
            · omega
            · simp only [Nat.zero_add] at hr
              omega
          · simp only [lt_min_iff]
            exact ⟨by omega, hcnt⟩
  · intro e h
    unfold read_data at h
    split at h
    · simp only [Except.error.injEq] at h
      exact Or.inl h.symm
    · split at h
      · cases h
      · split at h
        · rename_i e2 hres
          simp only [Except.error.injEq] at h
          subst h
          exact Or.inr (resolve_requests_error _ _ _ _ _ _ _ hres)
        · cases h

/-- Claim C19 fails where no phase count is in force and where the stream ends
inside a value. For the Variable REAL8 property `V` with the phase count −1
in force, the cursor at 17 of a 32-byte stream: requested, the read takes the
rest of the stream and leaves the cursor at 32; skipped, the seek moves it
back to 9; in neither case by 8 times a phase count of at least 1. For the
INT4 property `A` on a stream of two bytes: requested, the cursor ends at 2;
skipped, at 4. -/
theorem read_property_width_unset :
    (read_property [⟨fun _ => 0, fun _ => 0, 8, 1⟩] (-1) 0 1
      ⟨[86, 32, 32, 32, 32, 32, 32, 32], [], .MF_REAL8, .MF_SINGLE, .MF_STATE1⟩ 0
      ⟨List.range 32, 17, false⟩ (-1)).1.pos = 32 ∧
    (read_property [⟨fun _ => 0, fun _ => 0, 8, 1⟩] (-1) 0 1
      ⟨[86, 32, 32, 32, 32, 32, 32, 32], [], .MF_REAL8, .MF_SINGLE, .MF_STATE1⟩ (-1)
      ⟨List.range 32, 17, false⟩ (-1)).1.pos = 9 ∧
    (read_property [⟨fun _ => 0, fun _ => 0, 4, 1⟩] (-1) 0 0
      ⟨[65, 32, 32, 32, 32, 32, 32, 32], [], .MF_INT4, .MF_SINGLE, .MF_STATE0⟩ 0
      ⟨[1, 2], 0, false⟩ (-1)).1.pos = 2 ∧
    (read_property [⟨fun _ => 0, fun _ => 0, 4, 1⟩] (-1) 0 0
      ⟨[65, 32, 32, 32, 32, 32, 32, 32], [], .MF_INT4, .MF_SINGLE, .MF_STATE0⟩ (-1)
      ⟨[1, 2], 0, false⟩ (-1)).1.pos = 4 := by
  decide

/-- The per-property width. For a property whose value lies inside the
stream, `read_data` leaves the cursor the same number of bytes further whether
the property is requested or skipped: the data-type width (1, 2, 4, 4, 8, 4, 8
for INT1, INT2, INT4, REAL4, REAL8, CHAR4, CHAR8), times 2 for a Double
property, times the phase count in force (at least 1) for a Variable property.
A requested Single value is stored at `stride × obj_idx`; a requested Double
value is stored as two halves of that width at this same offset of the two
buffers. -/
theorem read_property_width (data : List mf_data) (phst_idx : Int) (obj_idx prop_idx : Nat)
    (p : mf_property) (req_idx : Int) (s : FILE) (phst : Int)
    (hmax : (s.bytes.length : Int) ≤ LONG_MAX)
    (hph : phst = -1 ∨ (1 ≤ phst ∧ phst ≤ 127))
    (hfit : s.pos + bytes_to_skip p (phst_at s.bytes phst_idx prop_idx s.pos phst)
      ≤ s.bytes.length) :
    ∃ (ph : Int) (w : Nat), ph = phst_at s.bytes phst_idx prop_idx s.pos phst ∧
      w = elem_size p.data_type * (if p.phase_state = .MF_STATE1 then ph.toNat else 1) ∧
      (p.phase_state = .MF_STATE1 → 1 ≤ ph) ∧
      (∀ r : Int, (read_property data phst_idx obj_idx prop_idx p r s phst).1.pos =
        s.pos + (if p.output_mode = .MF_DOUBLE then 2 * w else w)) ∧
      (read_property data phst_idx obj_idx prop_idx p req_idx s phst).2.2 =
        (if req_idx < 0 ∨ (obj_idx : Int) ≥ (data.getD req_idx.toNat default).count then []
        else if p.output_mode = .MF_DOUBLE then
          [⟨req_idx.toNat, prop_idx, obj_idx, 0,
              (data.getD req_idx.toNat default).stride * obj_idx, (s.bytes.drop s.pos).take w⟩,
           ⟨req_idx.toNat, prop_idx, obj_idx, 1,
              (data.getD req_idx.toNat default).stride * obj_idx,
              (s.bytes.drop (s.pos + w)).take w⟩]
        else
          [⟨req_idx.toNat, prop_idx, obj_idx, 0,
              (data.getD req_idx.toNat default).stride * obj_idx,
              (s.bytes.drop s.pos).take w⟩]) ∧
      (elem_size .MF_INT1 = 1 ∧ elem_size .MF_INT2 = 2 ∧ elem_size .MF_INT4 = 4 ∧
        elem_size .MF_REAL4 = 4 ∧ elem_size .MF_REAL8 = 8 ∧ elem_size .MF_CHAR4 = 4 ∧
        elem_size .MF_CHAR8 = 8) := by
  have hph2 := phst_at_range s.bytes phst_idx prop_idx s.pos phst hph
  have hw : bytes_to_skip p (phst_at s.bytes phst_idx prop_idx s.pos phst) <
      9223372036854775808 := by
    simp only [LONG_MAX] at hmax
    omega
  obtain ⟨_, _, hskip⟩ := width_facts p _ hph2 hw
  obtain ⟨h1, hread⟩ := bytes_to_read_eq p _ hph2 hw
  refine ⟨_, _, rfl, rfl, h1, ?_, ?_, rfl, rfl, rfl, rfl, rfl, rfl, rfl⟩
  · intro r
    rw [(read_property_complete data phst_idx obj_idx prop_idx p r s phst hmax hph hfit).2.1,
      hskip, hread]
  · rw [(read_property_complete data phst_idx obj_idx prop_idx p req_idx s phst hmax hph
      hfit).2.2.2]
    unfold prop_events
    rw [hread]

theorem read_property_width_witness :
    ∃ (ph : Int) (w : Nat), ph = phst_at sample_data_stream.bytes 0 1 sample_data_stream.pos 3 ∧
      w = elem_size mf_data_type.MF_REAL4 *
        (if mf_phase_state.MF_STATE1 = .MF_STATE1 then ph.toNat else 1) ∧
      (mf_phase_state.MF_STATE1 = .MF_STATE1 → 1 ≤ ph) ∧
      (∀ r : Int, (read_property [⟨fun _ => 0, fun _ => 0, 16, 5⟩] 0 2 1
          ⟨[], [], .MF_REAL4, .MF_DOUBLE, .MF_STATE1⟩ r sample_data_stream 3).1.pos =
        sample_data_stream.pos + (if mf_output_mode.MF_DOUBLE = .MF_DOUBLE then 2 * w else w)) ∧
      (read_property [⟨fun _ => 0, fun _ => 0, 16, 5⟩] 0 2 1
          ⟨[], [], .MF_REAL4, .MF_DOUBLE, .MF_STATE1⟩ 0 sample_data_stream 3).2.2 =
        (if (0 : Int) < 0 ∨ ((2 : Nat) : Int) ≥
            (([⟨fun _ => 0, fun _ => 0, 16, 5⟩] : List mf_data).getD (0 : Int).toNat
              default).count then []
        else if mf_output_mode.MF_DOUBLE = .MF_DOUBLE then
          [⟨(0 : Int).toNat, 1, 2, 0,
              (([⟨fun _ => 0, fun _ => 0, 16, 5⟩] : List mf_data).getD (0 : Int).toNat
                default).stride * 2,
              (sample_data_stream.bytes.drop sample_data_stream.pos).take w⟩,
           ⟨(0 : Int).toNat, 1, 2, 1,
              (([⟨fun _ => 0, fun _ => 0, 16, 5⟩] : List mf_data).getD (0 : Int).toNat
                default).stride * 2,
              (sample_data_stream.bytes.drop (sample_data_stream.pos + w)).take w⟩]
        else
          [⟨(0 : Int).toNat, 1, 2, 0,
              (([⟨fun _ => 0, fun _ => 0, 16, 5⟩] : List mf_data).getD (0 : Int).toNat
                default).stride * 2,
              (sample_data_stream.bytes.drop sample_data_stream.pos).take w⟩]) ∧
      (elem_size .MF_INT1 = 1 ∧ elem_size .MF_INT2 = 2 ∧ elem_size .MF_INT4 = 4 ∧
        elem_size .MF_REAL4 = 4 ∧ elem_size .MF_REAL8 = 8 ∧ elem_size .MF_CHAR4 = 4 ∧
        elem_size .MF_CHAR8 = 8) :=
  read_property_width [⟨fun _ => 0, fun _ => 0, 16, 5⟩] 0 2 1
    ⟨[], [], .MF_REAL4, .MF_DOUBLE, .MF_STATE1⟩ 0 sample_data_stream 3 (by decide) (by decide)
    (by decide)

/-! ## The encoder -/

theorem descriptor_of_wf (p : mf_property) (hn : 8 ≤ p.name.length)
    (hd : 8 ≤ p.dimension.length) : (descriptor_of p).wf := by
  refine ⟨by simp [descriptor_of, hn], by simp [descriptor_of, hd], by simp [descriptor_of], ?_⟩
  intro t ht
  obtain ⟨nm, dm, dt, om, ps⟩ := p
  simp only [descriptor_of, List.mem_cons, List.mem_singleton, List.not_mem_nil, or_false] at ht
  rcases ht with rfl | rfl | rfl
  · cases dt <;> decide
  · cases om <;> decide
  · cases ps <;> decide

theorem descriptor_of_property (p : mf_property) (hn : p.name.length = 8)
    (hd : p.dimension.length = 8) : (descriptor_of p).property = p := by
  obtain ⟨nm, dm, dt, om, ps⟩ := p
  simp only at hn hd
  simp only [descriptor_of, descriptor.property, List.take_of_length_le (Nat.le_of_eq hn),
    List.take_of_length_le (Nat.le_of_eq hd)]
  cases dt <;> cases om <;> cases ps <;> rfl

theorem descriptor_of_bytes (p : mf_property) :
    (descriptor_of p).bytes = write_property p := by
  simp only [descriptor_of, descriptor.bytes, write_property, List.flatten_cons,
    List.flatten_nil, List.append_nil, List.append_assoc]

theorem write_property_length (p : mf_property) (hn : 8 ≤ p.name.length)
    (hd : 8 ≤ p.dimension.length) : (write_property p).length = 48 := by
  rw [← descriptor_of_bytes, descriptor_bytes_length _ (descriptor_of_wf p hn hd)]
  rfl

theorem write_properties_length : ∀ (props : List mf_property),
    (∀ p ∈ props, 8 ≤ p.name.length ∧ 8 ≤ p.dimension.length) →
    ((props.map write_property).flatten).length = 48 * props.length := by
  intro props
  induction props with
  | nil => intro _; rfl
  | cons p ps ih =>
    intro h
    have hp := h p (List.mem_cons_self _ _)
    simp only [List.map_cons, List.flatten_cons, List.length_append, List.length_cons,
      write_property_length p hp.1 hp.2, ih (fun q hq => h q (List.mem_cons_of_mem _ hq))]
    omega

theorem read_mem_length (mem : Nat → Nat) (pos n : Nat) : (read_mem mem pos n).length = n := by
  simp [read_mem]

theorem write_value_length (p : mf_property) (d : mf_data) (obj_idx : Nat) :
    (write_value p d obj_idx).length = value_width p := by
  unfold write_value value_width
  split <;> simp [read_mem_length]

theorem write_object_length (data : List mf_data) (obj_idx : Nat) :
    ∀ (props : List mf_property) (prop_idx : Nat),
    (write_object data obj_idx props prop_idx).length = object_width props := by
  intro props
  induction props with
  | nil => intro _; rfl
  | cons p ps ih =>
    intro prop_idx
    simp only [write_object, List.length_append, write_value_length, ih, object_width,
      List.map_cons, List.sum_cons]

theorem write_objects_length (arr : mf_arrays) (data : List mf_data) :
    ∀ (n obj_idx : Nat),
    (write_objects arr data n obj_idx).length = n * object_width arr.properties := by
  intro n
  induction n with
  | zero => intro _; simp [write_objects]
  | succ n ih =>
    intro obj_idx
    simp only [write_objects, List.length_append, write_object_length, ih]
    rw [Nat.succ_mul]
    omega

theorem declared_fold (n : Int) : ∀ (props : List mf_property) (acc : Int),
    (∀ p ∈ props, -2147483648 ≤ n * (value_width p : Int) ∧
      n * (value_width p : Int) < 2147483648) →
    props.foldl
      (fun acc p =>
        if p.output_mode = .MF_SINGLE then
          acc + wrap32 (n * (elem_size p.data_type : Int))
        else acc + wrap32 (wrap32 (n * (elem_size p.data_type : Int)) * 2))
      acc = acc + n * (object_width props : Int) := by
  intro props
  induction props with
  | nil => intro acc _; simp [object_width]
  | cons p ps ih =>
    intro acc h
    have hp := h p (List.mem_cons_self _ _)
    rw [List.foldl_cons, ih _ (fun q hq => h q (List.mem_cons_of_mem _ hq))]
    simp only [object_width, List.map_cons, List.sum_cons]
    unfold value_width at hp ⊢
    have hes : 1 ≤ elem_size p.data_type := by cases p.data_type <;> decide
    split
    · rename_i hs
      rw [if_pos hs] at hp
      rw [wrap32_of_range hp.1 hp.2]
      push_cast
      ring
    · rename_i hs
      rw [if_neg hs] at hp
      push_cast at hp
      have h1 : -2147483648 ≤ n * (elem_size p.data_type : Int) ∧
          n * (elem_size p.data_type : Int) < 2147483648 := by
        constructor <;> nlinarith
      rw [wrap32_of_range h1.1 h1.2, wrap32_of_range (by linarith) (by linarith)]
      push_cast
      ring

/-- The declared DATA length when no product overflows: object count × bytes
written per object. -/
theorem declared_data_size_fit (arr : mf_arrays)
    (hfit : ∀ p ∈ arr.properties, -2147483648 ≤ arr.num_objects * (value_width p : Int) ∧
      arr.num_objects * (value_width p : Int) < 2147483648) :
    declared_data_size arr = arr.num_objects * (object_width arr.properties : Int) := by
  unfold declared_data_size
  rw [declared_fold arr.num_objects arr.properties 0 hfit, Int.zero_add]

theorem object_width_sum (n : Int) : ∀ props : List mf_property,
    n * (object_width props : Int) =
      (props.map (fun p => (elem_size p.data_type : Int) *
        (if p.output_mode = .MF_SINGLE then 1 else 2) * n)).sum := by
  intro props
  induction props with
  | nil => simp [object_width]
  | cons p ps ih =>
    have hw : object_width (p :: ps) = value_width p + object_width ps := rfl
    rw [hw, Nat.cast_add, mul_add, ih, List.map_cons, List.sum_cons]
    congr 1
    unfold value_width
    split <;> (push_cast; ring)

/-- The bytes `write_block` writes, with the appends nested to the right. -/
theorem write_block_layout (name : List Nat) (arr : mf_arrays) (data : List mf_data) :
    write_block name arr data =
      name.take 8 ++ (bytes_of_int64 (8 + 8 + (4 + 4 + arr.num_properties * 48) + (8 + 8) +
        declared_data_size arr + (8 + 8)) ++
      (MN_ARRAYS ++ (bytes_of_int64 (4 + 4 + arr.num_properties * 48) ++
      ((bytes_of_int32 arr.num_properties ++ (bytes_of_int32 arr.num_objects ++
        ((arr.properties.map write_property).flatten ++ []))) ++
      (MN_DATA ++ (bytes_of_int64 (declared_data_size arr) ++
      (write_objects arr data arr.num_objects.toNat 0 ++
      (MN_ENDDATA ++ bytes_of_int64 0)))))))) := by
  simp only [write_block, List.append_assoc, List.append_nil]

/-- Claim C18, as amended (encoder declared data size). When, for every property,
object count × data-type width × arity fits in a signed 32-bit integer, the
DATA length `write_block` declares is the sum over the properties of data-type
width × arity (1 for Single, 2 for Double) × object count; the phase mode of a
property does not enter. -/
theorem declared_data_size_eq (arr : mf_arrays)
    (hfit : ∀ p ∈ arr.properties, -2147483648 ≤ arr.num_objects * (value_width p : Int) ∧
      arr.num_objects * (value_width p : Int) < 2147483648) :
    declared_data_size arr =
      (arr.properties.map (fun p => (elem_size p.data_type : Int) *
        (if p.output_mode = .MF_SINGLE then 1 else 2) * arr.num_objects)).sum := by
  rw [declared_data_size_fit arr hfit, object_width_sum]

theorem declared_data_size_eq_witness :
    declared_data_size ⟨3, sample_descriptors.map descriptor.property⟩ =
      ((sample_descriptors.map descriptor.property).map
        (fun p => (elem_size p.data_type : Int) *
          (if p.output_mode = .MF_SINGLE then 1 else 2) * 3)).sum :=
  declared_data_size_eq ⟨3, sample_descriptors.map descriptor.property⟩ (by decide)

/-- Claim C18 as stated fails for a Variable property: for one REAL8, Single,
Variable property and one object, `write_block` declares a DATA length of 8,
not 8 × 1 × 2 × 1 = 16. -/
theorem declared_data_size_variable :
    declared_data_size
      ⟨1, [⟨[86, 32, 32, 32, 32, 32, 32, 32], [], .MF_REAL8, .MF_SINGLE, .MF_STATE1⟩]⟩ = 8 ∧
    spec_data_size
      ⟨1, [⟨[86, 32, 32, 32, 32, 32, 32, 32], [], .MF_REAL8, .MF_SINGLE, .MF_STATE1⟩]⟩ = 16 := by
  decide

/-- Claim C26 (encoder length fields frame what is written). For a schema of `n`
properties (names and units of eight bytes), an object count that is not
negative and for which object count × data-type width × arity fits in a
signed 32-bit integer for every property, the bytes `write_block` writes are:
the block header with a length field, the ARRAYS header, a property table of
8 + 48n bytes whose length is the ARRAYS length field, the DATA header, a
payload whose length is the DATA length field, and the 16-byte trailer; the
length field of the block is 16 + ARRAYS length + 16 + DATA length + 16, the
number of bytes after the block header. -/
theorem write_block_lengths (name : List Nat) (arr : mf_arrays) (data : List mf_data)
    (hname : 8 ≤ name.length)
    (hprops : ∀ p ∈ arr.properties, 8 ≤ p.name.length ∧ 8 ≤ p.dimension.length)
    (h0 : 0 ≤ arr.num_objects)
    (hfit : ∀ p ∈ arr.properties, arr.num_objects * (value_width p : Int) < 2147483648) :
    ∃ table payload trailer after : List Nat,
      write_block name arr data = name.take 8 ++ (bytes_of_int64 (after.length : Int) ++ after) ∧
      after = MN_ARRAYS ++ (bytes_of_int64 (table.length : Int) ++ (table ++
        (MN_DATA ++ (bytes_of_int64 (payload.length : Int) ++ (payload ++ trailer))))) ∧
      (name.take 8).length = 8 ∧
      table.length = 8 + 48 * arr.properties.length ∧
      payload = write_objects arr data arr.num_objects.toNat 0 ∧
      trailer = MN_ENDDATA ++ bytes_of_int64 0 ∧
      after.length = 16 + table.length + 16 + payload.length + 16 := by
  have hfit2 : ∀ p ∈ arr.properties, -2147483648 ≤ arr.num_objects * (value_width p : Int) ∧
      arr.num_objects * (value_width p : Int) < 2147483648 := by
    intro p hp
    refine ⟨?_, hfit p hp⟩
    have : 0 ≤ arr.num_objects * (value_width p : Int) :=
      Int.mul_nonneg h0 (Int.natCast_nonneg _)
    omega
  have hD := declared_data_size_fit arr hfit2
  have htab : (bytes_of_int32 arr.num_properties ++ (bytes_of_int32 arr.num_objects ++
      ((arr.properties.map write_property).flatten ++ []))).length =
      8 + 48 * arr.properties.length := by
    simp only [List.length_append, bytes_of_int32_length, List.length_nil,
      write_properties_length arr.properties hprops]
    omega
  have hpay : ((write_objects arr data arr.num_objects.toNat 0).length : Int) =
      declared_data_size arr := by
    rw [write_objects_length, hD]
    push_cast
    rw [Int.toNat_of_nonneg h0]
  have hA : (4 + 4 + arr.num_properties * 48 : Int) =
      ((bytes_of_int32 arr.num_properties ++ (bytes_of_int32 arr.num_objects ++
        ((arr.properties.map write_property).flatten ++ []))).length : Int) := by
    rw [htab]
    simp only [mf_arrays.num_properties]
    push_cast
    omega
  refine ⟨_, _, _, _, ?_, rfl, by rw [List.length_take]; omega, htab, rfl, rfl, ?_⟩
  · rw [write_block_layout, hA, ← hpay]
    congr 2
    congr 1
    simp only [List.length_append, bytes_of_int64_length, htab]
    rw [show MN_ARRAYS.length = 8 from rfl, show MN_DATA.length = 8 from rfl,
      show MN_ENDDATA.length = 8 from rfl]
    push_cast
    omega
  · simp only [List.length_append, bytes_of_int64_length]
    rw [show MN_ARRAYS.length = 8 from rfl, show MN_DATA.length = 8 from rfl,
      show MN_ENDDATA.length = 8 from rfl]
    omega

theorem write_block_split (name : List Nat) (arr : mf_arrays) (data : List mf_data) :
    write_block name arr data =
      name.take 8 ++ (bytes_of_int64 (8 + 8 + (4 + 4 + arr.num_properties * 48) + (8 + 8) +
        declared_data_size arr + (8 + 8)) ++ write_block_body arr data) := by
  rw [write_block_layout]
  rfl

theorem write_block_table (arr : mf_arrays)
    (hprops : ∀ p ∈ arr.properties, 8 ≤ p.name.length ∧ 8 ≤ p.dimension.length) :
    (bytes_of_int32 arr.num_properties ++ (bytes_of_int32 arr.num_objects ++
      ((arr.properties.map write_property).flatten ++ []))) =
      arrays_payload arr.num_objects (arr.properties.map descriptor_of) [] ∧
    (4 + 4 + arr.num_properties * 48 : Int) =
      ((arrays_payload arr.num_objects (arr.properties.map descriptor_of) []).length : Int) := by
  have h1 : (bytes_of_int32 arr.num_properties ++ (bytes_of_int32 arr.num_objects ++
      ((arr.properties.map write_property).flatten ++ []))) =
      arrays_payload arr.num_objects (arr.properties.map descriptor_of) [] := by
    unfold arrays_payload mf_arrays.num_properties
    rw [List.length_map, List.map_map]
    congr 4
    apply List.map_congr_left
    intro p _
    exact (descriptor_of_bytes p).symm
  refine ⟨h1, ?_⟩
  rw [← h1]
  simp only [List.length_append, bytes_of_int32_length, List.length_nil,
    write_properties_length arr.properties hprops, mf_arrays.num_properties]
  push_cast
  omega

theorem write_block_body_eq (arr : mf_arrays) (data : List mf_data)
    (hprops : ∀ p ∈ arr.properties, 8 ≤ p.name.length ∧ 8 ≤ p.dimension.length) :
    write_block_body arr data = MN_ARRAYS ++
      (bytes_of_int64 (arrays_payload arr.num_objects (arr.properties.map descriptor_of) []).length
        ++ (arrays_payload arr.num_objects (arr.properties.map descriptor_of) [] ++
      (MN_DATA ++ (bytes_of_int64 (declared_data_size arr) ++
      (write_objects arr data arr.num_objects.toNat 0 ++
      (MN_ENDDATA ++ bytes_of_int64 0)))))) := by
  obtain ⟨h1, h2⟩ := write_block_table arr hprops
  unfold write_block_body
  rw [h1, h2]

theorem read_arrays_data_negative (s s3 : FILE) (header : header_t) (num_objects : Int)
    (props : List mf_property)
    (h : read_header s = .ok (s3, header)) (hn : header.name = MN_DATA)
    (hs : header.size < 0) :
    read_arrays_data s num_objects props = .error .assert_failed := by
  unfold read_arrays_data
  rw [h]
  dsimp only
  rw [if_neg (by rw [hn]; exact fun h => h rfl), if_pos hs]

theorem open_record_block_error {heap : Nat} (f : mf_sum_file) (s1 : FILE) (header : header_t)
    (k : block_kind) (e : Fault)
    (hn : header.name = k.mnemonic) (hr : read_arrays heap s1 = .error e) :
    open_record heap f s1 header = .error e := by
  unfold open_record
  rw [if_neg (by rw [hn]; exact kind_ne_time k), if_neg (by rw [hn]; exact kind_ne_date k), hn,
    block_of_mnemonic_kind]
  dsimp only
  rw [hr]

theorem sample_overflow_size : declared_data_size sample_overflow_schema = -2147483648 := by
  decide

theorem sample_overflow_names : ∀ p ∈ sample_overflow_schema.properties,
    8 ≤ p.name.length ∧ 8 ≤ p.dimension.length := by
  decide

theorem sample_overflow_body_length (data : List mf_data) :
    (write_block_body sample_overflow_schema data).length = 2147483752 := by
  unfold write_block_body
  simp only [List.length_append, bytes_of_int64_length, bytes_of_int32_length,
    write_objects_length, write_properties_length _ sample_overflow_names, List.length_nil]
  rfl

/-- The schema decoder on the records written for `sample_overflow_schema`: the
declared DATA length is negative and the assertion on it fails (with an
allocator that has no buffer for the 56-byte table, `assert(buf)` fails before
that). -/
theorem read_arrays_overflow {heap : Nat} (s : FILE) (data : List mf_data) (rest : List Nat)
    (h : s.bytes.drop s.pos = write_block_body sample_overflow_schema data ++ rest)
    (he : s.eof = false) (hmax : (s.bytes.length : Int) ≤ LONG_MAX) :
    read_arrays heap s = .error .assert_failed := by
  rw [write_block_body_eq _ _ sample_overflow_names, sample_overflow_size] at h
  simp only [List.append_assoc] at h
  rcases Nat.lt_or_ge heap (arrays_payload sample_overflow_schema.num_objects
      (sample_overflow_schema.properties.map descriptor_of) []).length with hb | hb
  · have hl := congrArg List.length h
    simp only [List.length_drop, List.length_append, bytes_of_int64_length] at hl
    simp only [LONG_MAX] at hmax
    have hh := read_header_rest s MN_ARRAYS _ _ h rfl (bytes_of_int64_length _) he
    rw [int64_of_bytes_of_int64 _ (by omega) (by omega)] at hh
    exact read_arrays_no_buffer s _ _ hh rfl (Int.ofNat_lt.mpr hb)
  have h1 := read_arrays_to_data s sample_overflow_schema.num_objects
    (sample_overflow_schema.properties.map descriptor_of) [] _ h he hmax hb (by decide)
    (by decide) (by decide) (by decide)
    (fun d hd => by
      obtain ⟨p, hp, rfl⟩ := List.mem_map.1 hd
      exact descriptor_of_wf p (sample_overflow_names p hp).1 (sample_overflow_names p hp).2)
  rw [h1]
  obtain ⟨P, hP⟩ : ∃ P, P = arrays_payload sample_overflow_schema.num_objects
      (sample_overflow_schema.properties.map descriptor_of) [] := ⟨_, rfl⟩
  rw [← hP] at h ⊢
  have h2 : s.bytes.drop s.pos = (MN_ARRAYS ++ bytes_of_int64 P.length) ++ (P ++
      (MN_DATA ++ (bytes_of_int64 (-2147483648) ++
        (write_objects sample_overflow_schema data sample_overflow_schema.num_objects.toNat 0 ++
          (MN_ENDDATA ++ (bytes_of_int64 0 ++ rest)))))) := by
    rw [h, List.append_assoc]
  have hr := advance_rest s (MN_ARRAYS ++ bytes_of_int64 P.length) P _ (16 + P.length) h2
    (by rw [List.length_append, bytes_of_int64_length]; rfl)
  have hh := read_header_rest _ MN_DATA (bytes_of_int64 (-2147483648)) _ hr rfl
    (bytes_of_int64_length _) rfl
  rw [int64_of_bytes_of_int64 _ (by decide) (by decide)] at hh
  exact read_arrays_data_negative _ _ _ _ _ hh rfl (by decide)

/-- Claim C27 fails when object count × data-type width overflows a signed 32-bit
integer. For the schema of one REAL8 property and `2^28` objects, whatever the
source data, `write_block` declares the DATA length `-2^31` (the product
`2^28 × 8` computed in `int`), and `read_arrays` on the ARRAYS and DATA records
it wrote stops on the failed assertion `header.size >= 0` instead of
returning the schema, whatever the allocator (one that has no buffer for the
table makes `assert(buf)` fail before that). -/
theorem read_arrays_write_block_overflow (heap : Nat) (data : List mf_data) :
    declared_data_size sample_overflow_schema = -2147483648 ∧
    read_arrays heap ⟨write_block_body sample_overflow_schema data, 0, false⟩ =
      .error .assert_failed := by
  refine ⟨sample_overflow_size, ?_⟩
  apply read_arrays_overflow _ data [] (by simp) rfl
  show ((write_block_body sample_overflow_schema data).length : Int) ≤ LONG_MAX
  rw [sample_overflow_body_length]
  decide

theorem sample_overflow_file (data : mf_sum_attachment) :
    mf_write_sum_file sample_overflow_description data =
      MN_BINARY ++ (bytes_of_int64 0 ++ (MN_CELLDATA ++
        (bytes_of_int64 (8 + 8 + (4 + 4 + sample_overflow_schema.num_properties * 48) + (8 + 8) +
          declared_data_size sample_overflow_schema + (8 + 8)) ++
        (write_block_body sample_overflow_schema data.celldata ++
          (MN_ENDFILE ++ bytes_of_int64 0))))) := by
  unfold mf_write_sum_file write_optional_block
  simp only [sample_overflow_description, mf_sum_description.block, mf_sum_attachment.block,
    block_kind.mnemonic, write_block_split, List.append_assoc, List.append_nil,
    List.nil_append]
  rfl

theorem mf_open_sum_file_binary {heap : Nat} (fuel : Nat) (bytes rest : List Nat)
    (h : bytes = MN_BINARY ++ (bytes_of_int64 0 ++ rest)) :
    mf_open_sum_file heap fuel bytes = open_loop heap fuel (initial_sum_file bytes) := by
  unfold mf_open_sum_file
  rw [read_file_format_binary bytes rest h]
  rfl

/-- Claim C1 fails when object count × data-type width overflows a signed 32-bit
integer. For a CELLDATA block of one REAL8, Single, Fixed property and `2^28`
objects, whatever the source data, the file `mf_write_sum_file` writes
declares the DATA length `-2^31`, and `mf_open_sum_file` on that file stops in
`read_arrays` on the failed assertion `header.size >= 0`: no file is opened
and nothing is decoded, whatever the allocator (one that has no buffer for the
table makes `assert(buf)` fail before that). -/
theorem round_trip_overflow (heap : Nat) (data : mf_sum_attachment) (fuel : Nat) :
    mf_open_sum_file heap (fuel + 1) (mf_write_sum_file sample_overflow_description data) =
      some (.error .assert_failed) := by
  rw [sample_overflow_file]
  generalize hB : MN_BINARY ++ (bytes_of_int64 0 ++ (MN_CELLDATA ++
        (bytes_of_int64 (8 + 8 + (4 + 4 + sample_overflow_schema.num_properties * 48) + (8 + 8) +
          declared_data_size sample_overflow_schema + (8 + 8)) ++
        (write_block_body sample_overflow_schema data.celldata ++
          (MN_ENDFILE ++ bytes_of_int64 0))))) = bytes
  have hlen : bytes.length = 2147483800 := by
    rw [← hB]
    simp only [List.length_append, bytes_of_int64_length, sample_overflow_body_length]
    rfl
  have h0 : (initial_sum_file bytes).stream.bytes.drop (initial_sum_file bytes).stream.pos =
      MN_CELLDATA ++ (bytes_of_int64 (8 + 8 + (4 + 4 + sample_overflow_schema.num_properties * 48)
          + (8 + 8) + declared_data_size sample_overflow_schema + (8 + 8)) ++
        (write_block_body sample_overflow_schema data.celldata ++
          (MN_ENDFILE ++ bytes_of_int64 0))) := by
    have : bytes = (MN_BINARY ++ bytes_of_int64 0) ++ (MN_CELLDATA ++
        (bytes_of_int64 (8 + 8 + (4 + 4 + sample_overflow_schema.num_properties * 48) + (8 + 8) +
          declared_data_size sample_overflow_schema + (8 + 8)) ++
        (write_block_body sample_overflow_schema data.celldata ++
          (MN_ENDFILE ++ bytes_of_int64 0)))) := by
      rw [← hB, List.append_assoc]
    simp only [initial_sum_file]
    rw [this, show 16 = (MN_BINARY ++ bytes_of_int64 0).length from rfl, List.drop_left]
  have hh := read_header_rest (initial_sum_file bytes).stream MN_CELLDATA _ _ h0 rfl
    (bytes_of_int64_length _) rfl
  have hr1 := advance_rest (initial_sum_file bytes).stream MN_CELLDATA _ _ 16 h0
    (by rw [bytes_of_int64_length]; rfl)
  have hra := @read_arrays_overflow heap _ data.celldata _ hr1 rfl (by
    show ((bytes.length : Nat) : Int) ≤ LONG_MAX
    rw [hlen]
    decide)
  have hopen := @mf_open_sum_file_binary heap (fuel + 1) bytes _ hB.symm
  rw [hopen]
  exact open_loop_record_error fuel _ _ _ _ rfl hh
    (open_record_block_error _ _ _ .celldata _ rfl hra)


theorem write_block_lengths_witness :
    ∃ table payload trailer after : List Nat,
      write_block MN_CELLDATA sample_schema [] =
        MN_CELLDATA.take 8 ++ (bytes_of_int64 (after.length : Int) ++ after) ∧
      after = MN_ARRAYS ++ (bytes_of_int64 (table.length : Int) ++ (table ++
        (MN_DATA ++ (bytes_of_int64 (payload.length : Int) ++ (payload ++ trailer))))) ∧
      (MN_CELLDATA.take 8).length = 8 ∧
      table.length = 8 + 48 * sample_schema.properties.length ∧
      payload = write_objects sample_schema [] sample_schema.num_objects.toNat 0 ∧
      trailer = MN_ENDDATA ++ bytes_of_int64 0 ∧
      after.length = 16 + table.length + 16 + payload.length + 16 :=
  write_block_lengths MN_CELLDATA sample_schema [] (by decide) (by decide) (by decide)
    (by decide)

theorem read_data_end (s : FILE) (desc : mf_arrays) (query : mf_sum_block_query)
    (data : List mf_data) (offset : Nat) (r : rd_result) (e : Nat)
    (h : read_data s desc query data (offset : Int) = .ok r) (hne : query.names ≠ [])
    (hmax : (s.bytes.length : Int) ≤ LONG_MAX)
    (he : objects_in_stream s.bytes desc.properties (find_phst desc.properties 0 (-1))
      r.objects offset = some e) :
    r.stream.bytes = s.bytes ∧ r.stream.pos = e := by
  have hseek : fseek_set s (offset : Int) = ⟨s.bytes, offset, false⟩ := by
    simp [fseek_set]
  unfold read_data at h
  split at h
  · cases h
  · split at h
    · rename_i hz
      exfalso
      apply hne
      simp only [mf_sum_block_query.num_items] at hz
      exact List.length_eq_zero.1 (by exact_mod_cast hz)
    · split at h
      · cases h
      · rename_i ri mc hres
        simp only [Except.ok.injEq] at h
        subst h
        simp only at he ⊢
        rw [hseek]
        obtain ⟨c1, c2, _⟩ := read_objects_complete desc data ri (find_phst desc.properties 0 (-1))
          (clamp_max_count desc mc).toNat 0 ⟨s.bytes, offset, false⟩ e hmax he
        exact ⟨c1, c2⟩

theorem bytes_to_skip_fixed (p : mf_property) (ph : Int) (h : p.phase_state = .MF_STATE0) :
    bytes_to_skip p ph = value_width p := by
  obtain ⟨nm, dm, dt, om, ps⟩ := p
  simp only at h
  subst h
  cases dt <;> cases om <;> rfl

theorem props_in_stream_fixed (bytes : List Nat) (phst_idx : Int) :
    ∀ (props : List mf_property) (prop_idx pos : Nat) (phst : Int),
    (∀ p ∈ props, p.phase_state = .MF_STATE0) → pos + object_width props ≤ bytes.length →
    props_in_stream bytes phst_idx props prop_idx pos phst = some (pos + object_width props) := by
  intro props
  induction props with
  | nil => intro _ pos _ _ _; simp [props_in_stream, object_width]
  | cons p ps ih =>
    intro prop_idx pos phst hf hfit
    have hw : object_width (p :: ps) = value_width p + object_width ps := rfl
    rw [hw] at hfit ⊢
    rw [props_in_stream, bytes_to_skip_fixed p _ (hf p (List.mem_cons_self _ _)),
      if_pos (by omega), ih _ _ _ (fun q hq => hf q (List.mem_cons_of_mem _ hq)) (by omega)]
    congr 1
    omega

theorem objects_in_stream_fixed (bytes : List Nat) (props : List mf_property) (phst_idx : Int)
    (hf : ∀ p ∈ props, p.phase_state = .MF_STATE0) : ∀ (n pos : Nat),
    pos + n * object_width props ≤ bytes.length →
    objects_in_stream bytes props phst_idx n pos = some (pos + n * object_width props) := by
  intro n
  induction n with
  | zero => intro pos _; simp [objects_in_stream]
  | succ n ih =>
    intro pos hfit
    rw [Nat.succ_mul] at hfit ⊢
    rw [objects_in_stream, props_in_stream_fixed bytes phst_idx props 0 pos (-1) hf (by omega)]
    dsimp only
    rw [ih _ (by omega)]
    congr 1
    omega

theorem write_block_length (name : List Nat) (arr : mf_arrays) (data : List mf_data)
    (hname : 8 ≤ name.length)
    (hprops : ∀ p ∈ arr.properties, 8 ≤ p.name.length ∧ 8 ≤ p.dimension.length) :
    (write_block name arr data).length =
      48 + (8 + 48 * arr.properties.length) +
        (arr.num_objects.toNat * object_width arr.properties + 16) := by
  rw [write_block_layout]
  simp only [List.length_append, bytes_of_int64_length, bytes_of_int32_length, List.length_nil,
    write_properties_length arr.properties hprops, write_objects_length, List.length_take]
  rw [show MN_ARRAYS.length = 8 from rfl, show MN_DATA.length = 8 from rfl,
    show MN_ENDDATA.length = 8 from rfl]
  omega

/-- Claim C21, as amended (DATA length invariant on encoder output). For a block
`write_block` produces from a schema whose properties are all Fixed (names and
units of eight bytes, an object count that is not negative and for which
object count × data-type width × arity fits in a signed 32-bit integer), the
declared DATA length is the number of payload bytes written, object count ×
the per-object width, and a decode of a non-empty query of pairwise distinct
existing names with a capacity of at least the object count goes through all
the objects and ends at offset + declared length. -/
theorem read_data_written_fixed (pre post name : List Nat) (arr : mf_arrays)
    (data dst : List mf_data) (query : mf_sum_block_query) (pos0 : Nat) (eof0 : Bool)
    (hname : 8 ≤ name.length)
    (hprops : ∀ p ∈ arr.properties, 8 ≤ p.name.length ∧ 8 ≤ p.dimension.length)
    (hfixed : ∀ p ∈ arr.properties, p.phase_state = .MF_STATE0)
    (h0 : 0 ≤ arr.num_objects)
    (hfit : ∀ p ∈ arr.properties, arr.num_objects * (value_width p : Int) < 2147483648)
    (hne : query.names ≠ [])
    (hex : ∀ name ∈ query.names, (find_property name arr.properties 0).isSome = true)
    (hnd : (query.names.map (List.take 8)).Nodup)
    (hlen : dst.length = query.names.length)
    (hcap : arr.num_objects ≤ max_capacity dst)
    (hmax : ((pre ++ (write_block name arr data ++ post)).length : Int) ≤ LONG_MAX) :
    ∃ r, read_data ⟨pre ++ (write_block name arr data ++ post), pos0, eof0⟩ arr query dst
        ((pre.length + (48 + (8 + 48 * arr.properties.length)) : Nat) : Int) = .ok r ∧
      r.objects = arr.num_objects.toNat ∧
      ((write_objects arr data arr.num_objects.toNat 0).length : Int) = declared_data_size arr ∧
      declared_data_size arr = arr.num_objects * (object_width arr.properties : Int) ∧
      r.stream.pos = pre.length + (48 + (8 + 48 * arr.properties.length)) +
        (declared_data_size arr).toNat := by
  have hfit2 : ∀ p ∈ arr.properties, -2147483648 ≤ arr.num_objects * (value_width p : Int) ∧
      arr.num_objects * (value_width p : Int) < 2147483648 := by
    intro p hp
    refine ⟨?_, hfit p hp⟩
    have : 0 ≤ arr.num_objects * (value_width p : Int) :=
      Int.mul_nonneg h0 (Int.natCast_nonneg _)
    omega
  have hD := declared_data_size_fit arr hfit2
  have hpay : ((write_objects arr data arr.num_objects.toNat 0).length : Int) =
      declared_data_size arr := by
    rw [write_objects_length, hD]
    push_cast
    rw [Int.toNat_of_nonneg h0]
  have hDn : (declared_data_size arr).toNat =
      arr.num_objects.toNat * object_width arr.properties := by
    rw [← hpay, Int.toNat_ofNat, write_objects_length]
  have hL : (pre ++ (write_block name arr data ++ post)).length =
      pre.length + (48 + (8 + 48 * arr.properties.length) +
        (arr.num_objects.toNat * object_width arr.properties + 16) + post.length) := by
    simp only [List.length_append, write_block_length name arr data hname hprops]
  generalize hB : pre ++ (write_block name arr data ++ post) = bytes at *
  have hobj := objects_in_stream_fixed bytes arr.properties
    (find_phst arr.properties 0 (-1)) hfixed arr.num_objects.toNat
    (pre.length + (48 + (8 + 48 * arr.properties.length))) (by rw [hL]; omega)
  have hc : data_complete (⟨bytes, pos0, eof0⟩ : FILE).bytes arr
      (pre.length + (48 + (8 + 48 * arr.properties.length))) :=
    ⟨hmax, by rw [hobj]; rfl⟩
  obtain ⟨ri, r, hr, _, hk, _⟩ := read_data_canonical ⟨bytes, pos0, eof0⟩ arr query dst
    (pre.length + (48 + (8 + 48 * arr.properties.length))) hex hnd hlen hc
  have hk2 : r.objects = arr.num_objects.toNat := by
    rw [hk, min_eq_left hcap]
  have hend := read_data_end ⟨bytes, pos0, eof0⟩ arr query dst _ r _ hr hne hmax
    (by rw [hk2]; exact hobj)
  exact ⟨r, hr, hk2, hpay, hD, by rw [hend.2, hDn]⟩

set_option maxRecDepth 100000 in
theorem sample_fixed_fit :
    ((([7] : List Nat) ++ (write_block MN_CELLDATA sample_fixed_schema sample_fixed_source ++
      [9])).length : Int) ≤ LONG_MAX := by
  decide

theorem read_data_written_fixed_witness :
    ∃ r, read_data ⟨[7] ++ (write_block MN_CELLDATA sample_fixed_schema sample_fixed_source ++
          [9]), 0, false⟩ sample_fixed_schema ⟨[[66, 32, 32, 32, 32, 32, 32, 32]]⟩
        [⟨fun _ => 0, fun _ => 0, 4, 2⟩]
        ((([7] : List Nat).length + (48 + (8 + 48 * sample_fixed_schema.properties.length)) :
          Nat) : Int) = .ok r ∧
      r.objects = sample_fixed_schema.num_objects.toNat ∧
      ((write_objects sample_fixed_schema sample_fixed_source
        sample_fixed_schema.num_objects.toNat 0).length : Int) =
        declared_data_size sample_fixed_schema ∧
      declared_data_size sample_fixed_schema =
        sample_fixed_schema.num_objects * (object_width sample_fixed_schema.properties : Int) ∧
      r.stream.pos = ([7] : List Nat).length +
        (48 + (8 + 48 * sample_fixed_schema.properties.length)) +
        (declared_data_size sample_fixed_schema).toNat :=
  read_data_written_fixed [7] [9] MN_CELLDATA sample_fixed_schema sample_fixed_source
    [⟨fun _ => 0, fun _ => 0, 4, 2⟩] ⟨[[66, 32, 32, 32, 32, 32, 32, 32]]⟩ 0 false
    (by decide) (by decide) (by decide) (by decide) (by decide) (by decide) (by decide)
    (by decide) (by decide) (by decide) sample_fixed_fit

/-- Claim C21 as stated fails for a Variable property. Schema `[PHST (INT1, Fixed),
V (REAL8, Variable)]`, one object whose phase count is 2: `write_block` writes
9 payload bytes and declares the DATA length 9, the DATA section starting at
152; `read_data` with `V` requested derives a width of 1 + 16 for the object
and ends at 169, beyond offset + declared length = 161. -/
theorem read_data_written_variable :
    declared_data_size sample_phase_schema = 9 ∧
    (write_objects sample_phase_schema sample_phase_source 1 0).length = 9 ∧
    (read_data ⟨write_block MN_CELLDATA sample_phase_schema sample_phase_source, 0, false⟩
      sample_phase_schema ⟨[[86, 32, 32, 32, 32, 32, 32, 32]]⟩
      [⟨fun _ => 0, fun _ => 0, 16, 1⟩] 152).map (fun r => r.stream.pos) = .ok 169 := by
  decide

/-! ## Decoding what the encoder wrote -/

theorem mem_after_agree (req half a v : Nat) : ∀ (log : List dst_write) (mem : Nat → Nat),
    (∀ w ∈ log, w.req_idx = req → w.half = half → w.pos ≤ a → a < w.pos + w.bytes.length →
      w.bytes.getD (a - w.pos) 0 = v) →
    (mem a = v ∨ ∃ w ∈ log, w.req_idx = req ∧ w.half = half ∧ w.pos ≤ a ∧
      a < w.pos + w.bytes.length) →
    mem_after mem req half log a = v := by
  intro log
  induction log with
  | nil =>
    intro mem _ h
    rcases h with h | ⟨w, hw, _⟩
    · exact h
    · simp at hw
  | cons w ws ih =>
    intro mem hval h
    rw [mem_after]
    apply ih _ (fun x hx => hval x (List.mem_cons_of_mem _ hx))
    by_cases hc : w.req_idx = req ∧ w.half = half
    · rw [if_pos hc]
      by_cases hcov : w.pos ≤ a ∧ a < w.pos + w.bytes.length
      · left
        unfold store
        rw [if_pos hcov]
        exact hval w (List.mem_cons_self _ _) hc.1 hc.2 hcov.1 hcov.2
      · rcases h with h | ⟨x, hx, h1, h2, h3, h4⟩
        · left
          unfold store
          rw [if_neg hcov]
          exact h
        · rcases List.mem_cons.1 hx with rfl | hx
          · exact absurd ⟨h3, h4⟩ hcov
          · exact Or.inr ⟨x, hx, h1, h2, h3, h4⟩
    · rw [if_neg hc]
      rcases h with h | ⟨x, hx, h1, h2, h3, h4⟩
      · exact Or.inl h
      · rcases List.mem_cons.1 hx with rfl | hx
        · exact absurd ⟨h1, h2⟩ hc
        · exact Or.inr ⟨x, hx, h1, h2, h3, h4⟩

theorem bytes_to_read_fixed (p : mf_property) (ph : Int) (h : p.phase_state = .MF_STATE0) :
    bytes_to_read p ph = elem_size p.data_type := by
  unfold bytes_to_read
  rw [h]
  rfl

theorem write_value_single (p : mf_property) (d : mf_data) (obj_idx : Nat)
    (h : p.output_mode = .MF_SINGLE) :
    write_value p d obj_idx = read_mem d.bytes (obj_idx * d.stride) (elem_size p.data_type) := by
  unfold write_value
  rw [if_pos h]

theorem value_width_single (p : mf_property) (h : p.output_mode = .MF_SINGLE) :
    value_width p = elem_size p.data_type := by
  unfold value_width
  rw [if_pos h]

/-- The layout of one object that `write_block` wrote, seen by the decoder. -/
theorem props_events_written (src dst : List mf_data) (ri : List Int) (bytes : List Nat)
    (phst_idx : Int) (obj_idx : Nat) : ∀ (ps : List mf_property) (j pos : Nat) (phst : Int)
    (rest : List Nat),
    (∀ p ∈ ps, p.phase_state = .MF_STATE0 ∧ p.output_mode = .MF_SINGLE) →
    bytes.drop pos = write_object src obj_idx ps j ++ rest →
    (∀ q, j ≤ q → q < j + ps.length → ri.getD q (-1) = (q : Int)) →
    (∀ q, j ≤ q → q < j + ps.length → (obj_idx : Int) < (dst.getD q default).count) →
    props_events dst ri bytes phst_idx obj_idx ps j pos phst =
      expected_object src dst obj_idx ps j := by
  intro ps
  induction ps with
  | nil => intro _ _ _ _ _ _ _ _; rfl
  | cons p ps ih =>
    intro j pos phst rest hf hd hri hcnt
    obtain ⟨hs0, hsg⟩ := hf p (List.mem_cons_self _ _)
    simp only [write_object, List.append_assoc] at hd
    have hlen : (write_value p (src.getD j default) obj_idx).length = elem_size p.data_type := by
      rw [write_value_length, value_width_single p hsg]
    have hskip : ∀ ph, bytes_to_skip p ph = elem_size p.data_type := fun ph => by
      rw [bytes_to_skip_fixed p ph hs0, value_width_single p hsg]
    have hnext : bytes.drop (pos + elem_size p.data_type) =
        write_object src obj_idx ps (j + 1) ++ rest := by
      have := drop_add_rest bytes _ _ pos hd
      rw [hlen] at this
      exact this
    have htake : (bytes.drop pos).take (elem_size p.data_type) =
        read_mem (src.getD j default).bytes (obj_idx * (src.getD j default).stride)
          (elem_size p.data_type) := by
      rw [hd, List.take_left' hlen, write_value_single p _ _ hsg]
    have hrec := ih (j + 1) (pos + elem_size p.data_type)
      (phst_at bytes phst_idx j pos phst) rest
      (fun q hq => hf q (List.mem_cons_of_mem _ hq)) hnext
      (fun q h1 h2 => hri q (by omega) (by simp only [List.length_cons]; omega))
      (fun q h1 h2 => hcnt q (by omega) (by simp only [List.length_cons]; omega))
    have hrj := hri j (Nat.le_refl _) (by simp only [List.length_cons]; omega)
    have hcj := hcnt j (Nat.le_refl _) (by simp only [List.length_cons]; omega)
    rw [props_events, hskip, hrec, hrj]
    unfold prop_events
    simp only [Int.toNat_ofNat]
    rw [if_neg (by omega), if_neg (by rw [hsg]; decide), bytes_to_read_fixed p _ hs0, htake]
    rfl

theorem objects_events_written (src dst : List mf_data) (ri : List Int) (bytes : List Nat)
    (arr : mf_arrays) (phst_idx : Int)
    (hf : ∀ p ∈ arr.properties, p.phase_state = .MF_STATE0 ∧ p.output_mode = .MF_SINGLE)
    (hri : ∀ q, q < arr.properties.length → ri.getD q (-1) = (q : Int)) :
    ∀ (n obj_idx pos : Nat) (rest : List Nat),
    bytes.drop pos = write_objects arr src n obj_idx ++ rest → pos ≤ bytes.length →
    (∀ q, q < arr.properties.length → ((obj_idx + n : Nat) : Int) ≤ (dst.getD q default).count) →
    objects_events dst ri bytes arr.properties phst_idx n obj_idx pos =
      expected_objects src dst arr.properties n obj_idx := by
  intro n
  induction n with
  | zero => intro _ _ _ _ _ _; rfl
  | succ n ih =>
    intro obj_idx pos rest hd hple hcnt
    simp only [write_objects, List.append_assoc] at hd
    have hlen := write_object_length src obj_idx arr.properties 0
    have hL := congrArg List.length hd
    have hfix : ∀ p ∈ arr.properties, p.phase_state = .MF_STATE0 := fun p hp => (hf p hp).1
    have hP := props_events_written src dst ri bytes phst_idx obj_idx arr.properties 0 pos (-1)
      _ hf hd (fun q _ h2 => hri q (by omega))
      (fun q _ h2 => by have := hcnt q (by omega); push_cast at this; omega)
    have hpos : pos + object_width arr.properties ≤ bytes.length := by
      rw [List.length_drop, List.length_append, hlen] at hL
      omega
    have hin := props_in_stream_fixed bytes phst_idx arr.properties 0 pos (-1) hfix hpos
    have hnext : bytes.drop (pos + object_width arr.properties) =
        write_objects arr src n (obj_idx + 1) ++ rest := by
      have := drop_add_rest bytes _ _ pos hd
      rw [hlen] at this
      exact this
    rw [objects_events, hP, hin]
    simp only [Option.getD_some, expected_objects]
    rw [ih (obj_idx + 1) _ rest hnext hpos
      (fun q hq => by have := hcnt q hq; push_cast at this ⊢; omega)]

theorem expected_object_mem (src dst : List mf_data) (obj_idx : Nat) (w : dst_write) :
    ∀ (ps : List mf_property) (j0 : Nat),
    w ∈ expected_object src dst obj_idx ps j0 ↔
      ∃ j p, j0 ≤ j ∧ ps[j - j0]? = some p ∧
        w = ⟨j, j, obj_idx, 0, (dst.getD j default).stride * obj_idx,
          read_mem (src.getD j default).bytes (obj_idx * (src.getD j default).stride)
            (elem_size p.data_type)⟩ := by
  intro ps
  induction ps with
  | nil =>
    intro j0
    simp [expected_object]
  | cons q qs ih =>
    intro j0
    rw [expected_object, List.mem_cons, ih (j0 + 1)]
    constructor
    · rintro (h | ⟨j, p, h1, h2, h3⟩)
      · exact ⟨j0, q, Nat.le_refl _, by simp, h⟩
      · refine ⟨j, p, by omega, ?_, h3⟩
        rw [show j - j0 = (j - (j0 + 1)) + 1 by omega, List.getElem?_cons_succ]
        exact h2
    · rintro ⟨j, p, h1, h2, h3⟩
      by_cases hj : j = j0
      · left
        subst hj
        simp only [Nat.sub_self, List.getElem?_cons_zero, Option.some.injEq] at h2
        subst h2
        exact h3
      · right
        refine ⟨j, p, by omega, ?_, h3⟩
        rw [show j - j0 = (j - (j0 + 1)) + 1 by omega, List.getElem?_cons_succ] at h2
        exact h2

theorem expected_objects_mem (src dst : List mf_data) (props : List mf_property)
    (w : dst_write) : ∀ (n obj0 : Nat),
    w ∈ expected_objects src dst props n obj0 ↔
      ∃ i j p, obj0 ≤ i ∧ i < obj0 + n ∧ props[j]? = some p ∧
        w = ⟨j, j, i, 0, (dst.getD j default).stride * i,
          read_mem (src.getD j default).bytes (i * (src.getD j default).stride)
            (elem_size p.data_type)⟩ := by
  intro n
  induction n with
  | zero =>
    intro obj0
    simp only [expected_objects, List.not_mem_nil, false_iff]
    rintro ⟨i, _, _, h1, h2, _⟩
    omega
  | succ n ih =>
    intro obj0
    rw [expected_objects, List.mem_append, expected_object_mem, ih (obj0 + 1)]
    constructor
    · rintro (⟨j, p, _, h2, h3⟩ | ⟨i, j, p, h1, h2, h3, h4⟩)
      · exact ⟨obj0, j, p, Nat.le_refl _, by omega, by simpa using h2, h3⟩
      · exact ⟨i, j, p, by omega, by omega, h3, h4⟩
    · rintro ⟨i, j, p, h1, h2, h3, h4⟩
      by_cases hi : i = obj0
      · left
        subst hi
        exact ⟨j, p, Nat.zero_le _, by simpa using h3, h4⟩
      · right
        exact ⟨i, j, p, by omega, by omega, h3, h4⟩

theorem read_mem_getD (mem : Nat → Nat) (pos n k : Nat) (h : k < n) :
    (read_mem mem pos n).getD k 0 = mem (pos + k) := by
  unfold read_mem
  rw [List.getD_eq_getElem?_getD, List.getElem?_map, List.getElem?_range h]
  rfl

/-- The destination memory after the writes of a decode of what `write_block` wrote
from `src`: the bytes of the source buffer, over the `n` elements. -/
theorem expected_memory (src dst : List mf_data) (props : List mf_property) (n j : Nat)
    (p : mf_property) (hj : props[j]? = some p)
    (hs : (src.getD j default).stride = elem_size p.data_type)
    (hd : (dst.getD j default).stride = elem_size p.data_type)
    (mem : Nat → Nat) (a : Nat) (ha : a < n * elem_size p.data_type) :
    mem_after mem j 0 (expected_objects src dst props n 0) a = (src.getD j default).bytes a := by
  have hes : 0 < elem_size p.data_type := by cases p.data_type <;> decide
  apply mem_after_agree
  · intro w hw hreq _ hpos hlt
    obtain ⟨i, j2, p2, _, _, hp2, rfl⟩ := (expected_objects_mem src dst props w n 0).1 hw
    simp only at hreq hpos hlt ⊢
    subst hreq
    rw [hj] at hp2
    have := Option.some.inj hp2
    subst this
    rw [read_mem_length] at hlt
    rw [hd] at hpos hlt ⊢
    rw [hs, read_mem_getD _ _ _ _ (by omega)]
    congr 1
    rw [Nat.mul_comm i]
    omega
  · right
    refine ⟨⟨j, j, a / elem_size p.data_type, 0,
      (dst.getD j default).stride * (a / elem_size p.data_type),
      read_mem (src.getD j default).bytes
        (a / elem_size p.data_type * (src.getD j default).stride) (elem_size p.data_type)⟩,
      ?_, rfl, rfl, ?_, ?_⟩
    · rw [expected_objects_mem]
      refine ⟨a / elem_size p.data_type, j, p, Nat.zero_le _, ?_, hj, rfl⟩
      rw [Nat.zero_add]
      exact Nat.div_lt_of_lt_mul (by rw [Nat.mul_comm]; exact ha)
    · simp only
      rw [hd]
      exact Nat.mul_div_le a _
    · simp only
      rw [hd, read_mem_length]
      exact Nat.lt_mul_div_succ a hes

theorem write_celldata_file (arr : mf_arrays) (data : mf_sum_attachment) :
    mf_write_sum_file ⟨none, none, some arr, none, none, none, none⟩ data =
      MN_BINARY ++ (bytes_of_int64 0 ++ (MN_CELLDATA ++
        (bytes_of_int64 (8 + 8 + (4 + 4 + arr.num_properties * 48) + (8 + 8) +
          declared_data_size arr + (8 + 8)) ++
        (write_block_body arr data.celldata ++ (MN_ENDFILE ++ bytes_of_int64 0))))) := by
  unfold mf_write_sum_file write_optional_block
  simp only [mf_sum_description.block, mf_sum_attachment.block,
    block_kind.mnemonic, write_block_split, List.append_assoc, List.append_nil,
    List.nil_append]
  rfl

theorem object_width_bound (n : Nat) : ∀ props : List mf_property,
    (∀ p ∈ props, n * value_width p < 2147483648) →
    n * object_width props ≤ props.length * 2147483648 := by
  intro props
  induction props with
  | nil => intro _; simp [object_width]
  | cons p ps ih =>
    intro h
    have hw : object_width (p :: ps) = value_width p + object_width ps := rfl
    have h1 := h p (List.mem_cons_self _ _)
    have h2 := ih (fun q hq => h q (List.mem_cons_of_mem _ hq))
    rw [hw, Nat.mul_add, List.length_cons]
    omega

/-- The file `mf_write_sum_file` writes for a description with a CELLDATA block only, as
one block record between the format tag and the terminator. -/
theorem write_celldata_record (arr : mf_arrays) (src : mf_sum_attachment)
    (hprops : ∀ p ∈ arr.properties, 8 ≤ p.name.length ∧ 8 ≤ p.dimension.length)
    (hpay : ((write_objects arr src.celldata arr.num_objects.toNat 0).length : Int) =
      declared_data_size arr) :
    mf_write_sum_file ⟨none, none, some arr, none, none, none, none⟩ src =
      MN_BINARY ++ (bytes_of_int64 0 ++
        ((record.block .celldata
          (bytes_of_int64 (8 + 8 + (4 + 4 + arr.num_properties * 48) + (8 + 8) +
            declared_data_size arr + (8 + 8)))
          arr.num_objects (arr.properties.map descriptor_of) []
          (write_objects arr src.celldata arr.num_objects.toNat 0)
          (MN_ENDDATA ++ bytes_of_int64 0)).bytes ++
        (MN_ENDFILE ++ (bytes_of_int64 0 ++ [])))) := by
  rw [write_celldata_file, write_block_body_eq arr _ hprops]
  simp only [record.bytes, block_kind.mnemonic, List.append_assoc, List.append_nil, hpay]

/-- The opener on a stream of one block record and the terminator. -/
theorem open_single_record {heap : Nat} (fuel : Nat) (bytes : List Nat) (r : record)
    (sz rest : List Nat)
    (h : bytes = MN_BINARY ++ (bytes_of_int64 0 ++ (r.bytes ++ (MN_ENDFILE ++ (sz ++ rest)))))
    (hwf : r.wf) (hsz : sz.length = 8) (hmax : (bytes.length : Int) ≤ LONG_MAX)
    (hheap : bytes.length ≤ heap) :
    mf_open_sum_file heap (fuel + 2) bytes = some (.ok
      { r.apply (initial_sum_file bytes) with
        stream := (r.apply (initial_sum_file bytes)).stream.advance 16 }) := by
  have h0 : (initial_sum_file bytes).stream.bytes.drop (initial_sum_file bytes).stream.pos =
      r.bytes ++ (MN_ENDFILE ++ (sz ++ rest)) := by
    have : bytes = (MN_BINARY ++ bytes_of_int64 0) ++
        (r.bytes ++ (MN_ENDFILE ++ (sz ++ rest))) := by
      rw [h, List.append_assoc]
    simp only [initial_sum_file]
    rw [this, show 16 = (MN_BINARY ++ bytes_of_int64 0).length from rfl, List.drop_left]
  have h1 : (r.apply (initial_sum_file bytes)).stream.bytes.drop
      (r.apply (initial_sum_file bytes)).stream.pos = MN_ENDFILE ++ (sz ++ rest) := by
    rw [apply_stream]
    exact drop_rest _ _ _ h0
  have he : (r.apply (initial_sum_file bytes)).stream.eof = false := by
    rw [apply_stream]
    rfl
  rw [mf_open_sum_file_binary (fuel + 2) bytes _ h,
    open_loop_record (fuel + 1) _ r _ hwf h0 rfl hmax hheap,
    open_loop_endfile fuel _ sz rest h1 hsz he]

/-- With pairwise distinct names, the request table of the query of all names in order
is the identity. -/
theorem resolve_all_names (props : List mf_property) (ri : List Int)
    (hnd : ((props.map mf_property.name).map (List.take 8)).Nodup)
    (htab : ∀ j (hj : j < (props.map mf_property.name).length), ∃ p q,
        find_property (props.map mf_property.name)[j] props 0 = some p ∧
        props[p]? = some q ∧ (props.map mf_property.name)[j].take 8 = q.name.take 8 ∧
        ri.getD p (-1) = (j : Int) ∧ ∀ p2, p2 ≠ p → ri.getD p2 (-1) ≠ (j : Int)) :
    ∀ q, q < props.length → ri.getD q (-1) = (q : Int) := by
  intro j hj
  have hj2 : j < (props.map mf_property.name).length := by rw [List.length_map]; exact hj
  obtain ⟨p, q, _, hq, hname, hri, _⟩ := htab j hj2
  have hp : p < props.length := by
    rcases Nat.lt_or_ge p props.length with h | h
    · exact h
    · rw [List.getElem?_eq_none h] at hq
      exact absurd hq (by simp)
  have hq2 : props[p] = q := by
    rw [List.getElem?_eq_getElem hp] at hq
    exact Option.some.inj hq
  have hl : ((props.map mf_property.name).map (List.take 8)).length = props.length := by
    simp only [List.length_map]
  have e : ((props.map mf_property.name).map (List.take 8))[j] =
      ((props.map mf_property.name).map (List.take 8))[p] := by
    simp only [List.getElem_map] at hname ⊢
    rw [hname, hq2]
  have := (List.Nodup.getElem_inj_iff hnd).1 e
  subst this
  exact hri

/-- The round trip where no product overflows. A description with one CELLDATA block
whose properties are Fixed and Single, with names and units of eight bytes,
pairwise distinct names, an object count that is not negative, and object
count × data-type width below `2^31` for every property: the file
`mf_write_sum_file` writes from the source buffers is opened by
`mf_open_sum_file` (the allocator satisfying a request as large as the file),
the opened description holds the block as given, the
recorded DATA length is the declared one, and `read_data` for all the names in
order, into buffers of the object count with the element width as stride,
returns the object count and leaves in each buffer the bytes of the source
buffer. -/
theorem round_trip_fit (heap : Nat) (arr : mf_arrays) (src : mf_sum_attachment)
    (dst : List mf_data) (fuel : Nat)
    (hheap :
      (mf_write_sum_file ⟨none, none, some arr, none, none, none, none⟩ src).length ≤ heap)
    (hnames : ∀ p ∈ arr.properties, p.name.length = 8 ∧ p.dimension.length = 8)
    (hfixed : ∀ p ∈ arr.properties,
      p.phase_state = .MF_STATE0 ∧ p.output_mode = .MF_SINGLE)
    (hnd : ((arr.properties.map mf_property.name).map (List.take 8)).Nodup)
    (hne : arr.properties ≠ []) (hk : arr.properties.length < 2147483648)
    (h0 : 0 ≤ arr.num_objects)
    (hfit : ∀ p ∈ arr.properties,
      arr.num_objects * (elem_size p.data_type : Int) < 2147483648)
    (hsrc : ∀ j p, arr.properties[j]? = some p →
      (src.celldata.getD j default).stride = elem_size p.data_type)
    (hlen : dst.length = arr.properties.length)
    (hdst : ∀ j p, arr.properties[j]? = some p →
      (dst.getD j default).stride = elem_size p.data_type ∧
        (dst.getD j default).count = arr.num_objects) :
    ∃ f offset r,
      mf_open_sum_file heap (fuel + 2)
        (mf_write_sum_file ⟨none, none, some arr, none, none, none, none⟩ src) = some (.ok f) ∧
      f.description.celldata = some arr ∧
      f.celldata_loc = some (((offset : Nat) : Int), declared_data_size arr) ∧
      read_data f.stream arr ⟨arr.properties.map mf_property.name⟩ dst (offset : Nat) = .ok r ∧
      r.objects = arr.num_objects.toNat ∧
      ∀ j p, arr.properties[j]? = some p →
        ∀ a, a < arr.num_objects.toNat * elem_size p.data_type →
          mem_after (dst.getD j default).bytes j 0 r.log a =
            (src.celldata.getD j default).bytes a := by
  have hprops : ∀ p ∈ arr.properties, 8 ≤ p.name.length ∧ 8 ≤ p.dimension.length :=
    fun p hp => ⟨Nat.le_of_eq (hnames p hp).1.symm, Nat.le_of_eq (hnames p hp).2.symm⟩
  have hfix : ∀ p ∈ arr.properties, p.phase_state = .MF_STATE0 := fun p hp => (hfixed p hp).1
  have hvw : ∀ p ∈ arr.properties, value_width p = elem_size p.data_type :=
    fun p hp => value_width_single p (hfixed p hp).2
  have hfit2 : ∀ p ∈ arr.properties, -2147483648 ≤ arr.num_objects * (value_width p : Int) ∧
      arr.num_objects * (value_width p : Int) < 2147483648 := by
    intro p hp
    rw [hvw p hp]
    refine ⟨?_, hfit p hp⟩
    have : 0 ≤ arr.num_objects * (elem_size p.data_type : Int) :=
      Int.mul_nonneg h0 (Int.natCast_nonneg _)
    omega
  have hD := declared_data_size_fit arr hfit2
  have hpay : ((write_objects arr src.celldata arr.num_objects.toNat 0).length : Int) =
      declared_data_size arr := by
    rw [write_objects_length, hD]
    push_cast
    rw [Int.toNat_of_nonneg h0]
  have hfit3 : ∀ p ∈ arr.properties, arr.num_objects.toNat * value_width p < 2147483648 := by
    intro p hp
    have := (hfit2 p hp).2
    rw [← Int.toNat_of_nonneg h0] at this
    exact_mod_cast this
  have hbound := object_width_bound arr.num_objects.toNat arr.properties hfit3
  -- the first property
  obtain ⟨p0, ps, hp0⟩ := List.exists_cons_of_ne_nil hne
  have hp0m : p0 ∈ arr.properties := by rw [hp0]; exact List.mem_cons_self _ _
  have hp0g : arr.properties[0]? = some p0 := by rw [hp0]; simp
  have hk0 : 0 < arr.properties.length := by rw [hp0]; exact Nat.succ_pos _
  have hes0 : 0 < elem_size p0.data_type := by cases p0.data_type <;> decide
  have hn1 : arr.num_objects < 2147483648 := by
    have h1 := hfit p0 hp0m
    have h2 : arr.num_objects * 1 ≤ arr.num_objects * (elem_size p0.data_type : Int) :=
      Int.mul_le_mul_of_nonneg_left (by exact_mod_cast hes0) h0
    omega
  -- the file as one record
  have hfile := write_celldata_record arr src hprops hpay
  obtain ⟨_, hPl⟩ := write_block_table arr hprops
  simp only [mf_arrays.num_properties] at hPl
  have hDl := write_objects_length arr src.celldata arr.num_objects.toNat 0
  generalize hP : arrays_payload arr.num_objects (arr.properties.map descriptor_of) [] = P at *
  generalize hDd : write_objects arr src.celldata arr.num_objects.toNat 0 = D at *
  generalize hsz : bytes_of_int64 (8 + 8 + (4 + 4 + arr.num_properties * 48) + (8 + 8) +
    declared_data_size arr + (8 + 8)) = sz at *
  have hszl : sz.length = 8 := by rw [← hsz, bytes_of_int64_length]
  have hwf : (record.block .celldata sz arr.num_objects (arr.properties.map descriptor_of) []
      D (MN_ENDDATA ++ bytes_of_int64 0)).wf := by
    refine ⟨hszl, h0, hn1, ?_, ?_, ?_, rfl⟩
    · rw [List.length_map]; exact hk0
    · rw [List.length_map]; exact hk
    · intro d hd
      obtain ⟨p, hp, rfl⟩ := List.mem_map.1 hd
      exact descriptor_of_wf p (hprops p hp).1 (hprops p hp).2
  generalize hB : mf_write_sum_file ⟨none, none, some arr, none, none, none, none⟩ src =
    bytes at *
  have hL : bytes.length = 16 + (16 + (16 + (P.length + (16 + (D.length + 16))))) + 16 := by
    rw [hfile]
    simp only [record.bytes, block_kind.mnemonic, List.length_append, bytes_of_int64_length,
      hszl, List.length_nil, hP]
    rw [show MN_BINARY.length = 8 from rfl, show MN_CELLDATA.length = 8 from rfl,
      show MN_ARRAYS.length = 8 from rfl, show MN_DATA.length = 8 from rfl,
      show MN_ENDDATA.length = 8 from rfl, show MN_ENDFILE.length = 8 from rfl]
    omega
  have hPn : P.length = 8 + 48 * arr.properties.length := by omega
  have hmax : (bytes.length : Int) ≤ LONG_MAX := by
    simp only [LONG_MAX]
    omega
  have hopen := @open_single_record heap fuel bytes _ (bytes_of_int64 0) [] hfile hwf rfl hmax
    hheap
  -- the DATA section in the stream
  have hdrop : bytes.drop (16 + (48 + P.length)) =
      D ++ ((MN_ENDDATA ++ bytes_of_int64 0) ++ (MN_ENDFILE ++ (bytes_of_int64 0 ++ []))) := by
    have e : bytes = (MN_BINARY ++ (bytes_of_int64 0 ++ (MN_CELLDATA ++ (sz ++ (MN_ARRAYS ++
        (bytes_of_int64 P.length ++ (P ++ (MN_DATA ++ bytes_of_int64 D.length)))))))) ++
        (D ++ ((MN_ENDDATA ++ bytes_of_int64 0) ++
          (MN_ENDFILE ++ (bytes_of_int64 0 ++ [])))) := by
      rw [hfile]
      simp only [record.bytes, block_kind.mnemonic, List.append_assoc, hP]
    have el : (MN_BINARY ++ (bytes_of_int64 0 ++ (MN_CELLDATA ++ (sz ++ (MN_ARRAYS ++
        (bytes_of_int64 P.length ++ (P ++ (MN_DATA ++ bytes_of_int64 D.length)))))))).length =
        16 + (48 + P.length) := by
      simp only [List.length_append, bytes_of_int64_length, hszl]
      rw [show MN_BINARY.length = 8 from rfl, show MN_CELLDATA.length = 8 from rfl,
        show MN_ARRAYS.length = 8 from rfl, show MN_DATA.length = 8 from rfl]
      omega
    rw [e]
    exact List.drop_left' el
  have hobj := objects_in_stream_fixed bytes arr.properties
    (find_phst arr.properties 0 (-1)) hfix arr.num_objects.toNat (16 + (48 + P.length))
    (by rw [hL]; omega)
  have hc : data_complete bytes arr (16 + (48 + P.length)) := ⟨hmax, by rw [hobj]; rfl⟩
  have hex : ∀ name ∈ arr.properties.map mf_property.name,
      (find_property name arr.properties 0).isSome = true := by
    apply find_property_isSome
    intro name hname
    obtain ⟨p, hp, rfl⟩ := List.mem_map.1 hname
    exact ⟨p, hp, rfl⟩
  have hlen2 : dst.length = (arr.properties.map mf_property.name).length := by
    rw [List.length_map]; exact hlen
  obtain ⟨ri, r, hr, htab, hobjs, hlog⟩ := read_data_canonical (((record.block
      .celldata sz arr.num_objects (arr.properties.map descriptor_of) [] D
        (MN_ENDDATA ++ bytes_of_int64 0)).apply (initial_sum_file bytes)).stream.advance 16) arr
    ⟨arr.properties.map mf_property.name⟩ dst (16 + (48 + P.length)) hex hnd hlen2 hc
  have hri := resolve_all_names arr.properties ri hnd htab
  have hcap : arr.num_objects ≤ max_capacity dst := by
    have := count_le_max_capacity dst 0 (by omega)
    rw [(hdst 0 p0 hp0g).2] at this
    exact this
  have hobjs2 : r.objects = arr.num_objects.toNat := by rw [hobjs, min_eq_left hcap]
  have hcnt : ∀ q, q < arr.properties.length →
      ((0 + arr.num_objects.toNat : Nat) : Int) ≤ (dst.getD q default).count := by
    intro q hq
    rw [(hdst q _ (List.getElem?_eq_getElem hq)).2, Nat.zero_add, Int.toNat_of_nonneg h0]
  have hev := objects_events_written src.celldata dst ri bytes arr
    (find_phst arr.properties 0 (-1)) hfixed hri arr.num_objects.toNat 0 (16 + (48 + P.length))
    _ (by rw [hDd]; exact hdrop) (by rw [hL]; omega) hcnt
  refine ⟨_, 16 + (48 + P.length), r, hopen, ?_, ?_, hr, hobjs2, ?_⟩
  · simp only [record.apply, mf_sum_file.store_block, List.map_map]
    congr 1
    obtain ⟨n, props⟩ := arr
    congr 1
    simp only at hnames ⊢
    have e : props.map (descriptor.property ∘ descriptor_of) = props.map id :=
      List.map_congr_left (fun p hp => descriptor_of_property p (hnames p hp).1 (hnames p hp).2)
    rw [e, List.map_id]
  · simp only [record.apply, mf_sum_file.store_block, initial_sum_file, Option.orElse, hP, hpay]
  · intro j p hj a ha
    have hlog2 : r.log = objects_events dst ri bytes arr.properties
        (find_phst arr.properties 0 (-1)) r.objects 0 (16 + (48 + P.length)) := hlog
    rw [hlog2, hobjs2, hev]
    exact expected_memory src.celldata dst arr.properties arr.num_objects.toNat j p hj
      (hsrc j p hj) (hdst j p hj).1 _ a ha

theorem sample_single_strides : ∀ (j : Nat) (p : mf_property),
    sample_single_schema.properties[j]? = some p →
    (sample_single_source.celldata.getD j default).stride = elem_size p.data_type ∧
    (sample_single_target.getD j default).stride = elem_size p.data_type ∧
    (sample_single_target.getD j default).count = sample_single_schema.num_objects
  | 0, p, h => by
    simp only [sample_single_schema, List.getElem?_cons_zero, Option.some.injEq] at h
    subst h
    exact ⟨rfl, rfl, rfl⟩
  | 1, p, h => by
    simp only [sample_single_schema, List.getElem?_cons_succ, List.getElem?_cons_zero,
      Option.some.injEq] at h
    subst h
    exact ⟨rfl, rfl, rfl⟩
  | j + 2, p, h => by
    simp [sample_single_schema] at h

set_option maxRecDepth 100000 in
theorem sample_single_heap :
    (mf_write_sum_file ⟨none, none, some sample_single_schema, none, none, none, none⟩
      sample_single_source).length ≤ sample_heap := by
  decide

theorem round_trip_fit_witness :
    ∃ f offset r,
      mf_open_sum_file sample_heap (0 + 2)
        (mf_write_sum_file ⟨none, none, some sample_single_schema, none, none, none, none⟩
          sample_single_source) = some (.ok f) ∧
      f.description.celldata = some sample_single_schema ∧
      f.celldata_loc = some (((offset : Nat) : Int), declared_data_size sample_single_schema) ∧
      read_data f.stream sample_single_schema
        ⟨sample_single_schema.properties.map mf_property.name⟩ sample_single_target
        (offset : Nat) = .ok r ∧
      r.objects = sample_single_schema.num_objects.toNat ∧
      ∀ j p, sample_single_schema.properties[j]? = some p →
        ∀ a, a < sample_single_schema.num_objects.toNat * elem_size p.data_type →
          mem_after (sample_single_target.getD j default).bytes j 0 r.log a =
            (sample_single_source.celldata.getD j default).bytes a :=
  round_trip_fit sample_heap sample_single_schema sample_single_source sample_single_target 0
    sample_single_heap (by decide) (by decide) (by decide) (by decide) (by decide) (by decide)
      (by decide)
    (fun j p h => (sample_single_strides j p h).1) rfl
    (fun j p h => ⟨(sample_single_strides j p h).2.1, (sample_single_strides j p h).2.2⟩)

/-- The schema round trip where no product overflows. For a schema with at least one
property, names and units of eight bytes, an object count in `[0, 2^31)` and
object count × per-value width below `2^31` for every property (any data
type, arity and phase mode), and an allocator that satisfies a request as
large as the stream, `read_arrays` on the ARRAYS and DATA records `write_block`
wrote returns the schema as given, and the position and declared length of the
DATA section. -/
theorem read_arrays_write_block_fit (heap : Nat) (s : FILE) (arr : mf_arrays)
    (data : List mf_data) (rest : List Nat)
    (h : s.bytes.drop s.pos = write_block_body arr data ++ rest)
    (he : s.eof = false) (hmax : (s.bytes.length : Int) ≤ LONG_MAX)
    (hheap : s.bytes.length ≤ heap)
    (hnames : ∀ p ∈ arr.properties, p.name.length = 8 ∧ p.dimension.length = 8)
    (hne : arr.properties ≠ []) (hk : arr.properties.length < 2147483648)
    (h0 : 0 ≤ arr.num_objects) (hn1 : arr.num_objects < 2147483648)
    (hfit : ∀ p ∈ arr.properties, arr.num_objects * (value_width p : Int) < 2147483648) :
    ∃ s2, read_arrays heap s = .ok (s2, arr,
      some (((s.pos + (32 + (8 + 48 * arr.properties.length)) : Nat) : Int),
        declared_data_size arr)) := by
  have hprops : ∀ p ∈ arr.properties, 8 ≤ p.name.length ∧ 8 ≤ p.dimension.length :=
    fun p hp => ⟨Nat.le_of_eq (hnames p hp).1.symm, Nat.le_of_eq (hnames p hp).2.symm⟩
  have hfit2 : ∀ p ∈ arr.properties, -2147483648 ≤ arr.num_objects * (value_width p : Int) ∧
      arr.num_objects * (value_width p : Int) < 2147483648 := by
    intro p hp
    refine ⟨?_, hfit p hp⟩
    have : 0 ≤ arr.num_objects * (value_width p : Int) :=
      Int.mul_nonneg h0 (Int.natCast_nonneg _)
    omega
  have hD := declared_data_size_fit arr hfit2
  have hpay : ((write_objects arr data arr.num_objects.toNat 0).length : Int) =
      declared_data_size arr := by
    rw [write_objects_length, hD]
    push_cast
    rw [Int.toNat_of_nonneg h0]
  obtain ⟨_, hPl⟩ := write_block_table arr hprops
  simp only [mf_arrays.num_properties] at hPl
  have hPn : (arrays_payload arr.num_objects (arr.properties.map descriptor_of) []).length =
      8 + 48 * arr.properties.length := by omega
  have hk0 : 0 < arr.properties.length := List.length_pos.2 hne
  rw [write_block_body_eq arr data hprops, ← hpay] at h
  simp only [List.append_assoc] at h
  have hr := read_arrays_block s arr.num_objects (arr.properties.map descriptor_of) []
    (write_objects arr data arr.num_objects.toNat 0) (MN_ENDDATA ++ bytes_of_int64 0) rest
    h he hmax hheap h0 hn1 (by rw [List.length_map]; exact hk0) (by rw [List.length_map]; exact hk)
    (by
      intro d hd
      obtain ⟨p, hp, rfl⟩ := List.mem_map.1 hd
      exact descriptor_of_wf p (hprops p hp).1 (hprops p hp).2)
    rfl
  have e : (arr.properties.map descriptor_of).map descriptor.property = arr.properties := by
    rw [List.map_map]
    have e2 : arr.properties.map (descriptor.property ∘ descriptor_of) =
        arr.properties.map id :=
      List.map_congr_left
        (fun p hp => descriptor_of_property p (hnames p hp).1 (hnames p hp).2)
    rw [e2, List.map_id]
  rw [e, hPn, hpay] at hr
  exact ⟨_, hr⟩

set_option maxRecDepth 100000 in
theorem sample_phase_fit :
    ((write_block_body sample_phase_schema sample_phase_source).length : Int) ≤ LONG_MAX := by
  decide

set_option maxRecDepth 100000 in
theorem sample_phase_heap :
    (write_block_body sample_phase_schema sample_phase_source).length ≤ sample_heap := by
  decide

theorem read_arrays_write_block_fit_witness :
    ∃ s2, read_arrays sample_heap
        ⟨write_block_body sample_phase_schema sample_phase_source, 0, false⟩ =
      .ok (s2, sample_phase_schema,
        some (((0 + (32 + (8 + 48 * sample_phase_schema.properties.length)) : Nat) : Int),
          declared_data_size sample_phase_schema)) :=
  read_arrays_write_block_fit sample_heap
    ⟨write_block_body sample_phase_schema sample_phase_source, 0, false⟩
    sample_phase_schema sample_phase_source [] (by simp) rfl sample_phase_fit sample_phase_heap
    (by decide) (by decide) (by decide) (by decide) (by decide) (by decide)


end Mufits
